import Mathlib

/-! # oomact: calibration variables, covariance priors and the list of variables of the model

A shallow embedding of parts of `oomact` (`Model.cpp`, `Module.cpp`,
`CalibrationVariable.h`, `CalibrationVariable.cpp`, `MotionCaptureSensor.cpp`) together with
theorems about them.

Conventions of the embedding

* C++ `int` values are unbounded integers (`Int`), or `Nat` where the quantity is a
  size or a dimension; signed overflow is undefined behaviour in the source and is
  not modelled.
* C++ `double` values are rationals (`ℚ`). The products of matrices of `double` round every
  product and every sum to a `double` (`roundToDouble`, `productOfDoubles`); a number read
  from a decimal string is the nearest `double`. Comparisons and the remaining arithmetic,
  on timestamps, delays and parameter blocks, are exact.
* `std::string` is a list of characters where the source parses it, and a `String` where it
  is a name, a key or a message.
* A `boost::shared_ptr<CalibrationVariable>` is a record carrying the identity of the
  pointee (`id`); two pointers are equal exactly when the identities are.
* Exceptions and fatal checks are values of `Except`; a call that fails leaves the state it
  was made on as it was.
* A `std::map` is a list of key and value pairs without repeated keys.
-/

namespace aslam.calibration

/-! ## Model.cpp : the aggregate list of calibration variables -/

/-- What `Model` reads and writes of a `CalibrationVariable`: `id` stands for the instance
the shared pointer points to, `active` is `getDesignVariable().isActive()`, `dimension` is
`getDimension()` and `index` is the private member `_index` (initially `-1`). -/
structure CalibrationVariable where
  id : Nat
  active : Bool
  dimension : Nat
  index : Int := -1
deriving DecidableEq, Repr

/-- The C++ member `void setIndex(int i) { _index = i; }`. -/
def CalibrationVariable.setIndex (c : CalibrationVariable) (i : Int) : CalibrationVariable :=
  { c with index := i }

/-- The C++ member `DesignVariable::setActive(bool)` of the variable's design variable. -/
def CalibrationVariable.setActive (c : CalibrationVariable) (b : Bool) : CalibrationVariable :=
  { c with active := b }

/-- The loop of `Model::updateCVIndices`, started with the counter `i`, over the remaining
variables. -/
def updateCVIndicesFrom : Int → List CalibrationVariable → List CalibrationVariable
  | _, [] => []
  | i, c :: cs =>
    if c.active then
      c.setIndex i :: updateCVIndicesFrom (i + (c.dimension : Int)) cs
    else
      c.setIndex (-1) :: updateCVIndicesFrom i cs

/-- The fatal outcomes of `Model.cpp`, `Module.cpp` and the sensors: a `std::runtime_error`
with the message the source passes (`what`; text that an assertion helper adds around it is
left out), a failing `CHECK` of glog, which aborts the process, and the exception of the value
store for a key that is required and absent. -/
inductive Fatal where
  | runtimeError (what : String)
  | checkFailed
  | valueStoreError (key : String)
deriving DecidableEq, Repr

/-- A `Frame`: `name` is `getName()` and `id` stands for the instance a reference refers to. -/
structure Frame where
  name : String
  id : Nat
deriving DecidableEq, Repr

/-- What `Model` reads of a `Sensor`: `id` is `getId()` and `name` is `getName()`. -/
structure Sensor where
  id : Nat
  name : String
deriving DecidableEq, Repr

/-- The member `count(k)` of a map: 1 if the key is present and 0 otherwise. -/
def mapCount {K V : Type} [DecidableEq K] (m : List (K × V)) (k : K) : Nat :=
  if k ∈ m.map Prod.fst then 1 else 0

/-- The member `emplace(k, v)` of a map: nothing is inserted if the key is present. -/
def mapEmplace {K V : Type} [DecidableEq K] (m : List (K × V)) (k : K) (v : V) :
    List (K × V) :=
  if k ∈ m.map Prod.fst then m else m ++ [(k, v)]

/-- The members `find(k)` and `at(k)` of a map: the value stored under the key, if any. -/
def mapFind {K V : Type} [DecidableEq K] (m : List (K × V)) (k : K) : Option V :=
  (m.find? (fun e => decide (e.1 = k))).map Prod.snd

/-- The members of `Model` that the source files at hand work on: the aggregate list
`calibrationVariables`, in insertion order, the frames with their name map, the frames the
model owns (`ownedNOs`) and the sensors with their id map. -/
structure Model where
  calibrationVariables : List CalibrationVariable
  frames : List Frame := []
  id2framesMap : List (String × Frame) := []
  ownedNOs : List Frame := []
  sensors : List Sensor := []
  id2sensorMap : List (Nat × Sensor) := []
deriving DecidableEq, Repr

/-- A model whose aggregate list is still empty. -/
def Model.empty : Model := { calibrationVariables := [] }

/-- The C++ member `Model::updateCVIndices`. -/
def Model.updateCVIndices (m : Model) : Model :=
  { m with calibrationVariables := updateCVIndicesFrom 0 m.calibrationVariables }

/-- The test `std::count(calibrationVariables.begin(), calibrationVariables.end(), cv)`:
the number of entries that are the instance `c`. -/
def Model.count (m : Model) (c : CalibrationVariable) : Nat :=
  m.calibrationVariables.countP (fun x => x.id == c.id)

/-- One round of the loop of `Model::addCalibrationVariables`: a null pointer and an
instance that is already listed are skipped, any other is pushed at the back. -/
def Model.pushIfNew (m : Model) (cv : Option CalibrationVariable) : Model :=
  match cv with
  | some c =>
    if m.count c = 0 then
      { m with calibrationVariables := m.calibrationVariables ++ [c] }
    else m
  | none => m

/-- The C++ member `Model::addCalibrationVariables`; `none` is a null shared pointer. -/
def Model.addCalibrationVariables (m : Model) (cvs : List (Option CalibrationVariable)) :
    Model :=
  (cvs.foldl Model.pushIfNew m).updateCVIndices

/-- A call of `setActive(b)` on the design variable of the instance `id`, seen from the model:
the flag of that instance changes and nothing else does. -/
def Model.setActive (m : Model) (id : Nat) (b : Bool) : Model :=
  { m with calibrationVariables :=
      m.calibrationVariables.map (fun c => if c.id = id then c.setActive b else c) }

/-! ## Model.cpp : frames and sensors -/

/-- The C++ member `Model::addFrame`. -/
def Model.addFrame (m : Model) (frame : Frame) : Except Fatal Model :=
  let name := frame.name
  if mapCount m.id2framesMap name ≠ 0 then
    .error (.runtimeError ("A frame with name " ++ name ++ " already exists."))
  else
    .ok { m with
      frames := m.frames ++ [frame]
      id2framesMap := mapEmplace m.id2framesMap name frame }

/-- The C++ member `Model::createFrame`; `address` stands for the instance that
`new GenericFrame(name)` allocates. The new frame is returned with the model. -/
def Model.createFrame (m : Model) (name : String) (address : Nat) :
    Except Fatal (Frame × Model) :=
  let f : Frame := { name := name, id := address }
  match m.addFrame f with
  | .error e => .error e
  | .ok m1 => .ok (f, { m1 with ownedNOs := m1.ownedNOs ++ [f] })

/-- The C++ member `Model::getFrame`. -/
def Model.getFrame (m : Model) (name : String) : Except Fatal Frame :=
  if mapCount m.id2framesMap name = 0 then
    .error (.runtimeError ("A frame with name " ++ name ++ " doesn't exists."))
  else
    match mapFind m.id2framesMap name with
    | some f => .ok f
    | none => .error (.runtimeError "map::at")

/-- The C++ member `Model::registerSensor`. -/
def Model.registerSensor (m : Model) (s : Sensor) : Model :=
  { m with
    id2sensorMap := mapEmplace m.id2sensorMap s.id s
    sensors := m.sensors ++ [s] }

/-- The C++ member `Model::getSensor`. -/
def Model.getSensor (m : Model) (id : Nat) : Except Fatal Sensor :=
  match mapFind m.id2sensorMap id with
  | none => .error (.runtimeError ("Illegal sensor id used:" ++ toString id ++ "!"))
  | some s => .ok s

/-- The calls that change the frames and the sensors of a model. -/
inductive RegistryOp where
  | addFrame (frame : Frame)
  | createFrame (name : String) (address : Nat)
  | registerSensor (s : Sensor)
deriving DecidableEq, Repr

/-- The effect of one call on the model; a call that throws leaves the model as it was. -/
def Model.applyRegistryOp (m : Model) : RegistryOp → Model
  | .addFrame frame =>
    match m.addFrame frame with
    | .ok m1 => m1
    | .error _ => m
  | .createFrame name address =>
    match m.createFrame name address with
    | .ok r => r.2
    | .error _ => m
  | .registerSensor s => m.registerSensor s

/-- The model after a sequence of such calls, started without frames and sensors. -/
def Model.runRegistry (ops : List RegistryOp) : Model :=
  ops.foldl Model.applyRegistryOp Model.empty

/-- The name of the frame a call tries to add, if it is such a call. -/
def RegistryOp.frameName : RegistryOp → Option String
  | .addFrame frame => some frame.name
  | .createFrame name _ => some name
  | .registerSensor _ => none

/-- The id of the sensor a call registers, if it is such a call. -/
def RegistryOp.sensorId : RegistryOp → Option Nat
  | .addFrame _ => none
  | .createFrame _ _ => none
  | .registerSensor s => some s.id

/-- The frames of a model are consistent: the name map lists the frames under their names, in
the order of the frame list, and no name occurs twice. -/
def FramesConsistent (m : Model) : Prop :=
  m.id2framesMap = m.frames.map (fun f => (f.name, f)) ∧ (m.frames.map (fun f => f.name)).Nodup

/-! ## Module.cpp : activation of a module's calibration variables -/

/-- The part of the value store (`sm::value_store`, an external library) that `Covariance`
and the module links read: `getString key` is the string stored under `key`, if there is one, and `getDouble key` is
what `getDouble(key).get()` yields, if it yields a number. -/
structure ValueStore where
  getString : String → Option (List Char)
  getDouble : String → Option ℚ

/-- The class `ModuleLinkBase`: the name held by its base `NamedMinimal`, the target identifier
and the flag `required`. -/
structure ModuleLinkBase where
  name : String
  targetUid : String
  required : Bool
deriving DecidableEq, Repr

/-- The C++ member `ModuleLinkBase::print`, as the text it writes. -/
def ModuleLinkBase.print (l : ModuleLinkBase) : String :=
  "ModuleLink(" ++ l.name ++ "->" ++ (if l.targetUid = "" then "NONE" else l.targetUid) ++ ")"

/-- Modelled from the spec: `toString` belongs to the printable base of named objects, which is
not among the sources; a link is displayed as `print` writes it. -/
def ModuleLinkBase.toString (l : ModuleLinkBase) : String := l.print

/-- The constructor `ModuleLinkBase(ownerName, linkName, targetUid, required)`. -/
def ModuleLinkBase.construct (ownerName linkName targetUid : String) (required : Bool) :
    Except Fatal ModuleLinkBase :=
  let l : ModuleLinkBase :=
    { name := ownerName ++ "." ++ linkName, targetUid := targetUid, required := required }
  if required && decide (targetUid = "") then
    .error (.runtimeError ("Empty required Link : " ++ l.toString))
  else
    .ok l

/-- The part of `EstConf` that `Module::setCalibrationActive` and `Module::shouldObserveOnly`
consult. Activators are asked about a module, which is given by its name. -/
structure EstConf where
  calibrationActivator : String → Bool
  errorTermActivator : String → Bool
  isSpatialActive : Bool
  isTemporalActive : Bool

/-- The class `Module`: its name, its configuration, the flags `used_` and `isRegistered_`
and its links. The capabilities probed with `isA<...>()` are flags; the virtual members
`isCalibrationIntended` and `setActive` are fields, `setActive spatial temporal` giving the
design-variable `setActive` calls (instance, flag) the override makes, in order. -/
structure Module where
  name : String
  myConfig : ValueStore
  used_ : Bool
  isRegistered_ : Bool := false
  moduleLinks_ : List ModuleLinkBase := []
  isActivatable : Bool
  isObserver : Bool
  isObserveOnly : Bool
  isCalibratable : Bool
  isToBeCalibrated : Bool
  isCalibrationIntended : EstConf → Bool
  setActive : Bool → Bool → List (Nat × Bool)

/-- The design-variable `setActive` calls of a module's `setActive`, applied in order. -/
def Model.applySetActive (m : Model) (calls : List (Nat × Bool)) : Model :=
  calls.foldl (fun acc call => acc.setActive call.1 call.2) m

/-- The local `active` of `Module::setCalibrationActive`. -/
def Module.calibrationActive (mod : Module) (ec : EstConf) : Bool :=
  (!mod.isActivatable || ec.calibrationActivator mod.name)
    && (!mod.isObserver || !mod.isObserveOnly)
    && (!mod.isCalibratable || mod.isToBeCalibrated)
    && mod.isCalibrationIntended ec

/-- The C++ member `Module::setCalibrationActive`, as a change of the module's model. -/
def Module.setCalibrationActive (mod : Module) (ec : EstConf) (m : Model) : Model :=
  let active := mod.calibrationActive ec
  (m.applySetActive
    (mod.setActive (active && ec.isSpatialActive) (active && ec.isTemporalActive))).updateCVIndices

/-- The C++ member `Module::isUsed`. -/
def Module.isUsed (mod : Module) : Bool := mod.used_

/-- The C++ member `Module::registerWithModel`. -/
def Module.registerWithModel (mod : Module) : Except Fatal Module :=
  if !mod.isUsed then
    .error .checkFailed
  else if mod.isRegistered_ then
    .error (.runtimeError ("Only register a module once! (name=" ++ mod.name ++ ")"))
  else
    .ok { mod with isRegistered_ := true }

/-- A call of `registerWithModel` on a module that stays in use whether the call succeeds or
not: the module afterwards and whether the call succeeded. -/
def Module.tryRegister (mod : Module) : Module × Bool :=
  match mod.registerWithModel with
  | .ok mod1 => (mod1, true)
  | .error _ => (mod, false)

/-- The number of successful calls among `n` calls of `registerWithModel` in a row. -/
def Module.successfulRegistrations : Nat → Module → Nat
  | 0, _ => 0
  | n + 1, mod =>
    (if mod.tryRegister.2 then 1 else 0) + Module.successfulRegistrations n mod.tryRegister.1

/-- The C++ member `Module::shouldObserveOnly`. -/
def Module.shouldObserveOnly (mod : Module) (ec : EstConf) : Bool :=
  let observeOnly := mod.isObserver && mod.isObserveOnly
  let errorTermsInactive := mod.isActivatable && !ec.errorTermActivator mod.name
  observeOnly || errorTermsInactive

/-- The constructor `ModuleLinkBase(owner, linkName, required)`: the target identifier is read
from the configuration of the owner, without a default if the link is required, and the link
is appended to the links of the owner. -/
def ModuleLinkBase.constructFor (owner : Module) (linkName : String) (required : Bool) :
    Except Fatal (ModuleLinkBase × Module) :=
  let targetUid : Except Fatal String :=
    if required then
      match owner.myConfig.getString linkName with
      | some t => .ok (String.mk t)
      | none => .error (.valueStoreError linkName)
    else
      .ok (String.mk ((owner.myConfig.getString linkName).getD []))
  match targetUid with
  | .error e => .error e
  | .ok t =>
    match ModuleLinkBase.construct owner.name linkName t required with
    | .error e => .error e
    | .ok l => .ok (l, { owner with moduleLinks_ := owner.moduleLinks_ ++ [l] })

/-- The C++ member `ModuleLinkBase::checkAndAnnounceResolvedLink`; `to_` is the target module
`to`, `none` for a null pointer. Logging is left out. -/
def ModuleLinkBase.checkAndAnnounceResolvedLink (l : ModuleLinkBase) (to_ : Option Module)
    (convertsToRequiredType : Bool) : Except Fatal Unit :=
  let resolved : Bool :=
    match to_ with
    | some t => t.isUsed && convertsToRequiredType
    | none => false
  if resolved then
    .ok ()
  else
    let problem : String :=
      match to_ with
      | some t =>
        if t.isUsed then " resolves to unused module!"
        else " resolves to used module but of wrong type!"
      | none => " could not be resolved!"
    if l.required then
      .error (.runtimeError (l.toString ++ problem))
    else
      .ok ()

/-- The class `SimpleGravity` of `Model.cpp`: its base `Module` and the member `g_m`, which is
null if the module is not used. -/
structure SimpleGravity where
  module : Module
  g_m : Option CalibrationVariable

/-- The constructor of `SimpleGravity`: a module named `Gravity` that is not registered yet;
`used` is what `myConfig.getBool("used", isUsedByDefault)` yields and `magnitude` is the
variable that `createCVIfUsed` creates. No capability is probed on a `SimpleGravity` in the
sources, the flags are off. Modelled from the spec: `createCVIfUsed` is not among the sources;
a module that is not used owns no calibration variable. -/
def SimpleGravity.construct (myConfig : ValueStore) (used : Bool)
    (magnitude : CalibrationVariable) : SimpleGravity :=
  { module :=
      { name := "Gravity"
        myConfig := myConfig
        used_ := used
        isActivatable := false
        isObserver := false
        isObserveOnly := false
        isCalibratable := false
        isToBeCalibrated := false
        isCalibrationIntended := fun _ => true
        setActive := fun spatial _ => if used then [(magnitude.id, spatial)] else [] }
    g_m := if used then some magnitude else none }

/-- The C++ member `SimpleGravity::registerWithModel`: the model and the module afterwards. -/
def SimpleGravity.registerWithModel (g : SimpleGravity) (m : Model) :
    Except Fatal (SimpleGravity × Model) :=
  let m1 := if g.module.isUsed then m.addCalibrationVariables [g.g_m] else m
  match g.module.registerWithModel with
  | .error e => .error e
  | .ok mod => .ok ({ g with module := mod }, m1)

/-- The loop `for (auto f : frames) if (f) addFrame(*f);` of the constructor of `Model`. -/
def Model.addFrames : Model → List (Option Frame) → Except Fatal Model
  | m, [] => .ok m
  | m, none :: fs => Model.addFrames m fs
  | m, some f :: fs =>
    match m.addFrame f with
    | .error e => .error e
    | .ok m1 => Model.addFrames m1 fs

/-- The constructor `Model::Model(config, configPathResolver, frames)`; `gravity` is the
`SimpleGravity` that it creates from `config`. It yields the model and its gravity module. -/
def Model.construct (gravity : SimpleGravity) (frames : List (Option Frame)) :
    Except Fatal (Model × SimpleGravity) :=
  match Model.empty.addFrames frames with
  | .error e => .error e
  | .ok m =>
    match gravity.registerWithModel m with
    | .error e => .error e
    | .ok r => .ok (r.2, r.1)

/-! ## MotionCaptureSensor.cpp -/

/-- The calibration variables of a `MotionCaptureSystem`, by instance: the rotation and the
translation of `PoseCv` and the delay of `DelayCv`, each of which may be absent. -/
structure MotionCaptureSystem where
  used_ : Bool
  rotationVariable : Option Nat
  translationVariable : Option Nat
  delayVariable : Option Nat
deriving DecidableEq, Repr

/-- Modelled from the spec: `PoseCv::setActive` is not among the sources; the spatial flag is
applied to the owned rotation and translation variables. -/
def PoseCv.setActive (rotationVariable translationVariable : Option Nat) (active : Bool) :
    List (Nat × Bool) :=
  (rotationVariable.toList ++ translationVariable.toList).map (fun v => (v, active))

/-- Modelled from the spec: `DelayCv::setActive` is not among the sources; the temporal flag is
applied to the owned delay variable. -/
def DelayCv.setActive (delayVariable : Option Nat) (active : Bool) : List (Nat × Bool) :=
  delayVariable.toList.map (fun v => (v, active))

/-- The C++ member `MotionCaptureSystem::setActive`, as the design-variable `setActive` calls
it makes. -/
def MotionCaptureSystem.setActive (s : MotionCaptureSystem) (spatial temporal : Bool) :
    List (Nat × Bool) :=
  if s.used_ then
    PoseCv.setActive s.rotationVariable s.translationVariable spatial
      ++ DelayCv.setActive s.delayVariable temporal
  else []

/-- A `MotionCaptureSystem` as a `Module`: it is `Calibratable` (through `CalibratableMinimal`,
which reads `estimate`), not an `Observer`, and its `setActive` is the override. -/
def MotionCaptureSystem.asModule (s : MotionCaptureSystem) (name : String)
    (myConfig : ValueStore) (isActivatable toBeCalibrated : Bool) : Module :=
  { name := name
    myConfig := myConfig
    used_ := s.used_
    isActivatable := isActivatable
    isObserver := false
    isObserveOnly := false
    isCalibratable := true
    isToBeCalibrated := toBeCalibrated
    isCalibrationIntended := fun _ => true
    setActive := s.setActive }

/-- The operations that change the aggregate list or the activation of its variables. -/
inductive ModelOp where
  | addCalibrationVariables (cvs : List (Option CalibrationVariable))
  | setCalibrationActive (mod : Module) (ec : EstConf)
  | setActive (id : Nat) (b : Bool)
  | updateCVIndices

/-- The effect of one operation. -/
def Model.step (m : Model) : ModelOp → Model
  | .addCalibrationVariables cvs => m.addCalibrationVariables cvs
  | .setCalibrationActive mod ec => mod.setCalibrationActive ec m
  | .setActive id b => m.setActive id b
  | .updateCVIndices => m.updateCVIndices

/-- The state after a sequence of operations on a model with an empty aggregate list. -/
def Model.run (ops : List ModelOp) : Model :=
  ops.foldl Model.step Model.empty

/-- Whether an operation ends in a call of `Model::updateCVIndices`. -/
def ModelOp.reindexes : ModelOp → Bool
  | .addCalibrationVariables _ => true
  | .setCalibrationActive _ _ => true
  | .setActive _ _ => false
  | .updateCVIndices => true

/-- The sum of the dimensions of the active variables of a list. -/
def activeDimension (l : List CalibrationVariable) : Nat :=
  ((l.filter (fun c => c.active)).map (fun c => c.dimension)).sum

/-- The indices of a list are consistent: every active variable carries the sum of the
dimensions of the active variables before it, every inactive one carries `-1`. -/
def IndicesConsistent (l : List CalibrationVariable) : Prop :=
  ∀ (k : Nat) (c : CalibrationVariable), l[k]? = some c →
    c.index = if c.active then (activeDimension (l.take k) : Int) else -1

/-- The instances of a list, in order. -/
def instances (l : List CalibrationVariable) : List Nat := l.map (fun c => c.id)

/-! ## CalibrationVariable.h, CalibrationVariable.cpp : Covariance -/

/-- The failures of constructing a `Covariance`: the `std::runtime_error` thrown for a sigma
string that cannot be parsed, an exception of `std::stod` on one of the parts, a failing
`CHECK`, and a failing `valueStore.getDouble("sigma").get()`. -/
inductive CovarianceError where
  | parseFailure (s : List Char)
  | invalidNumber (p : List Char)
  | checkFailed
  | noDouble
deriving DecidableEq, Repr

/-- The class `Covariance`: its member `covarianceSqrt`, of size `dim` by `dim`. -/
structure Covariance (dim : Nat) where
  covarianceSqrt : Matrix (Fin dim) (Fin dim) ℚ

/-- A coefficient write `m(r, c) = v`. The source only writes inside the matrix; a write outside
leaves the matrix as it is. -/
def setCoeff {dim : Nat} (m : Matrix (Fin dim) (Fin dim) ℚ) (r c : Nat) (v : ℚ) :
    Matrix (Fin dim) (Fin dim) ℚ :=
  fun a b => if a.val = r ∧ b.val = c then v else m a b

/-- Modelled from the spec: `splitString` is declared in `tools.h` and its definition is not
among the sources. A comma list of `n` entries has `n` parts: the string is cut at every
character of `delimiters`, and empty pieces are kept. -/
def splitString (s : List Char) (delimiters : List Char) : List (List Char) :=
  match s with
  | [] => [[]]
  | ch :: rest =>
    if ch ∈ delimiters then [] :: splitString rest delimiters
    else
      match splitString rest delimiters with
      | [] => [[ch]]
      | p :: ps => (ch :: p) :: ps

/-- The call `boost::algorithm::replace_all(s, " ", "")`: every blank is removed. -/
def removeBlanks (s : List Char) : List Char := s.filter (fun ch => ch != ' ')

/-- The loop `for (auto p : parts)` of the constructor of `Covariance`, with the counter `i` and
the matrix built so far. `stod` is `std::stod`, which yields no number when it throws. -/
def fillCoefficients (stod : List Char → Option ℚ) (dim : Nat) (isDiagOnly : Bool) :
    List (List Char) → Nat → Matrix (Fin dim) (Fin dim) ℚ →
      Except CovarianceError (Matrix (Fin dim) (Fin dim) ℚ)
  | [], _, m => .ok m
  | p :: ps, i, m =>
    match stod p with
    | none => .error (.invalidNumber p)
    | some v =>
      fillCoefficients stod dim isDiagOnly ps (i + 1)
        (if isDiagOnly then setCoeff m i i v else setCoeff m (i / dim) (i % dim) v)

/-- The constructor `Covariance::Covariance(valueStore, dim)` (the flag `load` of the
definition being true, as for the two-argument constructor the header declares). -/
def Covariance.construct (stod : List Char → Option ℚ) (valueStore : ValueStore) (dim : Nat) :
    Except CovarianceError (Covariance dim) :=
  let s := (valueStore.getString "sigma").getD []
  if s = [] then
    .ok ⟨1⟩
  else
    let commas : Int := (s.count ',' : Nat)
    if commas = 0 then
      match valueStore.getDouble "sigma" with
      | some v => .ok ⟨(1 : Matrix (Fin dim) (Fin dim) ℚ).map (fun x => x * v)⟩
      | none => .error .noDouble
    else if commas = (dim : Int) - 1 ∨ commas = (dim : Int) * (dim : Int) - 1 then
      let s := removeBlanks s
      let parts := splitString s [',']
      let isDiagOnly : Bool := decide (parts.length = dim)
      if isDiagOnly ∨ parts.length = dim * dim then
        (fillCoefficients stod dim isDiagOnly parts 0 1).map (fun m => ⟨m⟩)
      else
        .error .checkFailed
    else
      .error (.parseFailure s)

/-- The C++ member `Covariance::getValueSqrt`. -/
def Covariance.getValueSqrt {dim : Nat} (c : Covariance dim) : Matrix (Fin dim) (Fin dim) ℚ :=
  c.covarianceSqrt

/-- Rounding to the nearest integer, a tie going to the even one. -/
def roundHalfEven (x : ℚ) : ℤ :=
  let f := ⌊x⌋
  let r := x - f
  if r < 1 / 2 then f
  else if 1 / 2 < r then f + 1
  else if f % 2 = 0 then f else f + 1

/-- The rounding of the arithmetic of `double` (IEEE 754 binary64, in its default mode): the
number with a significand of 53 bits that is nearest to the exact result `q`, a tie going to
the even significand. The range of the exponent is taken as unbounded: overflow and subnormal
numbers are left out. -/
def roundToDouble (q : ℚ) : ℚ :=
  if q = 0 then 0
  else
    let e : ℤ := Int.log 2 |q|
    (roundHalfEven (q / 2 ^ (e - 52)) : ℚ) * 2 ^ (e - 52)

/-- The product `a * b` of two matrices of `double`: a coefficient is the sum of the products
`a(i, k) * b(k, j)`, every product and every sum being rounded to a `double`. The sum is taken
in the order of `k`, without fused multiply-add. -/
def productOfDoubles {dim : Nat} (a b : Matrix (Fin dim) (Fin dim) ℚ) :
    Matrix (Fin dim) (Fin dim) ℚ :=
  fun i j =>
    (List.finRange dim).foldl (fun acc k => roundToDouble (acc + roundToDouble (a i k * b k j))) 0

/-- The C++ member `Covariance::getValue`: `covarianceSqrt.transpose() * covarianceSqrt`, a
product of matrices of `double`. -/
def Covariance.getValue {dim : Nat} (c : Covariance dim) : Matrix (Fin dim) (Fin dim) ℚ :=
  productOfDoubles c.covarianceSqrt.transpose c.covarianceSqrt

/-- What `PriorErrorTermCreater<backend::RotationQuaternion>::createPriorErrorTerm` hands to
the marginalisation prior it builds: the offset `d` and the information matrix set with
`vsSetInvR`. -/
structure QuaternionPriorErrorTerm where
  d : Fin 3 → ℚ
  invR : Matrix (Fin 3) (Fin 3) ℚ

/-- The function `PriorErrorTermCreater<backend::RotationQuaternion>::createPriorErrorTerm`;
`inverse` is the matrix inverse of Eigen, applied to the product
`covSqrt * covSqrt.transpose()` of matrices of `double`. -/
def createPriorErrorTermRotationQuaternion
    (inverse : Matrix (Fin 3) (Fin 3) ℚ → Matrix (Fin 3) (Fin 3) ℚ)
    (covSqrt : Matrix (Fin 3) (Fin 3) ℚ) : QuaternionPriorErrorTerm :=
  { d := 0, invR := inverse (productOfDoubles covSqrt covSqrt.transpose) }

/-- A reader of unsigned decimal integers: it agrees with `std::stod` on strings of decimal
digits and serves to evaluate the constructor on concrete strings. -/
def readDigits (s : List Char) : Option ℚ :=
  if s ≠ [] ∧ s.all Char.isDigit = true then
    some ((s.foldl (fun acc ch => 10 * acc + (ch.toNat - 48)) 0 : Nat) : ℚ)
  else none

/-- A value store holding the one string `sigma` under the key `sigma`; its `getDouble` reads
the string with `readDigits`. -/
def sigmaStore (sigma : String) : ValueStore :=
  { getString := fun key => if key = "sigma" then some sigma.toList else none
    getDouble := fun key => if key = "sigma" then readDigits sigma.toList else none }

/-- An `Interval` of timestamps; timestamps are exact numbers. -/
structure Interval where
  start : ℚ
  end_ : ℚ
deriving DecidableEq, Repr

/-- The two conditions that `addMeasurementErrorTerms` attaches with `addConditionShared`:
`timestamp - delay.evaluate() >= interval.start` and
`timestamp - delay.evaluate() <= interval.end`. -/
inductive Condition where
  | notBeforeStart (timestamp start : ℚ)
  | notAfterEnd (timestamp end_ : ℚ)
deriving DecidableEq, Repr

/-- The value of a condition when the delay expression evaluates to `delay`. -/
def Condition.holds (c : Condition) (delay : ℚ) : Bool :=
  match c with
  | .notBeforeStart timestamp start => decide (timestamp - delay ≥ start)
  | .notAfterEnd timestamp end_ => decide (timestamp - delay ≤ end_)

/-- A pose error term as it is handed to `es.add`: the timestamp and the pose of its
measurement and the conditions wrapped around it, none for an unconditional term. -/
structure ErrorTermPose (Pose : Type) where
  timestamp : ℚ
  pose : Pose
  conditions : List Condition

/-- Whether all conditions of a term hold when the delay expression evaluates to `delay`. -/
def ErrorTermPose.isActive {Pose : Type} (e : ErrorTermPose Pose) (delay : ℚ) : Bool :=
  e.conditions.all (fun c => c.holds delay)

/-- The part of a `ModuleStorage` that belongs to one pose sensor: `none` when the storage holds
no entry of the sensor, and the `PoseMeasurements` of the entry (timestamp and pose of each
measurement, possibly none at all) when it holds one. -/
abbrev ModuleStorage (Pose : Type) : Type := Option (List (ℚ × Pose))

/-- Modelled from the spec: the class of the member `storageConnector_` is declared in
`data/StorageI.h`, which is not among the sources. `hasData` tells whether the storage holds
an entry of the module the connector belongs to; an entry whose measurement set is empty is an
entry. -/
def StorageConnector.hasData {Pose : Type} (storage : ModuleStorage Pose) : Bool :=
  storage.isSome

/-- Modelled from the spec: `getDataFrom` of the class of `storageConnector_`, which is not
among the sources, on a constant storage: the data of the entry of the module. It is only
called on a storage that holds an entry; without one the model yields no measurement. -/
def StorageConnector.getDataFrom {Pose : Type} (storage : ModuleStorage Pose) :
    List (ℚ × Pose) :=
  storage.getD []

/-- Modelled from the spec: `getDataFrom` of the class of `storageConnector_`, which is not
among the sources, on a mutable storage: the entry of the module is created, with an empty
measurement set, if the storage holds none. The result is the storage after the call. -/
def StorageConnector.getDataFromMutable {Pose : Type} (storage : ModuleStorage Pose) :
    ModuleStorage Pose :=
  some (storage.getD [])

/-- The C++ member `AbstractPoseSensor::hasMeasurements`:
`storageConnector_.hasData(storage)`. -/
def AbstractPoseSensor.hasMeasurements {Pose : Type} (storage : ModuleStorage Pose) : Bool :=
  StorageConnector.hasData storage

/-- The C++ member `AbstractPoseSensor::getAllMeasurements` on a constant storage:
`storageConnector_.getDataFrom(storage)`. -/
def AbstractPoseSensor.getAllMeasurements {Pose : Type} (storage : ModuleStorage Pose) :
    List (ℚ × Pose) :=
  StorageConnector.getDataFrom storage

/-- The C++ member `MotionCaptureSensor::fetchMeasurementsFromSourceInto`, as the storage after
the call. `source` is `getMotionCaptureSource()`, absent or given by the measurements made of
the poses of `getPoses(from, till)` and the two covariances. The reference `poses` is taken
from the mutable storage before the source is asked, so the entry exists afterwards even if
there is no source or the source has no pose in the interval. -/
def MotionCaptureSensor.fetchMeasurementsFromSourceInto {Pose : Type}
    (source : Option (List (ℚ × Pose))) (storage : ModuleStorage Pose) : ModuleStorage Pose :=
  let poses := StorageConnector.getDataFromMutable storage
  match source with
  | some posesFromSource => poses.map (fun l => l ++ posesFromSource)
  | none => poses

/-- The body of the loop of `MotionCaptureSensor::addMeasurementErrorTerms` for the measurement
`m`: the error term it adds, or `none` if the measurement is dropped. -/
def MotionCaptureSensor.poseErrorTerm {Pose : Type} (hasDelay : Bool) (interval : Interval)
    (uLow uUpp : ℚ) (m : ℚ × Pose) : Option (ErrorTermPose Pose) :=
  let timestamp := m.1
  let timestampIsPossiblyOutOfBounds : Bool := decide (uLow > timestamp) || decide (uUpp < timestamp)
  if timestampIsPossiblyOutOfBounds && !hasDelay then
    none
  else
    let pose := m.2
    let e_pose : ErrorTermPose Pose := { timestamp := timestamp, pose := pose, conditions := [] }
    if timestampIsPossiblyOutOfBounds then
      let e1 : ErrorTermPose Pose :=
        if uLow > timestamp then
          { e_pose with conditions := e_pose.conditions ++ [.notBeforeStart timestamp interval.start] }
        else e_pose
      let e2 : ErrorTermPose Pose :=
        if uUpp < timestamp then
          { e1 with conditions := e1.conditions ++ [.notAfterEnd timestamp interval.end_] }
        else e1
      some e2
    else
      some e_pose

/-- The C++ member `MotionCaptureSensor::addMeasurementErrorTerms`: the error terms it adds to
the problem, in order. `storage` is the current storage of the calibrator, as far as it
concerns the sensor, `interval` is the current effective batch interval and `currentDelay` is
the value of the delay expression. -/
def MotionCaptureSensor.addMeasurementErrorTerms {Pose : Type} (hasDelay : Bool)
    (delayLowerBound delayUpperBound currentDelay : ℚ) (interval : Interval)
    (storage : ModuleStorage Pose) : Except Fatal (List (ErrorTermPose Pose)) :=
  if !AbstractPoseSensor.hasMeasurements storage then
    .ok []
  else
    let uLow := interval.start + delayUpperBound
    let uUpp := interval.end_ + delayLowerBound
    if currentDelay < delayLowerBound ∨ currentDelay > delayUpperBound then
      .error (.runtimeError "Delay already out of bounds!")
    else
      .ok ((AbstractPoseSensor.getAllMeasurements storage).filterMap
        (MotionCaptureSensor.poseErrorTerm hasDelay interval uLow uUpp))

/-- The classes of the claim for a measurement. -/
inductive PoseClass where
  | unconditional
  | conditional
  | dropped
deriving DecidableEq, Repr

/-- The classification of a timestamp in the words of the specification: unconditional inside
`[start + hi, end + lo]`, otherwise conditional if the sensor has a delay and dropped if not. -/
def classifyTimestamp (hasDelay : Bool) (interval : Interval) (lo hi t : ℚ) : PoseClass :=
  if interval.start + hi ≤ t ∧ t ≤ interval.end_ + lo then .unconditional
  else if hasDelay then .conditional
  else .dropped

/-! ## CalibrationVariable.h, CalibrationVariable.cpp : loading, storing and priors -/

/-- A `ValueHandle<double>` of the value store: the value it refers to and whether the entry
can be updated. -/
structure ValueHandle where
  value : ℚ
  updateable : Bool
deriving DecidableEq, Repr

/-- The member `get()` of a value handle. -/
def ValueHandle.get (vh : ValueHandle) : ℚ := vh.value

/-- The member `isUpdateable()` of a value handle. -/
def ValueHandle.isUpdateable (vh : ValueHandle) : Bool := vh.updateable

/-- The member `update(v)` of a value handle. -/
def ValueHandle.update (vh : ValueHandle) (v : ℚ) : ValueHandle := { vh with value := v }

/-- The function `internal::loadPacked`. -/
def internal.loadPacked (vhs : List ValueHandle) : List ℚ := vhs.map ValueHandle.get

/-- The loop of `internal::storePacked` with its counter `i`; `vPacked[i]` is read as 0 beyond
the end of `vPacked`, where the source has no defined behaviour. -/
def internal.storePackedFrom (vPacked : List ℚ) : Nat → List ValueHandle → List ValueHandle
  | _, [] => []
  | i, vh :: vhs =>
    (if vh.isUpdateable then vh.update (vPacked.getD i 0) else vh)
      :: internal.storePackedFrom vPacked (i + 1) vhs

/-- The function `internal::storePacked`: the handles afterwards. The warning it logs for a
handle that cannot be updated is left out. -/
def internal.storePacked (vhs : List ValueHandle) (vPacked : List ℚ) : List ValueHandle :=
  internal.storePackedFrom vPacked 0 vhs

/-- The two quaternion conventions. -/
inductive QuaternionConvention where
  | HAMILTON
  | JPL
deriving DecidableEq, Repr

/-- The constant `InternalConvention`. -/
def InternalConvention : QuaternionConvention := .JPL

/-- The constant `DefaultExternalConvention`. -/
def DefaultExternalConvention : QuaternionConvention := .HAMILTON

/-- The initial value of the static member `RotationQuaternionLoadImplQ::switchConvention`. The
member is process-wide state in the source; here it is passed to the functions that read it. -/
def RotationQuaternionLoadImplQ.switchConvention : Bool :=
  decide (DefaultExternalConvention ≠ InternalConvention)

/-- The function `setExternalQuaternionConvention`: the value it assigns to
`switchConvention`. -/
def setExternalQuaternionConvention (convention : QuaternionConvention) : Bool :=
  decide (convention ≠ InternalConvention)

/-- The function `useJPLQuaternionConventionForInputOutput`: the value of `switchConvention`
after it. -/
def useJPLQuaternionConventionForInputOutput : Bool :=
  setExternalQuaternionConvention .JPL

/-- Modelled from the spec: `quatInv` of `sm::kinematics` is not among the sources; the
conversion is a conjugation, which negates the components i, j, k and keeps w. A vector that
has not four components does not occur and is left as it is. -/
def quatInv (q : List ℚ) : List ℚ :=
  match q with
  | [i, j, k, w] => [-i, -j, -k, w]
  | other => other

/-- The C++ member `RotationQuaternionLoadImplQ::switchQuaternionConvention`. -/
def RotationQuaternionLoadImplQ.switchQuaternionConvention (switchConvention : Bool)
    (q : List ℚ) : List ℚ :=
  if switchConvention then quatInv q else q

/-- The C++ member `RotationQuaternionLoadImplQ::load`; `vhs` are the handles that
`getPTVector` obtains for the components i, j, k, w. -/
def RotationQuaternionLoadImplQ.load (switchConvention : Bool) (vhs : List ValueHandle) :
    List ℚ :=
  RotationQuaternionLoadImplQ.switchQuaternionConvention switchConvention
    (internal.loadPacked vhs)

/-- The C++ member `RotationQuaternionLoadImplQ::store`: the handles afterwards. -/
def RotationQuaternionLoadImplQ.store (switchConvention : Bool) (vhs : List ValueHandle)
    (v : List ℚ) : List ValueHandle :=
  internal.storePacked vhs
    (RotationQuaternionLoadImplQ.switchQuaternionConvention switchConvention v)

/-- The kinds of design variable that a calibration variable wraps: `EuclideanPoint`,
`Scalar` and `RotationQuaternion`. -/
inductive VariableKind where
  | point
  | scalar
  | rotation
deriving DecidableEq, Repr

/-- The functions of `sm::kinematics`, an external library, that the rotation kind packs and
unpacks with. -/
structure Kinematics where
  axisAngle2quat : List ℚ → List ℚ
  quat2AxisAngle : List ℚ → List ℚ

/-- The function `ParamsPackTraits<...>::pack` of each kind. -/
def ParamsPackTraits.pack (kin : Kinematics) : VariableKind → List ℚ → List ℚ
  | .point, v => v
  | .scalar, v => v
  | .rotation, v => kin.quat2AxisAngle v

/-- The function `ParamsPackTraits<...>::unpack` of each kind, followed by
`internal::toMatrixXd` as in `setMinimalComponents`: for a scalar the result `v[0]` becomes a
block of one entry (`v[0]` is read as 0 if `v` is empty, where the source has no defined
behaviour). -/
def ParamsPackTraits.unpack (kin : Kinematics) : VariableKind → List ℚ → List ℚ
  | .point, v => v
  | .scalar, v => [v.headD 0]
  | .rotation, v => kin.axisAngle2quat v

/-- The class template `CalibrationDesignVariable`: the kind of the design variable it wraps,
the parameter block of that design variable (the current value), the member `upstreamValue_`
(the last stored value), the value handles of its loader and, for a rotation, whether the
loader reads quaternion components (`RotationQuaternionLoadImplQ`) or roll, pitch and yaw. -/
structure CalibrationDesignVariable where
  kind : VariableKind
  params : List ℚ
  upstreamValue_ : List ℚ
  vhs : List ValueHandle
  quaternionComponents : Bool
deriving DecidableEq, Repr

/-- The C++ member `CalibrationVariable::getParams`. -/
def CalibrationDesignVariable.getParams (dv : CalibrationDesignVariable) : List ℚ := dv.params

/-- The member `setParameters` of the design variable, which the optimizer and
`setMinimalComponents` use to change the current value. -/
def CalibrationDesignVariable.setParameters (dv : CalibrationDesignVariable) (v : List ℚ) :
    CalibrationDesignVariable :=
  { dv with params := v }

/-- The members `DVLoadTraits<...>::load`: the parameter block read through the handles. -/
def DVLoadTraits.load (kin : Kinematics) (switchConvention : Bool) (kind : VariableKind)
    (quaternionComponents : Bool) (vhs : List ValueHandle) : List ℚ :=
  match kind with
  | .rotation =>
    if quaternionComponents then RotationQuaternionLoadImplQ.load switchConvention vhs
    else ParamsPackTraits.unpack kin .rotation (internal.loadPacked vhs)
  | other => ParamsPackTraits.unpack kin other (internal.loadPacked vhs)

/-- The members `DVLoadTraits<...>::store`: the handles afterwards. -/
def DVLoadTraits.store (kin : Kinematics) (switchConvention : Bool)
    (dv : CalibrationDesignVariable) (v : List ℚ) : List ValueHandle :=
  match dv.kind with
  | .rotation =>
    if dv.quaternionComponents then RotationQuaternionLoadImplQ.store switchConvention dv.vhs v
    else internal.storePacked dv.vhs (ParamsPackTraits.pack kin .rotation v)
  | other => internal.storePacked dv.vhs (ParamsPackTraits.pack kin other v)

/-- The constructor of `CalibrationDesignVariable`: the value is loaded through the handles and
recorded as the last stored value. -/
def CalibrationDesignVariable.construct (kin : Kinematics) (switchConvention : Bool)
    (kind : VariableKind) (quaternionComponents : Bool) (vhs : List ValueHandle) :
    CalibrationDesignVariable :=
  let params := DVLoadTraits.load kin switchConvention kind quaternionComponents vhs
  { kind := kind, params := params, upstreamValue_ := params, vhs := vhs
    quaternionComponents := quaternionComponents }

/-- The C++ member `CalibrationDesignVariable::getMinimalComponents`. -/
def CalibrationDesignVariable.getMinimalComponents (kin : Kinematics)
    (dv : CalibrationDesignVariable) : List ℚ :=
  ParamsPackTraits.pack kin dv.kind dv.getParams

/-- The C++ member `CalibrationDesignVariable::setMinimalComponents`. -/
def CalibrationDesignVariable.setMinimalComponents (kin : Kinematics)
    (dv : CalibrationDesignVariable) (v : List ℚ) : CalibrationDesignVariable :=
  dv.setParameters (ParamsPackTraits.unpack kin dv.kind v)

/-- The C++ member `CalibrationDesignVariable::updateStore`. -/
def CalibrationDesignVariable.updateStore (kin : Kinematics) (switchConvention : Bool)
    (dv : CalibrationDesignVariable) : CalibrationDesignVariable :=
  let v := dv.getParams
  { dv with vhs := DVLoadTraits.store kin switchConvention dv v, upstreamValue_ := v }

/-- The C++ member `CalibrationDesignVariable::resetToStore` (the covariance, which it reloads
too, is not part of this record). -/
def CalibrationDesignVariable.resetToStore (kin : Kinematics) (switchConvention : Bool)
    (dv : CalibrationDesignVariable) : CalibrationDesignVariable :=
  let params := DVLoadTraits.load kin switchConvention dv.kind dv.quaternionComponents dv.vhs
  { dv with params := params, upstreamValue_ := params }

/-- The prior error terms that `createPriorErrorTerm` builds, without their weights: a
`MeasurementErrorTerm` on the expression of the variable with the given measurement, or the
marginalisation prior `QuaternionPriorErrorTerm` on the design variable, which the optimisation
backend takes at the value the design variable has then, with the offset `d`. -/
inductive PriorErrorTerm where
  | measurement (measurement : List ℚ)
  | marginalization (valueAtMarginalization : List ℚ) (d : List ℚ)
deriving DecidableEq, Repr

/-- The functions `PriorErrorTermCreater<...>::createPriorErrorTerm` of each kind, as called by
`CalibrationDesignVariable::createPriorErrorTerm`. -/
def CalibrationDesignVariable.createPriorErrorTerm (kin : Kinematics)
    (dv : CalibrationDesignVariable) : PriorErrorTerm :=
  match dv.kind with
  | .point => .measurement (dv.getMinimalComponents kin)
  | .scalar => .measurement [dv.getParams.headD 0]
  | .rotation => .marginalization dv.getParams [0, 0, 0]

/-- Modelled from the spec: `MeasurementErrorTerm` is not among the sources and the
marginalisation prior belongs to the optimisation backend. The residual of a prior at `value`
is a direct residual: the value of the variable minus the measurement, and for a
marginalisation prior the minimal difference of the value to the value at marginalisation
minus the offset; `minimalDifference` is that of the design variable. -/
def PriorErrorTerm.residual (minimalDifference : List ℚ → List ℚ → List ℚ)
    (term : PriorErrorTerm) (value : List ℚ) : List ℚ :=
  match term with
  | .measurement z => List.zipWith (fun a b => a - b) value z
  | .marginalization z d =>
    List.zipWith (fun a b => a - b) (minimalDifference value z) d

/-! ## Model.cpp : parameters, and the contributed variables -/

/-- The loop of `Model::getParameters` over the remaining variables, with the counter `index`
and the vector `params`; `parameters id` is the parameter block of the design variable of the
instance `id`. The statement `params.block(index, 0, v.rows(), 1);` forms a block expression
and drops it, so `params` is not written. -/
def Model.getParametersLoop (parameters : Nat → List ℚ) :
    List CalibrationVariable → Nat → List ℚ → Nat × List ℚ
  | [], index, params => (index, params)
  | c :: cs, index, params =>
    let v := parameters c.id
    Model.getParametersLoop parameters cs (index + v.length) params

/-- The C++ member `Model::getParameters`. The vector `params(numOdometryParameters)` is
created without initial values: `uninitialized k` stands for what its entry `k` holds. -/
def Model.getParameters (uninitialized : Nat → ℚ) (parameters : Nat → List ℚ) (m : Model) :
    List ℚ :=
  let numOdometryParameters :=
    (m.calibrationVariables.map (fun c => (parameters c.id).length)).sum
  let params := (List.range numOdometryParameters).map uninitialized
  (Model.getParametersLoop parameters m.calibrationVariables 0 params).2

/-- The first occurrences of the elements of a list, in order: the distinct elements. -/
def firstOccurrences : List Nat → List Nat
  | [] => []
  | x :: xs => x :: (firstOccurrences xs).filter (fun y => y != x)

/-- The instances of the non-null arguments of a call of `addCalibrationVariables`. -/
def contributedInstances (cvs : List (Option CalibrationVariable)) : List Nat :=
  (cvs.filterMap (fun cv => cv)).map (fun c => c.id)

/-- The instances an operation contributes to the aggregate list. -/
def ModelOp.contributed : ModelOp → List Nat
  | .addCalibrationVariables cvs => contributedInstances cvs
  | .setCalibrationActive _ _ => []
  | .setActive _ _ => []
  | .updateCVIndices => []

end aslam.calibration

/-! ## Theorems -/

namespace aslam.calibration

/-! ### The loop of `updateCVIndices` -/

theorem updateCVIndicesFrom_length (i : Int) (l : List CalibrationVariable) :
    (updateCVIndicesFrom i l).length = l.length := by
  induction l generalizing i with
  | nil => rfl
  | cons c cs ih =>
    unfold updateCVIndicesFrom
    split <;> simp [ih]

theorem updateCVIndicesFrom_fields (i : Int) (l : List CalibrationVariable) :
    (updateCVIndicesFrom i l).map (fun c => (c.id, c.active, c.dimension))
      = l.map (fun c => (c.id, c.active, c.dimension)) := by
  induction l generalizing i with
  | nil => rfl
  | cons c cs ih =>
    unfold updateCVIndicesFrom
    split <;> simp [ih, CalibrationVariable.setIndex]

theorem activeDimension_nil : activeDimension [] = 0 := rfl

theorem activeDimension_cons (c : CalibrationVariable) (cs : List CalibrationVariable) :
    activeDimension (c :: cs)
      = (if c.active then c.dimension else 0) + activeDimension cs := by
  unfold activeDimension
  by_cases h : c.active = true <;> simp [List.filter_cons, h]

theorem activeDimension_updateCVIndicesFrom (i : Int) (l : List CalibrationVariable) (k : Nat) :
    activeDimension ((updateCVIndicesFrom i l).take k) = activeDimension (l.take k) := by
  induction l generalizing i k with
  | nil => simp [updateCVIndicesFrom]
  | cons c cs ih =>
    cases k with
    | zero => simp
    | succ k =>
      unfold updateCVIndicesFrom
      split <;> simp [List.take_succ_cons, activeDimension_cons, ih, CalibrationVariable.setIndex, *]

theorem updateCVIndicesFrom_index (i : Int) (l : List CalibrationVariable) (k : Nat)
    (c : CalibrationVariable) (h : (updateCVIndicesFrom i l)[k]? = some c) :
    c.index = if c.active then i + (activeDimension (l.take k) : Int) else -1 := by
  induction l generalizing i k with
  | nil => simp [updateCVIndicesFrom] at h
  | cons d ds ih =>
    unfold updateCVIndicesFrom at h
    by_cases hd : d.active = true
    · rw [if_pos hd] at h
      cases k with
      | zero =>
        simp at h
        subst h
        simp [CalibrationVariable.setIndex, hd, activeDimension_nil]
      | succ k =>
        simp at h
        have := ih _ _ h
        rw [this, List.take_succ_cons, activeDimension_cons, if_pos hd]
        split <;> simp [add_assoc]
    · rw [if_neg hd] at h
      cases k with
      | zero =>
        simp at h
        subst h
        simp [CalibrationVariable.setIndex, hd]
      | succ k =>
        simp at h
        have := ih _ _ h
        rw [this, List.take_succ_cons, activeDimension_cons, if_neg hd]
        simp

theorem indicesConsistent_updateCVIndicesFrom (l : List CalibrationVariable) :
    IndicesConsistent (updateCVIndicesFrom 0 l) := by
  intro k c h
  rw [updateCVIndicesFrom_index 0 l k c h, activeDimension_updateCVIndicesFrom]
  simp

theorem activeDimension_take_add_le (l : List CalibrationVariable) (k : Nat)
    (c : CalibrationVariable) (h : l[k]? = some c) (hc : c.active = true) :
    activeDimension (l.take k) + c.dimension ≤ activeDimension l := by
  induction l generalizing k with
  | nil => simp at h
  | cons d ds ih =>
    cases k with
    | zero =>
      simp at h
      subst h
      simp [activeDimension_cons, hc, activeDimension_nil]
    | succ k =>
      simp at h
      have := ih k h
      rw [List.take_succ_cons, activeDimension_cons, activeDimension_cons]
      omega

theorem updateCVIndicesFrom_cover (i : Int) (l : List CalibrationVariable) (n : Int)
    (h1 : i ≤ n) (h2 : n < i + (activeDimension l : Int)) :
    ∃! k : Nat, ∃ c : CalibrationVariable, (updateCVIndicesFrom i l)[k]? = some c ∧ c.active = true
      ∧ c.index ≤ n ∧ n < c.index + (c.dimension : Int) := by
  induction l generalizing i with
  | nil => simp [activeDimension_nil] at h2; omega
  | cons d ds ih =>
    rw [activeDimension_cons] at h2
    by_cases hd : d.active = true
    · have hunf : updateCVIndicesFrom i (d :: ds)
          = d.setIndex i :: updateCVIndicesFrom (i + (d.dimension : Int)) ds := by
        rw [updateCVIndicesFrom, if_pos hd]
      rw [hunf]
      rw [if_pos hd] at h2
      by_cases hn : n < i + (d.dimension : Int)
      · refine ⟨0, ⟨d.setIndex i, by simp, by simpa [CalibrationVariable.setIndex] using hd,
          by simpa [CalibrationVariable.setIndex] using h1,
          by simpa [CalibrationVariable.setIndex] using hn⟩, ?_⟩
        rintro k ⟨c, hk, hact, hle, _⟩
        cases k with
        | zero => rfl
        | succ k =>
          exfalso
          simp at hk
          have := updateCVIndicesFrom_index _ _ _ _ hk
          rw [if_pos hact] at this
          omega
      · have hn2 : i + (d.dimension : Int) ≤ n := by omega
        obtain ⟨j, ⟨c, hc⟩, huniq⟩ := ih (i + (d.dimension : Int)) hn2 (by push_cast at h2 ⊢; omega)
        refine ⟨j + 1, ⟨c, by simpa using hc⟩, ?_⟩
        rintro k ⟨c2, hk, hact, hle, hlt⟩
        cases k with
        | zero =>
          exfalso
          simp at hk
          subst hk
          simp [CalibrationVariable.setIndex] at hlt
          omega
        | succ k =>
          simp at hk
          have := huniq k ⟨c2, hk, hact, hle, hlt⟩
          omega
    · have hunf : updateCVIndicesFrom i (d :: ds)
          = d.setIndex (-1) :: updateCVIndicesFrom i ds := by
        rw [updateCVIndicesFrom, if_neg hd]
      rw [hunf]
      rw [if_neg hd] at h2
      obtain ⟨j, ⟨c, hc⟩, huniq⟩ := ih i h1 (by push_cast at h2 ⊢; omega)
      refine ⟨j + 1, ⟨c, by simpa using hc⟩, ?_⟩
      rintro k ⟨c2, hk, hact, hle, hlt⟩
      cases k with
      | zero =>
        exfalso
        simp at hk
        subst hk
        simp [CalibrationVariable.setIndex] at hact
        exact hd hact
      | succ k =>
        simp at hk
        have := huniq k ⟨c2, hk, hact, hle, hlt⟩
        omega

/-! ### Claim C1 -/

/-- C1. After `Model::updateCVIndices` the aggregate list holds the same variables in the same
order with the same flags and dimensions; walking it in order, every active variable carries
the sum of the dimensions of the active variables before it and every inactive one carries
`-1`. Hence every position `n` below the sum of the active dimensions lies in the index range
of exactly one active variable, and every such range lies inside `[0, sum)`: the ranges are
gap-free, do not overlap and cover exactly `[0, sum)`. -/
theorem updateCVIndices_contiguous (m : Model) :
    (m.updateCVIndices.calibrationVariables.map (fun c => (c.id, c.active, c.dimension))
        = m.calibrationVariables.map (fun c => (c.id, c.active, c.dimension)))
    ∧ (∀ (k : Nat) (c : CalibrationVariable),
        m.updateCVIndices.calibrationVariables[k]? = some c →
          c.index = if c.active
            then (activeDimension (m.updateCVIndices.calibrationVariables.take k) : Int)
            else -1)
    ∧ (∀ n : Nat, n < activeDimension m.updateCVIndices.calibrationVariables →
        ∃! k : Nat, ∃ c : CalibrationVariable, m.updateCVIndices.calibrationVariables[k]? = some c ∧ c.active = true
          ∧ c.index ≤ (n : Int) ∧ (n : Int) < c.index + (c.dimension : Int))
    ∧ (∀ (k : Nat) (c : CalibrationVariable),
        m.updateCVIndices.calibrationVariables[k]? = some c → c.active = true →
          0 ≤ c.index ∧ c.index + (c.dimension : Int)
            ≤ (activeDimension m.updateCVIndices.calibrationVariables : Int)) := by
  refine ⟨updateCVIndicesFrom_fields 0 _, indicesConsistent_updateCVIndicesFrom _, ?_, ?_⟩
  · intro n hn
    have hall : activeDimension (updateCVIndicesFrom 0 m.calibrationVariables)
        = activeDimension m.calibrationVariables := by
      have := activeDimension_updateCVIndicesFrom 0 m.calibrationVariables
        m.calibrationVariables.length
      rwa [List.take_of_length_le (by rw [updateCVIndicesFrom_length]), List.take_length]
        at this
    have hn2 : n < activeDimension m.calibrationVariables := by
      rw [← hall]; exact hn
    exact updateCVIndicesFrom_cover 0 m.calibrationVariables n (by omega) (by omega)
  · intro k c hk hact
    have hidx := indicesConsistent_updateCVIndicesFrom m.calibrationVariables k c hk
    rw [if_pos hact] at hidx
    have hle := activeDimension_take_add_le _ k c hk hact
    constructor
    · rw [hidx]; omega
    · rw [hidx]
      have : ((activeDimension (List.take k (updateCVIndicesFrom 0 m.calibrationVariables))
          + c.dimension : Nat) : Int)
          ≤ (activeDimension (updateCVIndicesFrom 0 m.calibrationVariables) : Int) :=
        Int.ofNat_le.mpr hle
      push_cast at this
      exact this

/-- An instance of C1: three variables of dimensions 3, 1 and 2, the middle one inactive and
all with stale indices, get the indices 0, -1 and 3. -/
theorem updateCVIndices_contiguous_witness :
    (Model.updateCVIndices
        { calibrationVariables := [⟨7, true, 3, 5⟩, ⟨8, false, 1, 2⟩, ⟨9, true, 2, 0⟩] }).calibrationVariables
        = [⟨7, true, 3, 0⟩, ⟨8, false, 1, -1⟩, ⟨9, true, 2, 3⟩]
    ∧ ∃! k : Nat, ∃ c : CalibrationVariable,
        (Model.updateCVIndices
          { calibrationVariables :=
            [⟨7, true, 3, 5⟩, ⟨8, false, 1, 2⟩, ⟨9, true, 2, 0⟩] }).calibrationVariables[k]?
            = some c ∧ c.active = true
          ∧ c.index ≤ ((4 : Nat) : Int) ∧ ((4 : Nat) : Int) < c.index + (c.dimension : Int) :=
  ⟨by decide,
   (updateCVIndices_contiguous
      { calibrationVariables :=
        [⟨7, true, 3, 5⟩, ⟨8, false, 1, 2⟩, ⟨9, true, 2, 0⟩] }).2.2.1 4 (by decide)⟩

/-! ### Which instances the operations keep -/

theorem instances_updateCVIndicesFrom (i : Int) (l : List CalibrationVariable) :
    instances (updateCVIndicesFrom i l) = instances l := by
  have h := congrArg (List.map Prod.fst) (updateCVIndicesFrom_fields i l)
  simpa [instances, List.map_map, Function.comp_def] using h

theorem instances_updateCVIndices (m : Model) :
    instances m.updateCVIndices.calibrationVariables = instances m.calibrationVariables :=
  instances_updateCVIndicesFrom 0 _

theorem instances_setActive (m : Model) (id : Nat) (b : Bool) :
    instances (m.setActive id b).calibrationVariables = instances m.calibrationVariables := by
  simp only [instances, Model.setActive, List.map_map]
  apply List.map_congr_left
  intro c _
  by_cases h : c.id = id <;> simp [h, CalibrationVariable.setActive]

theorem instances_applySetActive (m : Model) (calls : List (Nat × Bool)) :
    instances (m.applySetActive calls).calibrationVariables
      = instances m.calibrationVariables := by
  induction calls generalizing m with
  | nil => rfl
  | cons call calls ih =>
    simp only [Model.applySetActive, List.foldl_cons] at ih ⊢
    rw [ih, instances_setActive]

theorem count_eq_zero_iff (m : Model) (c : CalibrationVariable) :
    m.count c = 0 ↔ c.id ∉ instances m.calibrationVariables := by
  simp only [Model.count, List.countP_eq_zero, instances, List.mem_map, not_exists, not_and]
  constructor
  · intro h x hx hid
    exact h x hx (by simp [hid])
  · intro h x hx hid
    exact h x hx (by simpa using hid)

theorem instances_pushIfNew_of_mem (m : Model) (c : CalibrationVariable)
    (h : c.id ∈ instances m.calibrationVariables) : m.pushIfNew (some c) = m := by
  have : ¬ m.count c = 0 := fun h0 => (count_eq_zero_iff m c).mp h0 h
  simp [Model.pushIfNew, this]

theorem instances_pushIfNew_of_not_mem (m : Model) (c : CalibrationVariable)
    (h : c.id ∉ instances m.calibrationVariables) :
    instances (m.pushIfNew (some c)).calibrationVariables
      = instances m.calibrationVariables ++ [c.id] := by
  have : m.count c = 0 := (count_eq_zero_iff m c).mpr h
  simp [Model.pushIfNew, this, instances]

theorem mem_instances_pushIfNew (m : Model) (cv : Option CalibrationVariable) (x : Nat)
    (h : x ∈ instances m.calibrationVariables) :
    x ∈ instances (m.pushIfNew cv).calibrationVariables := by
  cases cv with
  | none => exact h
  | some c =>
    by_cases hc : c.id ∈ instances m.calibrationVariables
    · rw [instances_pushIfNew_of_mem m c hc]; exact h
    · rw [instances_pushIfNew_of_not_mem m c hc]; exact List.mem_append_left _ h

theorem self_mem_instances_pushIfNew (m : Model) (c : CalibrationVariable) :
    c.id ∈ instances (m.pushIfNew (some c)).calibrationVariables := by
  by_cases hc : c.id ∈ instances m.calibrationVariables
  · rw [instances_pushIfNew_of_mem m c hc]; exact hc
  · rw [instances_pushIfNew_of_not_mem m c hc]; simp

theorem mem_instances_foldl_pushIfNew (cvs : List (Option CalibrationVariable)) (m : Model)
    (x : Nat) (h : x ∈ instances m.calibrationVariables) :
    x ∈ instances (cvs.foldl Model.pushIfNew m).calibrationVariables := by
  induction cvs generalizing m with
  | nil => exact h
  | cons cv cvs ih => exact ih _ (mem_instances_pushIfNew m cv x h)

theorem mem_instances_foldl_of_mem (cvs : List (Option CalibrationVariable)) (m : Model)
    (c : CalibrationVariable) (h : some c ∈ cvs) :
    c.id ∈ instances (cvs.foldl Model.pushIfNew m).calibrationVariables := by
  induction cvs generalizing m with
  | nil => simp at h
  | cons cv cvs ih =>
    rcases List.mem_cons.mp h with h | h
    · subst h
      exact mem_instances_foldl_pushIfNew cvs _ _ (self_mem_instances_pushIfNew m c)
    · exact ih _ h

theorem nodup_instances_pushIfNew (m : Model) (cv : Option CalibrationVariable)
    (h : (instances m.calibrationVariables).Nodup) :
    (instances (m.pushIfNew cv).calibrationVariables).Nodup := by
  cases cv with
  | none => exact h
  | some c =>
    by_cases hc : c.id ∈ instances m.calibrationVariables
    · rw [instances_pushIfNew_of_mem m c hc]; exact h
    · rw [instances_pushIfNew_of_not_mem m c hc]
      exact List.Nodup.append h (List.nodup_singleton _) (by simpa using hc)

theorem nodup_instances_foldl_pushIfNew (cvs : List (Option CalibrationVariable)) (m : Model)
    (h : (instances m.calibrationVariables).Nodup) :
    (instances (cvs.foldl Model.pushIfNew m).calibrationVariables).Nodup := by
  induction cvs generalizing m with
  | nil => exact h
  | cons cv cvs ih => exact ih _ (nodup_instances_pushIfNew m cv h)

theorem nodup_instances_step (m : Model) (op : ModelOp)
    (h : (instances m.calibrationVariables).Nodup) :
    (instances (m.step op).calibrationVariables).Nodup := by
  cases op with
  | addCalibrationVariables cvs =>
    simp only [Model.step, Model.addCalibrationVariables]
    rw [instances_updateCVIndices]
    exact nodup_instances_foldl_pushIfNew cvs m h
  | setCalibrationActive mod ec =>
    simp only [Model.step, Module.setCalibrationActive]
    rw [instances_updateCVIndices, instances_applySetActive]
    exact h
  | setActive id b =>
    simp only [Model.step]
    rw [instances_setActive]
    exact h
  | updateCVIndices =>
    simp only [Model.step]
    rw [instances_updateCVIndices]
    exact h

theorem nodup_instances_foldl_step (ops : List ModelOp) (m : Model)
    (h : (instances m.calibrationVariables).Nodup) :
    (instances (ops.foldl Model.step m).calibrationVariables).Nodup := by
  induction ops generalizing m with
  | nil => exact h
  | cons op ops ih => exact ih _ (nodup_instances_step m op h)

/-! ### Claim C2 -/

/-- C2, as stated, fails. A variable of dimension 1 is added, activated and indexed (index 0);
a call of its design variable's own `setActive(false)` then leaves an inactive variable that
still carries index 0, so the indices of this reachable state are not consistent. -/
theorem setActive_leaves_stale_index :
    (Model.run [.addCalibrationVariables [some ⟨0, false, 1, -1⟩], .setActive 0 true,
        .updateCVIndices, .setActive 0 false]).calibrationVariables = [⟨0, false, 1, 0⟩]
    ∧ ¬ IndicesConsistent
        (Model.run [.addCalibrationVariables [some ⟨0, false, 1, -1⟩], .setActive 0 true,
          .updateCVIndices, .setActive 0 false]).calibrationVariables := by
  refine ⟨by decide, ?_⟩
  intro h
  have h0 := h 0 ⟨0, false, 1, 0⟩ (by decide)
  revert h0
  decide

/-- C2, amended. After any sequence of operations, if the last one is
`Model::addCalibrationVariables`, `Module::setCalibrationActive` or `Model::updateCVIndices`,
the indices are consistent: every inactive variable carries `-1` and every active one the sum
of the dimensions of the active variables before it. If the last one is a design variable's
own `setActive`, no index is recomputed: every variable keeps the index it had. -/
theorem indices_consistent_after_reindexing (ops : List ModelOp) (op : ModelOp) :
    (op.reindexes = true →
      IndicesConsistent (Model.run (ops ++ [op])).calibrationVariables)
    ∧ (op.reindexes = false →
      (Model.run (ops ++ [op])).calibrationVariables.map (fun c => c.index)
        = (Model.run ops).calibrationVariables.map (fun c => c.index)) := by
  have hrun : Model.run (ops ++ [op]) = (Model.run ops).step op := by
    simp [Model.run, List.foldl_append]
  rw [hrun]
  constructor
  · intro h
    cases op with
    | addCalibrationVariables cvs => exact indicesConsistent_updateCVIndicesFrom _
    | setCalibrationActive mod ec => exact indicesConsistent_updateCVIndicesFrom _
    | setActive id b => simp [ModelOp.reindexes] at h
    | updateCVIndices => exact indicesConsistent_updateCVIndicesFrom _
  · intro h
    cases op with
    | addCalibrationVariables cvs => simp [ModelOp.reindexes] at h
    | setCalibrationActive mod ec => simp [ModelOp.reindexes] at h
    | setActive id b =>
      simp only [Model.step, Model.setActive, List.map_map]
      apply List.map_congr_left
      intro c _
      by_cases hc : c.id = id <;> simp [hc, CalibrationVariable.setActive]
    | updateCVIndices => simp [ModelOp.reindexes] at h

/-- An instance of amended C2: the stale state of the counterexample is repaired by the next
`updateCVIndices`, and the `setActive` before it had left the index untouched. -/
theorem indices_consistent_after_reindexing_witness :
    IndicesConsistent
        (Model.run ([.addCalibrationVariables [some ⟨0, false, 1, -1⟩], .setActive 0 true,
          .updateCVIndices, .setActive 0 false] ++ [.updateCVIndices])).calibrationVariables
    ∧ (Model.run ([.addCalibrationVariables [some ⟨0, false, 1, -1⟩], .setActive 0 true,
          .updateCVIndices] ++ [.setActive 0 false])).calibrationVariables.map (fun c => c.index)
        = (Model.run [.addCalibrationVariables [some ⟨0, false, 1, -1⟩], .setActive 0 true,
          .updateCVIndices]).calibrationVariables.map (fun c => c.index) :=
  ⟨(indices_consistent_after_reindexing
      [.addCalibrationVariables [some ⟨0, false, 1, -1⟩], .setActive 0 true,
        .updateCVIndices, .setActive 0 false] .updateCVIndices).1 (by decide),
   (indices_consistent_after_reindexing
      [.addCalibrationVariables [some ⟨0, false, 1, -1⟩], .setActive 0 true,
        .updateCVIndices] (.setActive 0 false)).2 (by decide)⟩

/-! ### Claim C3 -/

/-- C3. Adding a calibration variable again changes nothing in the aggregate list: if the
instance is already listed, `addCalibrationVariables` keeps the list of instances (length and
order); an instance passed in a call is listed after the call, so a later call with it is such
a no-op; an instance listed a second time in the same call makes no difference; and
`addCalibrationVariables` keeps a list free of duplicates that way, so that no reachable state
lists an instance twice. -/
theorem addCalibrationVariables_idempotent :
    (∀ (m : Model) (cv : CalibrationVariable), cv.id ∈ instances m.calibrationVariables →
      instances (m.addCalibrationVariables [some cv]).calibrationVariables
        = instances m.calibrationVariables)
    ∧ (∀ (m : Model) (cvs : List (Option CalibrationVariable)) (cv : CalibrationVariable),
        some cv ∈ cvs →
          cv.id ∈ instances (m.addCalibrationVariables cvs).calibrationVariables
          ∧ instances ((m.addCalibrationVariables cvs).addCalibrationVariables
              [some cv]).calibrationVariables
            = instances (m.addCalibrationVariables cvs).calibrationVariables
          ∧ instances (m.addCalibrationVariables (cvs ++ [some cv])).calibrationVariables
            = instances (m.addCalibrationVariables cvs).calibrationVariables)
    ∧ (∀ (m : Model) (cvs : List (Option CalibrationVariable)),
        (instances m.calibrationVariables).Nodup →
          (instances (m.addCalibrationVariables cvs).calibrationVariables).Nodup)
    ∧ (∀ ops : List ModelOp, (instances (Model.run ops).calibrationVariables).Nodup) := by
  have hone : ∀ (m : Model) (cv : CalibrationVariable),
      cv.id ∈ instances m.calibrationVariables →
      instances (m.addCalibrationVariables [some cv]).calibrationVariables
        = instances m.calibrationVariables := by
    intro m cv h
    simp only [Model.addCalibrationVariables, List.foldl_cons, List.foldl_nil]
    rw [instances_updateCVIndices, instances_pushIfNew_of_mem m cv h]
  have hmem : ∀ (m : Model) (cvs : List (Option CalibrationVariable))
      (cv : CalibrationVariable), some cv ∈ cvs →
      cv.id ∈ instances (m.addCalibrationVariables cvs).calibrationVariables := by
    intro m cvs cv h
    simp only [Model.addCalibrationVariables]
    rw [instances_updateCVIndices]
    exact mem_instances_foldl_of_mem cvs m cv h
  refine ⟨hone, ?_, ?_, ?_⟩
  · intro m cvs cv h
    refine ⟨hmem m cvs cv h, hone _ cv (hmem m cvs cv h), ?_⟩
    simp only [Model.addCalibrationVariables, List.foldl_append, List.foldl_cons,
      List.foldl_nil]
    rw [instances_updateCVIndices, instances_updateCVIndices,
      instances_pushIfNew_of_mem _ cv (mem_instances_foldl_of_mem cvs m cv h)]
  · intro m cvs h
    simp only [Model.addCalibrationVariables]
    rw [instances_updateCVIndices]
    exact nodup_instances_foldl_pushIfNew cvs m h
  · intro ops
    exact nodup_instances_foldl_step ops Model.empty (by simp [Model.empty, instances])

/-- An instance of C3: a model listing the instances 4 and 5 is given 5 again, a null pointer
and twice the new instance 6; the list becomes 4, 5, 6. Adding 5 alone changes nothing. -/
theorem addCalibrationVariables_idempotent_witness :
    instances (({ calibrationVariables := [⟨4, true, 3, 0⟩, ⟨5, false, 1, -1⟩] } : Model).addCalibrationVariables
        [some ⟨5, false, 1, -1⟩, none, some ⟨6, true, 1, -1⟩,
          some ⟨6, true, 1, -1⟩]).calibrationVariables = [4, 5, 6]
    ∧ instances (({ calibrationVariables := [⟨4, true, 3, 0⟩, ⟨5, false, 1, -1⟩] } : Model).addCalibrationVariables
        [some ⟨5, false, 1, -1⟩]).calibrationVariables
      = instances ({ calibrationVariables := [⟨4, true, 3, 0⟩, ⟨5, false, 1, -1⟩] } : Model).calibrationVariables :=
  ⟨by decide,
   addCalibrationVariables_idempotent.1 ({ calibrationVariables := [⟨4, true, 3, 0⟩, ⟨5, false, 1, -1⟩] } : Model)
     ⟨5, false, 1, -1⟩ (by decide)⟩

/-! ### Comma lists -/

theorem intercalate_singleton (sep p : List Char) : List.intercalate sep [p] = p := by
  simp [List.intercalate]

theorem intercalate_cons_cons (sep p q : List Char) (ps : List (List Char)) :
    List.intercalate sep (p :: q :: ps) = p ++ sep ++ List.intercalate sep (q :: ps) := by
  simp [List.intercalate, List.intersperse]

theorem count_comma_intercalate (ps : List (List Char)) (hps : ∀ p ∈ ps, ',' ∉ p) :
    (List.intercalate [','] ps).count ',' = ps.length - 1 := by
  induction ps with
  | nil => simp [List.intercalate]
  | cons p ps ih =>
    cases ps with
    | nil =>
      rw [intercalate_singleton]
      simpa using List.count_eq_zero.mpr (hps p (by simp))
    | cons q qs =>
      rw [intercalate_cons_cons, List.count_append, List.count_append,
        ih (fun x hx => hps x (List.mem_cons_of_mem _ hx)),
        List.count_eq_zero.mpr (hps p (by simp))]
      simp
      omega

theorem removeBlanks_intercalate (ps : List (List Char)) :
    removeBlanks (List.intercalate [','] ps) = List.intercalate [','] (ps.map removeBlanks) := by
  induction ps with
  | nil => simp [List.intercalate, removeBlanks]
  | cons p ps ih =>
    cases ps with
    | nil => simp [intercalate_singleton]
    | cons q qs =>
      rw [List.map_cons, List.map_cons, intercalate_cons_cons, intercalate_cons_cons,
        ← List.map_cons, ← ih]
      simp [removeBlanks, List.filter_append]

theorem not_mem_removeBlanks (p : List Char) (h : ',' ∉ p) : ',' ∉ removeBlanks p := by
  intro hmem
  exact h (List.mem_of_mem_filter hmem)

theorem splitString_of_not_mem (p : List Char) (delimiters : List Char)
    (h : ∀ ch ∈ p, ch ∉ delimiters) : splitString p delimiters = [p] := by
  induction p with
  | nil => rfl
  | cons ch p ih =>
    rw [splitString, if_neg (h ch (by simp)), ih (fun x hx => h x (List.mem_cons_of_mem _ hx))]

theorem splitString_append_delimiter (p rest : List Char) (delimiters : List Char) (d : Char)
    (h : ∀ ch ∈ p, ch ∉ delimiters) (hd : d ∈ delimiters) :
    splitString (p ++ d :: rest) delimiters = p :: splitString rest delimiters := by
  induction p with
  | nil => simp [splitString, hd]
  | cons ch p ih =>
    rw [List.cons_append, splitString, if_neg (h ch (by simp)),
      ih (fun x hx => h x (List.mem_cons_of_mem _ hx))]

theorem splitString_intercalate (ps : List (List Char)) (hne : ps ≠ [])
    (hps : ∀ p ∈ ps, ',' ∉ p) : splitString (List.intercalate [','] ps) [','] = ps := by
  induction ps with
  | nil => exact absurd rfl hne
  | cons p ps ih =>
    have hp : ∀ ch ∈ p, ch ∉ [','] := by
      intro ch hch hmem
      rw [List.mem_singleton] at hmem
      subst hmem
      exact hps _ (by simp) hch
    cases ps with
    | nil =>
      rw [intercalate_singleton]
      exact splitString_of_not_mem p _ hp
    | cons q qs =>
      rw [intercalate_cons_cons, List.append_assoc, List.singleton_append,
        splitString_append_delimiter p _ _ ',' hp (by simp),
        ih (by simp) (fun x hx => hps x (List.mem_cons_of_mem _ hx))]

/-! ### The loop that fills the square-root covariance -/

theorem setCoeff_apply {dim : Nat} (m : Matrix (Fin dim) (Fin dim) ℚ) (r c : Nat) (v : ℚ)
    (a b : Fin dim) : setCoeff m r c v a b = if a.val = r ∧ b.val = c then v else m a b := rfl

theorem div_mod_eq_iff (dim i a b : Nat) (hb : b < dim) :
    (a = i / dim ∧ b = i % dim) ↔ a * dim + b = i := by
  constructor
  · rintro ⟨ha, hb2⟩
    rw [ha, hb2, Nat.mul_comm]
    exact Nat.div_add_mod i dim
  · intro h
    subst h
    have hpos : 0 < dim := by omega
    constructor
    · rw [Nat.mul_comm, Nat.mul_add_div hpos, Nat.div_eq_of_lt hb]; rfl
    · rw [Nat.mul_comm, Nat.mul_add_mod, Nat.mod_eq_of_lt hb]

theorem fillCoefficients_diag (stod : List Char → Option ℚ) (dim : Nat) (f : Nat → ℚ)
    (ps : List (List Char)) (i : Nat) (m : Matrix (Fin dim) (Fin dim) ℚ)
    (h : ∀ (k : Nat) (p : List Char), ps[k]? = some p → stod p = some (f (i + k))) :
    ∃ m2, fillCoefficients stod dim true ps i m = .ok m2 ∧
      ∀ a b : Fin dim, m2 a b
        = if a = b ∧ i ≤ a.val ∧ a.val < i + ps.length then f a.val else m a b := by
  induction ps generalizing i m with
  | nil =>
    refine ⟨m, rfl, fun a b => ?_⟩
    rw [if_neg]
    simp only [List.length_nil]
    omega
  | cons p ps ih =>
    have hp : stod p = some (f i) := by simpa using h 0 p (by simp)
    obtain ⟨m2, hm2, hval⟩ := ih (i + 1) (setCoeff m i i (f i)) (by
      intro k q hq
      have := h (k + 1) q (by simpa using hq)
      rw [this]
      congr 2
      omega)
    refine ⟨m2, ?_, ?_⟩
    · rw [fillCoefficients, hp]
      simpa using hm2
    · intro a b
      rw [hval a b, setCoeff_apply]
      by_cases hab : a = b
      · subst hab
        by_cases hai : a.val = i
        · have h1 : ¬ (a = a ∧ i + 1 ≤ a.val ∧ a.val < i + 1 + ps.length) := by
            rintro ⟨_, h3, _⟩
            omega
          have h2 : a = a ∧ i ≤ a.val ∧ a.val < i + (p :: ps).length := by
            refine ⟨rfl, ?_⟩
            simp only [List.length_cons]; omega
          rw [if_neg h1, if_pos ⟨hai, hai⟩, if_pos h2, hai]
        · have hw : ¬ (a.val = i ∧ a.val = i) := fun hw => hai hw.1
          by_cases h1 : a = a ∧ i + 1 ≤ a.val ∧ a.val < i + 1 + ps.length
          · have h2 : a = a ∧ i ≤ a.val ∧ a.val < i + (p :: ps).length := by
              obtain ⟨_, h3, h4⟩ := h1
              refine ⟨rfl, ?_⟩
              simp only [List.length_cons]; omega
            rw [if_pos h1, if_pos h2]
          · have h2 : ¬ (a = a ∧ i ≤ a.val ∧ a.val < i + (p :: ps).length) := by
              rintro ⟨_, h3, h4⟩
              simp only [List.length_cons] at h4
              exact h1 ⟨rfl, by omega, by omega⟩
            rw [if_neg h1, if_neg hw, if_neg h2]
      · have hv : ¬ (a.val = i ∧ b.val = i) := by
          rintro ⟨h1, h2⟩
          exact hab (Fin.ext (h1.trans h2.symm))
        rw [if_neg (fun hc => hab hc.1), if_neg hv, if_neg (fun hc => hab hc.1)]

theorem fillCoefficients_full (stod : List Char → Option ℚ) (dim : Nat) (f : Nat → ℚ)
    (ps : List (List Char)) (i : Nat) (m : Matrix (Fin dim) (Fin dim) ℚ)
    (h : ∀ (k : Nat) (p : List Char), ps[k]? = some p → stod p = some (f (i + k))) :
    ∃ m2, fillCoefficients stod dim false ps i m = .ok m2 ∧
      ∀ a b : Fin dim, m2 a b
        = if i ≤ a.val * dim + b.val ∧ a.val * dim + b.val < i + ps.length
          then f (a.val * dim + b.val) else m a b := by
  induction ps generalizing i m with
  | nil =>
    refine ⟨m, rfl, fun a b => ?_⟩
    rw [if_neg]
    simp only [List.length_nil]
    omega
  | cons p ps ih =>
    have hp : stod p = some (f i) := by simpa using h 0 p (by simp)
    obtain ⟨m2, hm2, hval⟩ := ih (i + 1) (setCoeff m (i / dim) (i % dim) (f i)) (by
      intro k q hq
      have := h (k + 1) q (by simpa using hq)
      rw [this]
      congr 2
      omega)
    refine ⟨m2, ?_, ?_⟩
    · rw [fillCoefficients, hp]
      simpa using hm2
    · intro a b
      rw [hval a b, setCoeff_apply]
      by_cases hai : a.val * dim + b.val = i
      · have hw : a.val = i / dim ∧ b.val = i % dim :=
          (div_mod_eq_iff dim i a.val b.val b.isLt).mpr hai
        have h1 : ¬ (i + 1 ≤ a.val * dim + b.val ∧ a.val * dim + b.val < i + 1 + ps.length) := by
          omega
        have h2 : i ≤ a.val * dim + b.val ∧ a.val * dim + b.val < i + (p :: ps).length := by
          simp only [List.length_cons]; omega
        rw [if_neg h1, if_pos hw, if_pos h2, hai]
      · have hw : ¬ (a.val = i / dim ∧ b.val = i % dim) := fun hw =>
          hai ((div_mod_eq_iff dim i a.val b.val b.isLt).mp hw)
        by_cases h1 : i + 1 ≤ a.val * dim + b.val ∧ a.val * dim + b.val < i + 1 + ps.length
        · have h2 : i ≤ a.val * dim + b.val ∧ a.val * dim + b.val < i + (p :: ps).length := by
            simp only [List.length_cons]; omega
          rw [if_pos h1, if_pos h2]
        · have h2 : ¬ (i ≤ a.val * dim + b.val
              ∧ a.val * dim + b.val < i + (p :: ps).length) := by
            simp only [List.length_cons]; omega
          rw [if_neg h1, if_neg hw, if_neg h2]

theorem getElem?_ofFn_eq {α : Type} {n : Nat} (e : Fin n → α) (k : Nat) (p : α)
    (h : (List.ofFn e)[k]? = some p) : ∃ hk : k < n, p = e ⟨k, hk⟩ := by
  rw [List.getElem?_eq_some] at h
  obtain ⟨hk, hp⟩ := h
  have hk2 : k < n := by simpa using hk
  refine ⟨hk2, ?_⟩
  rw [← hp]
  simp

/-! ### The constructor of `Covariance` on a comma list -/

theorem construct_comma_list (stod : List Char → Option ℚ) (valueStore : ValueStore)
    (dim : Nat) (ps : List (List Char))
    (hs : valueStore.getString "sigma" = some (List.intercalate [','] ps))
    (hps : ∀ p ∈ ps, ',' ∉ p) (h2 : 2 ≤ ps.length)
    (hlen : ps.length = dim ∨ ps.length = dim * dim) :
    Covariance.construct stod valueStore dim
      = (fillCoefficients stod dim (decide (ps.length = dim)) (ps.map removeBlanks) 0 1).map
          (fun m => ⟨m⟩) := by
  have hcount := count_comma_intercalate ps hps
  have hne : List.intercalate [','] ps ≠ [] := by
    intro h0
    rw [h0] at hcount
    simp at hcount
    omega
  have hc0 : ¬ (((List.intercalate [','] ps).count ',' : Nat) : Int) = 0 := by
    rw [hcount]; omega
  have hc1 : (((List.intercalate [','] ps).count ',' : Nat) : Int) = (dim : Int) - 1
      ∨ (((List.intercalate [','] ps).count ',' : Nat) : Int) = (dim : Int) * (dim : Int) - 1 := by
    rw [hcount]
    rcases hlen with h | h
    · left; omega
    · right
      have : ((ps.length : Nat) : Int) = (dim : Int) * (dim : Int) := by
        rw [h]; push_cast; ring
      omega
  have hsplit : splitString (removeBlanks (List.intercalate [','] ps)) [',']
      = ps.map removeBlanks := by
    rw [removeBlanks_intercalate]
    apply splitString_intercalate
    · intro h0
      have h3 : ps = [] := by simpa using h0
      rw [h3] at h2
      simp at h2
    · intro p hp
      obtain ⟨q, hq, rfl⟩ := List.mem_map.mp hp
      exact not_mem_removeBlanks q (hps q hq)
  have hcheck : (decide ((ps.map removeBlanks).length = dim) = true)
      ∨ (ps.map removeBlanks).length = dim * dim := by
    rw [List.length_map]
    rcases hlen with h | h
    · left; simpa using h
    · right; exact h
  unfold Covariance.construct
  simp only [hs, Option.getD_some, if_neg hne, if_neg hc0, if_pos hc1, hsplit, if_pos hcheck]
  simp only [List.length_map]

theorem construct_diagonal_entries (stod : List Char → Option ℚ) (valueStore : ValueStore)
    (dim : Nat) (hdim : 2 ≤ dim) (e : Fin dim → List Char) (v : Fin dim → ℚ)
    (hs : valueStore.getString "sigma" = some (List.intercalate [','] (List.ofFn e)))
    (he : ∀ i, ',' ∉ e i) (hv : ∀ i, stod (removeBlanks (e i)) = some (v i)) :
    ∃ cov, Covariance.construct stod valueStore dim = .ok cov
      ∧ ∀ r c : Fin dim, cov.covarianceSqrt r c = if r = c then v r else 0 := by
  have hps : ∀ p ∈ List.ofFn e, ',' ∉ p := by
    intro p hp
    obtain ⟨i, rfl⟩ := (List.mem_ofFn e p).mp hp
    exact he i
  rw [construct_comma_list stod valueStore dim (List.ofFn e) hs hps (by simpa using hdim)
    (Or.inl (by simp))]
  have hdec : decide ((List.ofFn e).length = dim) = true := by simp
  rw [hdec]
  obtain ⟨m2, hm2, hval⟩ := fillCoefficients_diag stod dim
    (fun k => if hk : k < dim then v ⟨k, hk⟩ else 0) ((List.ofFn e).map removeBlanks) 0 1 (by
      intro k p hp
      rw [List.map_ofFn] at hp
      obtain ⟨hk, rfl⟩ := getElem?_ofFn_eq _ k p hp
      simp only [Function.comp_apply, Nat.zero_add, dif_pos hk]
      exact hv ⟨k, hk⟩)
  refine ⟨⟨m2⟩, by rw [hm2]; rfl, ?_⟩
  intro r c
  show m2 r c = _
  rw [hval r c]
  by_cases hrc : r = c
  · have : r = c ∧ 0 ≤ r.val ∧ r.val < 0 + ((List.ofFn e).map removeBlanks).length :=
      ⟨hrc, Nat.zero_le _, by simp⟩
    rw [if_pos this, if_pos hrc, dif_pos r.isLt]
  · rw [if_neg (fun h => hrc h.1), if_neg hrc, Matrix.one_apply_ne hrc]

theorem index_lt_square (dim : Nat) (r c : Fin dim) : r.val * dim + c.val < dim * dim := by
  have h1 : r.val + 1 ≤ dim := r.isLt
  have h2 : (r.val + 1) * dim ≤ dim * dim := Nat.mul_le_mul_right dim h1
  have h3 : (r.val + 1) * dim = r.val * dim + dim := by ring
  have h4 := c.isLt
  omega

theorem construct_full_entries (stod : List Char → Option ℚ) (valueStore : ValueStore)
    (dim : Nat) (hdim : 2 ≤ dim) (e : Fin (dim * dim) → List Char) (v : Nat → ℚ)
    (hs : valueStore.getString "sigma" = some (List.intercalate [','] (List.ofFn e)))
    (he : ∀ i, ',' ∉ e i) (hv : ∀ i, stod (removeBlanks (e i)) = some (v i.val)) :
    ∃ cov, Covariance.construct stod valueStore dim = .ok cov
      ∧ ∀ r c : Fin dim, cov.covarianceSqrt r c = v (r.val * dim + c.val) := by
  have hsq : 2 ≤ dim * dim := by nlinarith
  have hnd : dim * dim ≠ dim := by
    intro h
    have : dim * dim ≥ 2 * dim := Nat.mul_le_mul_right dim hdim
    omega
  have hps : ∀ p ∈ List.ofFn e, ',' ∉ p := by
    intro p hp
    obtain ⟨i, rfl⟩ := (List.mem_ofFn e p).mp hp
    exact he i
  rw [construct_comma_list stod valueStore dim (List.ofFn e) hs hps (by simpa using hsq)
    (Or.inr (by simp))]
  have hdec : decide ((List.ofFn e).length = dim) = false := by simpa using hnd
  rw [hdec]
  obtain ⟨m2, hm2, hval⟩ := fillCoefficients_full stod dim v
    ((List.ofFn e).map removeBlanks) 0 1 (by
      intro k p hp
      rw [List.map_ofFn] at hp
      obtain ⟨hk, rfl⟩ := getElem?_ofFn_eq _ k p hp
      simp only [Function.comp_apply, Nat.zero_add]
      exact hv ⟨k, hk⟩)
  refine ⟨⟨m2⟩, by rw [hm2]; rfl, ?_⟩
  intro r c
  show m2 r c = _
  rw [hval r c]
  have : 0 ≤ r.val * dim + c.val
      ∧ r.val * dim + c.val < 0 + ((List.ofFn e).map removeBlanks).length := by
    refine ⟨Nat.zero_le _, ?_⟩
    simpa using index_lt_square dim r c
  rw [if_pos this]

/-! ### Claims C4 to C8 : parsing `sigma` -/

/-- C4. For every dimension, a value store without a `sigma` entry, or with the empty string as
`sigma`, yields the identity matrix as square-root covariance. -/
theorem covariance_of_empty_sigma (stod : List Char → Option ℚ) (valueStore : ValueStore)
    (dim : Nat)
    (h : valueStore.getString "sigma" = none ∨ valueStore.getString "sigma" = some []) :
    ∃ cov, Covariance.construct stod valueStore dim = .ok cov
      ∧ cov.covarianceSqrt = 1
      ∧ ∀ r c : Fin dim, cov.covarianceSqrt r c = if r = c then 1 else 0 := by
  refine ⟨⟨1⟩, ?_, rfl, fun r c => Matrix.one_apply⟩
  rcases h with h | h <;> simp [Covariance.construct, h]

/-- An instance of C4: the empty `sigma` and a store without `sigma`, on dimension 3. -/
theorem covariance_of_empty_sigma_witness :
    ((sigmaStore "").getString "sigma" = none ∨ (sigmaStore "").getString "sigma" = some [])
    ∧ ∃ cov, Covariance.construct readDigits (sigmaStore "") 3 = .ok cov
      ∧ cov.covarianceSqrt = 1
      ∧ ∀ r c : Fin 3, cov.covarianceSqrt r c = if r = c then 1 else 0 :=
  ⟨Or.inr (by decide),
   covariance_of_empty_sigma readDigits (sigmaStore "") 3 (Or.inr (by decide))⟩

/-- C5. For every dimension and every non-empty `sigma` without a comma that the value store
reads as the number `v`, the square-root covariance is `v` times the identity: `v` on the
diagonal and 0 elsewhere. -/
theorem covariance_of_single_number (stod : List Char → Option ℚ) (valueStore : ValueStore)
    (dim : Nat) (s : List Char) (v : ℚ)
    (hs : valueStore.getString "sigma" = some s) (hne : s ≠ []) (hcomma : ',' ∉ s)
    (hv : valueStore.getDouble "sigma" = some v) :
    ∃ cov, Covariance.construct stod valueStore dim = .ok cov
      ∧ ∀ r c : Fin dim, cov.covarianceSqrt r c = if r = c then v else 0 := by
  have hcount : s.count ',' = 0 := List.count_eq_zero.mpr hcomma
  refine ⟨⟨(1 : Matrix (Fin dim) (Fin dim) ℚ).map (fun x => x * v)⟩, ?_, ?_⟩
  · simp [Covariance.construct, hs, hne, hcount, hv]
  · intro r c
    by_cases hrc : r = c
    · simp [hrc]
    · simp [hrc, Matrix.one_apply_ne hrc]

/-- An instance of C5: `sigma` is `2` on dimension 3. -/
theorem covariance_of_single_number_witness :
    ∃ cov, Covariance.construct readDigits (sigmaStore "2") 3 = .ok cov
      ∧ ∀ r c : Fin 3, cov.covarianceSqrt r c = if r = c then 2 else 0 :=
  covariance_of_single_number readDigits (sigmaStore "2") 3 "2".toList 2
    (by decide) (by decide) (by decide) (by decide)

/-- C6. For every dimension of at least 2 and every `sigma` made of exactly `dim` entries
separated by commas, entry `i` reading as the number `v i` once its blanks are removed, the
square-root covariance is the diagonal matrix with `v i` at `(i, i)` and 0 elsewhere. -/
theorem covariance_of_diagonal_list (stod : List Char → Option ℚ) (valueStore : ValueStore)
    (dim : Nat) (hdim : 2 ≤ dim) (e : Fin dim → List Char) (v : Fin dim → ℚ)
    (hs : valueStore.getString "sigma" = some (List.intercalate [','] (List.ofFn e)))
    (he : ∀ i, ',' ∉ e i) (hv : ∀ i, stod (removeBlanks (e i)) = some (v i)) :
    ∃ cov, Covariance.construct stod valueStore dim = .ok cov
      ∧ ∀ r c : Fin dim, cov.covarianceSqrt r c = if r = c then v r else 0 :=
  construct_diagonal_entries stod valueStore dim hdim e v hs he hv

/-- An instance of C6: `sigma` is `1, 2 ,3` on dimension 3. -/
theorem covariance_of_diagonal_list_witness :
    ∃ cov, Covariance.construct readDigits (sigmaStore "1, 2 ,3") 3 = .ok cov
      ∧ ∀ r c : Fin 3, cov.covarianceSqrt r c = if r = c then (![1, 2, 3] : Fin 3 → ℚ) r else 0 :=
  covariance_of_diagonal_list readDigits (sigmaStore "1, 2 ,3") 3 (by decide)
    ![['1'], [' ', '2', ' '], ['3']] ![1, 2, 3] (by decide) (by decide) (by decide)

/-- C7. For every dimension of at least 2 and every `sigma` made of exactly `dim * dim` entries
separated by commas, entry `i` reading as the number `v i` once its blanks are removed, the
square-root covariance is the matrix read row by row: the entry at `(r, c)` is
`v (r * dim + c)`, for every `r` and `c`, so that nothing of the identity it started from is
left. -/
theorem covariance_of_full_list (stod : List Char → Option ℚ) (valueStore : ValueStore)
    (dim : Nat) (hdim : 2 ≤ dim) (e : Fin (dim * dim) → List Char) (v : Nat → ℚ)
    (hs : valueStore.getString "sigma" = some (List.intercalate [','] (List.ofFn e)))
    (he : ∀ i, ',' ∉ e i) (hv : ∀ i, stod (removeBlanks (e i)) = some (v i.val)) :
    ∃ cov, Covariance.construct stod valueStore dim = .ok cov
      ∧ ∀ r c : Fin dim, cov.covarianceSqrt r c = v (r.val * dim + c.val) :=
  construct_full_entries stod valueStore dim hdim e v hs he hv

/-- An instance of C7: `sigma` is `1,2,3,4,5,6,7,8,9` on dimension 3; the entry at `(r, c)` is
`3 * r + c + 1`. -/
theorem covariance_of_full_list_witness :
    ∃ cov, Covariance.construct readDigits (sigmaStore "1,2,3,4,5,6,7,8,9") 3 = .ok cov
      ∧ ∀ r c : Fin 3, cov.covarianceSqrt r c = ((r.val * 3 + c.val + 1 : Nat) : ℚ) :=
  covariance_of_full_list readDigits (sigmaStore "1,2,3,4,5,6,7,8,9") 3 (by decide)
    ![['1'], ['2'], ['3'], ['4'], ['5'], ['6'], ['7'], ['8'], ['9']]
    (fun k => ((k + 1 : Nat) : ℚ)) (by decide) (by decide) (by decide)

/-- C8. Let `sigma` be a non-empty string; its number of entries is its number of commas plus
one. If that number is neither 1, `dim` nor `dim * dim`, the constructor fails with the parse
error and yields no covariance. Conversely it yields a covariance if `sigma` has no comma and
the value store reads it as a number, and if `sigma` is made of `dim` or of `dim * dim` (and
more than one) entries each of which reads as a number once its blanks are removed. -/
theorem covariance_parse_failure (stod : List Char → Option ℚ) (valueStore : ValueStore)
    (dim : Nat) (s : List Char)
    (hs : valueStore.getString "sigma" = some s) (hne : s ≠ []) :
    ((s.count ',' + 1 ≠ 1 ∧ s.count ',' + 1 ≠ dim ∧ s.count ',' + 1 ≠ dim * dim) →
      Covariance.construct stod valueStore dim = .error (.parseFailure s))
    ∧ (∀ v : ℚ, s.count ',' + 1 = 1 → valueStore.getDouble "sigma" = some v →
        ∃ cov, Covariance.construct stod valueStore dim = .ok cov)
    ∧ (∀ (n : Nat) (e : Fin n → List Char) (v : Fin n → ℚ),
        (n = dim ∨ n = dim * dim) → 2 ≤ n → s = List.intercalate [','] (List.ofFn e) →
        (∀ i, ',' ∉ e i) → (∀ i, stod (removeBlanks (e i)) = some (v i)) →
        ∃ cov, Covariance.construct stod valueStore dim = .ok cov) := by
  refine ⟨?_, ?_, ?_⟩
  · rintro ⟨h1, h2, h3⟩
    have hc0 : ¬ ((s.count ',' : Nat) : Int) = 0 := by omega
    have hc1 : ¬ (((s.count ',' : Nat) : Int) = (dim : Int) - 1
        ∨ ((s.count ',' : Nat) : Int) = (dim : Int) * (dim : Int) - 1) := by
      rintro (h | h)
      · omega
      · have h4 : ((s.count ',' + 1 : Nat) : Int) = ((dim * dim : Nat) : Int) := by
          push_cast; omega
        exact h3 (Int.ofNat_inj.mp h4)
    unfold Covariance.construct
    simp only [hs, Option.getD_some, if_neg hne, if_neg hc0, if_neg hc1]
  · intro v h1 hv
    have hcount : s.count ',' = 0 := by omega
    exact ⟨_, by simp [Covariance.construct, hs, hne, hcount, hv]; rfl⟩
  · intro n e v hn h2 hse he hv
    have hps : ∀ p ∈ List.ofFn e, ',' ∉ p := by
      intro p hp
      obtain ⟨i, rfl⟩ := (List.mem_ofFn e p).mp hp
      exact he i
    rw [construct_comma_list stod valueStore dim (List.ofFn e) (hse ▸ hs) hps
      (by simpa using h2) (by simpa using hn)]
    have hread : ∀ (k : Nat) (p : List Char), ((List.ofFn e).map removeBlanks)[k]? = some p →
        stod p = some ((fun j => if hj : j < n then v ⟨j, hj⟩ else 0) (0 + k)) := by
      intro k p hp
      rw [List.map_ofFn] at hp
      obtain ⟨hk, rfl⟩ := getElem?_ofFn_eq _ k p hp
      simp only [Function.comp_apply, Nat.zero_add, dif_pos hk]
      exact hv ⟨k, hk⟩
    cases hd : decide ((List.ofFn e).length = dim) with
    | true =>
      obtain ⟨m2, hm2, _⟩ := fillCoefficients_diag stod dim
        (fun j => if hj : j < n then v ⟨j, hj⟩ else 0) ((List.ofFn e).map removeBlanks) 0 1 hread
      exact ⟨⟨m2⟩, by rw [hm2]; rfl⟩
    | false =>
      obtain ⟨m2, hm2, _⟩ := fillCoefficients_full stod dim
        (fun j => if hj : j < n then v ⟨j, hj⟩ else 0) ((List.ofFn e).map removeBlanks) 0 1 hread
      exact ⟨⟨m2⟩, by rw [hm2]; rfl⟩

/-- An instance of C8 on dimension 3: `1,2` is a parse error, while `7`, `1,2,3` and
`1,2,3,4,5,6,7,8,9` yield a covariance. -/
theorem covariance_parse_failure_witness :
    Covariance.construct readDigits (sigmaStore "1,2") 3
      = .error (.parseFailure ['1', ',', '2'])
    ∧ (∃ cov, Covariance.construct readDigits (sigmaStore "7") 3 = .ok cov)
    ∧ (∃ cov, Covariance.construct readDigits (sigmaStore "1,2,3") 3 = .ok cov)
    ∧ (∃ cov, Covariance.construct readDigits (sigmaStore "1,2,3,4,5,6,7,8,9") 3 = .ok cov) :=
  ⟨(covariance_parse_failure readDigits (sigmaStore "1,2") 3 ['1', ',', '2']
      (by decide) (by decide)).1 (by decide),
   (covariance_parse_failure readDigits (sigmaStore "7") 3 ['7']
      (by decide) (by decide)).2.1 7 (by decide) (by decide),
   (covariance_parse_failure readDigits (sigmaStore "1,2,3") 3 "1,2,3".toList
      (by decide) (by decide)).2.2 3 ![['1'], ['2'], ['3']] ![1, 2, 3]
      (by decide) (by decide) (by decide) (by decide) (by decide),
   (covariance_parse_failure readDigits (sigmaStore "1,2,3,4,5,6,7,8,9") 3
      "1,2,3,4,5,6,7,8,9".toList (by decide) (by decide)).2.2 9
      ![['1'], ['2'], ['3'], ['4'], ['5'], ['6'], ['7'], ['8'], ['9']]
      ![1, 2, 3, 4, 5, 6, 7, 8, 9]
      (by decide) (by decide) (by decide) (by decide) (by decide)⟩

/-! ### Rounding to a `double` -/

theorem roundHalfEven_eq (x : ℚ) (n : ℤ) (h1 : (n : ℚ) - 1 / 2 < x) (h2 : x < n + 1 / 2) :
    roundHalfEven x = n := by
  unfold roundHalfEven
  by_cases hx : (n : ℚ) ≤ x
  · have hf : ⌊x⌋ = n := by
      rw [Int.floor_eq_iff]
      constructor
      · exact hx
      · linarith
    simp only [hf]
    rw [if_pos (by linarith)]
  · push_neg at hx
    have hf : ⌊x⌋ = n - 1 := by
      rw [Int.floor_eq_iff]
      push_cast
      constructor
      · linarith
      · linarith
    simp only [hf]
    push_cast
    rw [if_neg (by linarith), if_pos (by linarith)]
    ring

/-- The rounding of a positive number `q` of the binade `[2 ^ e, 2 ^ (e + 1))` whose multiple
`q / 2 ^ (e - 52)` is nearer to the integer `n` than to any other. -/
theorem roundToDouble_eq (q : ℚ) (e n : ℤ) (hpos : 0 < q) (h1 : (2 : ℚ) ^ e ≤ q)
    (h2 : q < (2 : ℚ) ^ (e + 1)) (h3 : (n : ℚ) - 1 / 2 < q / 2 ^ (e - 52))
    (h4 : q / 2 ^ (e - 52) < n + 1 / 2) : roundToDouble q = n * 2 ^ (e - 52) := by
  have hlog : Int.log 2 |q| = e := by
    rw [abs_of_pos hpos]
    apply le_antisymm
    · have h5 : Int.log 2 q < e + 1 :=
        (Int.lt_zpow_iff_log_lt (by norm_num) hpos).mp (by exact_mod_cast h2)
      omega
    · exact (Int.zpow_le_iff_le_log (by norm_num) hpos).mp (by exact_mod_cast h1)
  unfold roundToDouble
  rw [if_neg (ne_of_gt hpos)]
  simp only [hlog]
  rw [roundHalfEven_eq _ n h3 h4]

theorem roundToDouble_zero : roundToDouble 0 = 0 := by
  simp [roundToDouble]

theorem roundToDouble_one : roundToDouble 1 = 1 := by
  rw [roundToDouble_eq 1 0 (2 ^ 52) (by norm_num) (by norm_num) (by norm_num) (by norm_num)
    (by norm_num)]
  norm_num

theorem roundToDouble_two : roundToDouble 2 = 2 := by
  rw [roundToDouble_eq 2 1 (2 ^ 52) (by norm_num) (by norm_num) (by norm_num) (by norm_num)
    (by norm_num)]
  norm_num

theorem roundToDouble_four : roundToDouble 4 = 4 := by
  rw [roundToDouble_eq 4 2 (2 ^ 52) (by norm_num) (by norm_num) (by norm_num) (by norm_num)
    (by norm_num)]
  norm_num

theorem roundToDouble_five : roundToDouble 5 = 5 := by
  rw [roundToDouble_eq 5 2 (5 * 2 ^ 50) (by norm_num) (by norm_num) (by norm_num)
    (by norm_num) (by norm_num)]
  norm_num

theorem finRange_three : List.finRange 3 = [0, 1, 2] := rfl

/-- C10 fails on the code. For `sigma` equal to `1,2,0,0,1,0,0,0,1` on dimension 3 the
square-root factor `S` has the rows (1,2,0), (0,1,0), (0,0,1); `getValue()` returns `Sᵀ * S`,
whose entry at (0,0) is 1, while `S * Sᵀ`, the matrix whose inverse `createPriorErrorTerm`
supplies as information matrix of a rotation variable's prior, has 5 there. The products and
sums of this example are small integers, none of which is rounded. -/
theorem getValue_is_not_sqrt_times_transpose :
    ∃ cov, Covariance.construct readDigits (sigmaStore "1,2,0,0,1,0,0,0,1") 3 = .ok cov
      ∧ cov.getValue 0 0 = 1
      ∧ (cov.getValueSqrt * cov.getValueSqrt.transpose) 0 0 = 5
      ∧ cov.getValue ≠ cov.getValueSqrt * cov.getValueSqrt.transpose
      ∧ ∀ inverse : Matrix (Fin 3) (Fin 3) ℚ → Matrix (Fin 3) (Fin 3) ℚ,
          (createPriorErrorTermRotationQuaternion inverse cov.getValueSqrt).invR
            = inverse (cov.getValueSqrt * cov.getValueSqrt.transpose) := by
  obtain ⟨cov, hcov, hval⟩ := construct_full_entries readDigits
    (sigmaStore "1,2,0,0,1,0,0,0,1") 3 (by decide)
    ![['1'], ['2'], ['0'], ['0'], ['1'], ['0'], ['0'], ['0'], ['1']]
    (fun k => if k = 0 ∨ k = 4 ∨ k = 8 then 1 else if k = 1 then 2 else 0)
    (by decide) (by decide) (by decide)
  have h1 : cov.getValue 0 0 = 1 := by
    simp [Covariance.getValue, productOfDoubles, finRange_three, hval, roundToDouble_zero,
      roundToDouble_one]
  have h2 : (cov.getValueSqrt * cov.getValueSqrt.transpose) 0 0 = 5 := by
    simp [Covariance.getValueSqrt, Matrix.mul_apply, Fin.sum_univ_succ, hval]
    norm_num
  have h4 : productOfDoubles cov.getValueSqrt cov.getValueSqrt.transpose
      = cov.getValueSqrt * cov.getValueSqrt.transpose := by
    ext i j
    fin_cases i <;> fin_cases j <;>
      norm_num [Covariance.getValueSqrt, productOfDoubles, finRange_three, Matrix.mul_apply,
        Fin.sum_univ_succ, hval, roundToDouble_zero, roundToDouble_one, roundToDouble_two,
        roundToDouble_four, roundToDouble_five]
  refine ⟨cov, hcov, h1, h2, ?_, ?_⟩
  · intro h
    have h3 := congrFun (congrFun h 0) 0
    rw [h1, h2] at h3
    norm_num at h3
  · intro inverse
    show inverse (productOfDoubles cov.getValueSqrt cov.getValueSqrt.transpose) = _
    rw [h4]


/-! ### Maps -/

theorem mapCount_eq_zero_iff {K V : Type} [DecidableEq K] (m : List (K × V)) (k : K) :
    mapCount m k = 0 ↔ k ∉ m.map Prod.fst := by
  unfold mapCount
  by_cases h : k ∈ m.map Prod.fst
  · rw [if_pos h]; simp [h]
  · rw [if_neg h]; simp [h]

theorem keys_mapEmplace {K V : Type} [DecidableEq K] (m : List (K × V)) (k : K) (v : V) :
    (mapEmplace m k v).map Prod.fst
      = if k ∈ m.map Prod.fst then m.map Prod.fst else m.map Prod.fst ++ [k] := by
  unfold mapEmplace
  by_cases h : k ∈ m.map Prod.fst
  · rw [if_pos h, if_pos h]
  · rw [if_neg h, if_neg h]; simp

theorem mem_keys_mapEmplace {K V : Type} [DecidableEq K] (m : List (K × V)) (k : K) (v : V)
    (x : K) : x ∈ (mapEmplace m k v).map Prod.fst ↔ x ∈ m.map Prod.fst ∨ x = k := by
  rw [keys_mapEmplace]
  by_cases h : k ∈ m.map Prod.fst
  · rw [if_pos h]
    constructor
    · exact Or.inl
    · rintro (h1 | h1)
      · exact h1
      · rw [h1]; exact h
  · rw [if_neg h]; simp

theorem mapFind_eq_none_iff {K V : Type} [DecidableEq K] (m : List (K × V)) (k : K) :
    mapFind m k = none ↔ k ∉ m.map Prod.fst := by
  unfold mapFind
  rw [Option.map_eq_none', List.find?_eq_none]
  simp only [decide_eq_true_eq, List.mem_map, not_exists, not_and]

theorem mem_of_mapFind {K V : Type} [DecidableEq K] (m : List (K × V)) (k : K) (v : V)
    (h : mapFind m k = some v) : (k, v) ∈ m := by
  unfold mapFind at h
  rw [Option.map_eq_some'] at h
  obtain ⟨e, he, hv⟩ := h
  have hmem := List.mem_of_find?_eq_some he
  have hk := List.find?_some he
  simp only [decide_eq_true_eq] at hk
  have : e = (k, v) := Prod.ext hk hv
  rw [← this]
  exact hmem

theorem mem_mapEmplace {K V : Type} [DecidableEq K] (m : List (K × V)) (k : K) (v : V)
    (e : K × V) (h : e ∈ mapEmplace m k v) : e ∈ m ∨ e = (k, v) := by
  unfold mapEmplace at h
  by_cases hk : k ∈ m.map Prod.fst
  · rw [if_pos hk] at h; exact Or.inl h
  · rw [if_neg hk] at h; simpa using h

/-! ### Frames -/

theorem addFrame_of_mem (m : Model) (f : Frame) (h : f.name ∈ m.id2framesMap.map Prod.fst) :
    m.addFrame f
      = .error (.runtimeError ("A frame with name " ++ f.name ++ " already exists.")) := by
  have h0 : mapCount m.id2framesMap f.name ≠ 0 := fun h0 =>
    (mapCount_eq_zero_iff _ _).mp h0 h
  simp only [Model.addFrame, if_pos h0]

theorem addFrame_of_not_mem (m : Model) (f : Frame)
    (h : f.name ∉ m.id2framesMap.map Prod.fst) :
    m.addFrame f = .ok { m with
      frames := m.frames ++ [f]
      id2framesMap := m.id2framesMap ++ [(f.name, f)] } := by
  have h0 : ¬ mapCount m.id2framesMap f.name ≠ 0 := fun h1 =>
    h1 ((mapCount_eq_zero_iff _ _).mpr h)
  simp only [Model.addFrame, if_neg h0, mapEmplace, if_neg h]

theorem keys_of_framesConsistent (m : Model) (h : FramesConsistent m) :
    m.id2framesMap.map Prod.fst = m.frames.map (fun f => f.name) := by
  rw [h.1, List.map_map]
  rfl

theorem framesConsistent_addFrame (m m1 : Model) (f : Frame) (h : FramesConsistent m)
    (hadd : m.addFrame f = .ok m1) : FramesConsistent m1 := by
  by_cases hmem : f.name ∈ m.id2framesMap.map Prod.fst
  · rw [addFrame_of_mem m f hmem] at hadd
    cases hadd
  · rw [addFrame_of_not_mem m f hmem] at hadd
    injection hadd with hadd
    subst hadd
    constructor
    · simp [h.1]
    · show ((m.frames ++ [f]).map (fun f => f.name)).Nodup
      rw [List.map_append]
      refine List.Nodup.append h.2 (by simp) ?_
      rw [keys_of_framesConsistent m h] at hmem
      simpa using hmem

theorem framesConsistent_applyRegistryOp (m : Model) (op : RegistryOp)
    (h : FramesConsistent m) : FramesConsistent (m.applyRegistryOp op) := by
  cases op with
  | addFrame frame =>
    simp only [Model.applyRegistryOp]
    cases hadd : m.addFrame frame with
    | error e => exact h
    | ok m1 => exact framesConsistent_addFrame m m1 frame h hadd
  | createFrame name address =>
    simp only [Model.applyRegistryOp, Model.createFrame]
    cases hadd : m.addFrame { name := name, id := address } with
    | error e => exact h
    | ok m1 =>
      have := framesConsistent_addFrame m m1 _ h hadd
      exact this
  | registerSensor s => exact h

theorem framesConsistent_foldl (ops : List RegistryOp) (m : Model) (h : FramesConsistent m) :
    FramesConsistent (ops.foldl Model.applyRegistryOp m) := by
  induction ops generalizing m with
  | nil => exact h
  | cons op ops ih => exact ih _ (framesConsistent_applyRegistryOp m op h)

theorem framesConsistent_runRegistry (ops : List RegistryOp) :
    FramesConsistent (Model.runRegistry ops) :=
  framesConsistent_foldl ops Model.empty ⟨rfl, by simp [Model.empty]⟩

theorem applyRegistryOp_addFrame_of_not_mem (m : Model) (f : Frame)
    (h : f.name ∉ m.id2framesMap.map Prod.fst) :
    m.applyRegistryOp (.addFrame f) = { m with
      frames := m.frames ++ [f]
      id2framesMap := m.id2framesMap ++ [(f.name, f)] } := by
  simp only [Model.applyRegistryOp, addFrame_of_not_mem m f h]

theorem applyRegistryOp_createFrame_of_not_mem (m : Model) (name : String) (address : Nat)
    (h : name ∉ m.id2framesMap.map Prod.fst) :
    m.applyRegistryOp (.createFrame name address) = { m with
      frames := m.frames ++ [⟨name, address⟩]
      id2framesMap := m.id2framesMap ++ [(name, ⟨name, address⟩)]
      ownedNOs := m.ownedNOs ++ [⟨name, address⟩] } := by
  simp only [Model.applyRegistryOp, Model.createFrame,
    addFrame_of_not_mem m ⟨name, address⟩ h]

theorem applyRegistryOp_of_mem (m : Model) (op : RegistryOp) (name : String)
    (hop : op.frameName = some name) (h : name ∈ m.id2framesMap.map Prod.fst) :
    m.applyRegistryOp op = m := by
  cases op with
  | addFrame frame =>
    simp only [RegistryOp.frameName, Option.some.injEq] at hop
    simp only [Model.applyRegistryOp, addFrame_of_mem m frame (hop ▸ h)]
  | createFrame name2 address =>
    simp only [RegistryOp.frameName, Option.some.injEq] at hop
    subst hop
    simp only [Model.applyRegistryOp, Model.createFrame,
      addFrame_of_mem m ⟨name2, address⟩ h]
  | registerSensor s => simp [RegistryOp.frameName] at hop

theorem mem_frameKeys_applyRegistryOp (m : Model) (op : RegistryOp) (name : String) :
    name ∈ (m.applyRegistryOp op).id2framesMap.map Prod.fst
      ↔ name ∈ m.id2framesMap.map Prod.fst ∨ op.frameName = some name := by
  cases hn : op.frameName with
  | none =>
    cases op with
    | addFrame frame => simp [RegistryOp.frameName] at hn
    | createFrame name2 address => simp [RegistryOp.frameName] at hn
    | registerSensor s => simp [Model.applyRegistryOp, Model.registerSensor]
  | some n =>
    by_cases hmem : n ∈ m.id2framesMap.map Prod.fst
    · rw [applyRegistryOp_of_mem m op n hn hmem]
      constructor
      · exact Or.inl
      · rintro (h | h)
        · exact h
        · injection h with h
          rw [← h]; exact hmem
    · cases op with
      | addFrame frame =>
        simp only [RegistryOp.frameName, Option.some.injEq] at hn
        subst hn
        rw [applyRegistryOp_addFrame_of_not_mem m frame hmem]
        simp [eq_comm]
      | createFrame name2 address =>
        simp only [RegistryOp.frameName, Option.some.injEq] at hn
        subst hn
        rw [applyRegistryOp_createFrame_of_not_mem m name2 address hmem]
        simp [eq_comm]
      | registerSensor s => simp [RegistryOp.frameName] at hn

theorem mem_frameKeys_foldl (ops : List RegistryOp) (m : Model) (name : String) :
    name ∈ (ops.foldl Model.applyRegistryOp m).id2framesMap.map Prod.fst
      ↔ name ∈ m.id2framesMap.map Prod.fst ∨ ∃ op ∈ ops, op.frameName = some name := by
  induction ops generalizing m with
  | nil => simp
  | cons op ops ih =>
    rw [List.foldl_cons, ih, mem_frameKeys_applyRegistryOp]
    simp only [List.mem_cons, exists_eq_or_imp]
    tauto

theorem mem_frames_applyRegistryOp (m : Model) (op : RegistryOp) (f : Frame)
    (h : f ∈ (m.applyRegistryOp op).frames) :
    f ∈ m.frames ∨ op = .addFrame f ∨ op = .createFrame f.name f.id := by
  cases op with
  | addFrame frame =>
    by_cases hmem : frame.name ∈ m.id2framesMap.map Prod.fst
    · rw [applyRegistryOp_of_mem m (.addFrame frame) frame.name rfl hmem] at h
      exact Or.inl h
    · rw [applyRegistryOp_addFrame_of_not_mem m frame hmem] at h
      rcases List.mem_append.mp h with h | h
      · exact Or.inl h
      · right; left
        rw [List.mem_singleton.mp h]
  | createFrame name address =>
    by_cases hmem : name ∈ m.id2framesMap.map Prod.fst
    · rw [applyRegistryOp_of_mem m (.createFrame name address) name rfl hmem] at h
      exact Or.inl h
    · rw [applyRegistryOp_createFrame_of_not_mem m name address hmem] at h
      rcases List.mem_append.mp h with h | h
      · exact Or.inl h
      · right; right
        rw [List.mem_singleton.mp h]
  | registerSensor s => exact Or.inl h

theorem mem_frames_foldl (ops : List RegistryOp) (m : Model) (f : Frame)
    (h : f ∈ (ops.foldl Model.applyRegistryOp m).frames) :
    f ∈ m.frames ∨ ∃ op ∈ ops, op = .addFrame f ∨ op = .createFrame f.name f.id := by
  induction ops generalizing m with
  | nil => exact Or.inl h
  | cons op ops ih =>
    rcases ih _ h with h1 | ⟨op2, hop2, h2⟩
    · rcases mem_frames_applyRegistryOp m op f h1 with h3 | h3
      · exact Or.inl h3
      · exact Or.inr ⟨op, by simp, h3⟩
    · exact Or.inr ⟨op2, List.mem_cons_of_mem _ hop2, h2⟩

theorem getFrame_error_iff (m : Model) (name : String) :
    (∃ e, m.getFrame name = .error e) ↔ name ∉ m.id2framesMap.map Prod.fst := by
  unfold Model.getFrame
  by_cases h : name ∈ m.id2framesMap.map Prod.fst
  · have h0 : ¬ mapCount m.id2framesMap name = 0 := fun h0 =>
      (mapCount_eq_zero_iff _ _).mp h0 h
    rw [if_neg h0]
    cases hf : mapFind m.id2framesMap name with
    | none => exact absurd h ((mapFind_eq_none_iff _ _).mp hf)
    | some f => simp [h]
  · have h0 : mapCount m.id2framesMap name = 0 := (mapCount_eq_zero_iff _ _).mpr h
    rw [if_pos h0]
    simp [h]

theorem getFrame_ok (m : Model) (name : String) (f : Frame) (h : m.getFrame name = .ok f) :
    (name, f) ∈ m.id2framesMap := by
  unfold Model.getFrame at h
  split at h
  · cases h
  · cases hf : mapFind m.id2framesMap name with
    | none => rw [hf] at h; cases h
    | some g =>
      rw [hf] at h
      injection h with h
      subst h
      exact mem_of_mapFind _ _ _ hf

/-! ### Sensors -/

theorem mem_sensorKeys_applyRegistryOp (m : Model) (op : RegistryOp) (id : Nat) :
    id ∈ (m.applyRegistryOp op).id2sensorMap.map Prod.fst
      ↔ id ∈ m.id2sensorMap.map Prod.fst ∨ op.sensorId = some id := by
  cases op with
  | addFrame frame =>
    simp only [RegistryOp.sensorId, reduceCtorEq, or_false]
    by_cases hmem : frame.name ∈ m.id2framesMap.map Prod.fst
    · rw [applyRegistryOp_of_mem m (.addFrame frame) frame.name rfl hmem]
    · rw [applyRegistryOp_addFrame_of_not_mem m frame hmem]
  | createFrame name address =>
    simp only [RegistryOp.sensorId, reduceCtorEq, or_false]
    by_cases hmem : name ∈ m.id2framesMap.map Prod.fst
    · rw [applyRegistryOp_of_mem m (.createFrame name address) name rfl hmem]
    · rw [applyRegistryOp_createFrame_of_not_mem m name address hmem]
  | registerSensor s =>
    simp only [Model.applyRegistryOp, Model.registerSensor, RegistryOp.sensorId,
      Option.some.injEq]
    rw [mem_keys_mapEmplace]
    simp [eq_comm]

theorem mem_sensorKeys_foldl (ops : List RegistryOp) (m : Model) (id : Nat) :
    id ∈ (ops.foldl Model.applyRegistryOp m).id2sensorMap.map Prod.fst
      ↔ id ∈ m.id2sensorMap.map Prod.fst ∨ ∃ op ∈ ops, op.sensorId = some id := by
  induction ops generalizing m with
  | nil => simp
  | cons op ops ih =>
    rw [List.foldl_cons, ih, mem_sensorKeys_applyRegistryOp]
    simp only [List.mem_cons, exists_eq_or_imp]
    tauto

theorem sensorMap_keyed_applyRegistryOp (m : Model) (op : RegistryOp)
    (h : ∀ e ∈ m.id2sensorMap, e.2.id = e.1) :
    ∀ e ∈ (m.applyRegistryOp op).id2sensorMap, e.2.id = e.1 := by
  cases op with
  | addFrame frame =>
    by_cases hmem : frame.name ∈ m.id2framesMap.map Prod.fst
    · rw [applyRegistryOp_of_mem m (.addFrame frame) frame.name rfl hmem]; exact h
    · rw [applyRegistryOp_addFrame_of_not_mem m frame hmem]; exact h
  | createFrame name address =>
    by_cases hmem : name ∈ m.id2framesMap.map Prod.fst
    · rw [applyRegistryOp_of_mem m (.createFrame name address) name rfl hmem]; exact h
    · rw [applyRegistryOp_createFrame_of_not_mem m name address hmem]; exact h
  | registerSensor s =>
    intro e he
    simp only [Model.applyRegistryOp, Model.registerSensor] at he
    rcases mem_mapEmplace _ _ _ _ he with h1 | h1
    · exact h e h1
    · rw [h1]

theorem sensorMap_keyed_foldl (ops : List RegistryOp) (m : Model)
    (h : ∀ e ∈ m.id2sensorMap, e.2.id = e.1) :
    ∀ e ∈ (ops.foldl Model.applyRegistryOp m).id2sensorMap, e.2.id = e.1 := by
  induction ops generalizing m with
  | nil => exact h
  | cons op ops ih => exact ih _ (sensorMap_keyed_applyRegistryOp m op h)

theorem getSensor_error_iff (m : Model) (id : Nat) :
    (∃ e, m.getSensor id = .error e) ↔ id ∉ m.id2sensorMap.map Prod.fst := by
  unfold Model.getSensor
  cases hf : mapFind m.id2sensorMap id with
  | none => simpa using (mapFind_eq_none_iff _ _).mp hf
  | some s =>
    have : ¬ id ∉ m.id2sensorMap.map Prod.fst := fun hn => by
      rw [(mapFind_eq_none_iff _ _).mpr hn] at hf
      cases hf
    simpa using this

/-! ### Claims C11 to C13 : the registries of the model -/

/-- C11. `Model::addFrame` and `Model::createFrame` with a name that is already in the name map
throw and leave the model, hence the frame list and the name map, as they were; with a fresh
name they append exactly the one frame to the frame list and the one entry to the name map. So
in every reachable state no frame name occurs twice in the frame list or in the name map, both
hold the same names, and every entry of the map holds a frame of its name. -/
theorem addFrame_unique_names :
    (∀ (m : Model) (f : Frame), f.name ∈ m.id2framesMap.map Prod.fst →
      (∃ e, m.addFrame f = .error e) ∧ m.applyRegistryOp (.addFrame f) = m)
    ∧ (∀ (m : Model) (name : String) (address : Nat), name ∈ m.id2framesMap.map Prod.fst →
      (∃ e, m.createFrame name address = .error e)
        ∧ m.applyRegistryOp (.createFrame name address) = m)
    ∧ (∀ (m : Model) (f : Frame), f.name ∉ m.id2framesMap.map Prod.fst →
      ∃ m1, m.addFrame f = .ok m1 ∧ m1.frames = m.frames ++ [f]
        ∧ m1.id2framesMap = m.id2framesMap ++ [(f.name, f)])
    ∧ (∀ (m : Model) (name : String) (address : Nat), name ∉ m.id2framesMap.map Prod.fst →
      ∃ m1, m.createFrame name address = .ok (⟨name, address⟩, m1)
        ∧ m1.frames = m.frames ++ [⟨name, address⟩]
        ∧ m1.id2framesMap = m.id2framesMap ++ [(name, ⟨name, address⟩)])
    ∧ (∀ ops : List RegistryOp,
        ((Model.runRegistry ops).frames.map (fun f => f.name)).Nodup
        ∧ ((Model.runRegistry ops).id2framesMap.map Prod.fst).Nodup
        ∧ (Model.runRegistry ops).id2framesMap.map Prod.fst
            = (Model.runRegistry ops).frames.map (fun f => f.name)
        ∧ ∀ e ∈ (Model.runRegistry ops).id2framesMap, e.2.name = e.1) := by
  refine ⟨?_, ?_, ?_, ?_, ?_⟩
  · intro m f h
    exact ⟨⟨_, addFrame_of_mem m f h⟩, applyRegistryOp_of_mem m _ f.name rfl h⟩
  · intro m name address h
    refine ⟨⟨.runtimeError ("A frame with name " ++ name ++ " already exists."), ?_⟩,
      applyRegistryOp_of_mem m (.createFrame name address) name rfl h⟩
    simp only [Model.createFrame, addFrame_of_mem m ⟨name, address⟩ h]
  · intro m f h
    exact ⟨_, addFrame_of_not_mem m f h, rfl, rfl⟩
  · intro m name address h
    refine ⟨{ m with
      frames := m.frames ++ [⟨name, address⟩]
      id2framesMap := m.id2framesMap ++ [(name, ⟨name, address⟩)]
      ownedNOs := m.ownedNOs ++ [⟨name, address⟩] }, ?_, rfl, rfl⟩
    simp only [Model.createFrame, addFrame_of_not_mem m ⟨name, address⟩ h]
  · intro ops
    have h := framesConsistent_runRegistry ops
    have hk := keys_of_framesConsistent _ h
    refine ⟨h.2, by rw [hk]; exact h.2, hk, ?_⟩
    intro e he
    rw [h.1] at he
    obtain ⟨f, _, rfl⟩ := List.mem_map.mp he
    rfl

/-- An instance of C11: the frames `world` and `body` are added, then `world` again, which
throws; the frame list and the name map still hold `world` and `body` once each. -/
theorem addFrame_unique_names_witness :
    (∃ e, (Model.runRegistry [.addFrame ⟨"world", 1⟩, .addFrame ⟨"body", 2⟩]).addFrame
        ⟨"world", 3⟩ = .error e)
    ∧ (Model.runRegistry [.addFrame ⟨"world", 1⟩, .addFrame ⟨"body", 2⟩]).applyRegistryOp
        (.addFrame ⟨"world", 3⟩)
      = Model.runRegistry [.addFrame ⟨"world", 1⟩, .addFrame ⟨"body", 2⟩]
    ∧ (Model.runRegistry [.addFrame ⟨"world", 1⟩, .addFrame ⟨"body", 2⟩,
        .addFrame ⟨"world", 3⟩]).frames = [⟨"world", 1⟩, ⟨"body", 2⟩] :=
  ⟨(addFrame_unique_names.1
      (Model.runRegistry [.addFrame ⟨"world", 1⟩, .addFrame ⟨"body", 2⟩]) ⟨"world", 3⟩
      (by decide)).1,
   (addFrame_unique_names.1
      (Model.runRegistry [.addFrame ⟨"world", 1⟩, .addFrame ⟨"body", 2⟩]) ⟨"world", 3⟩
      (by decide)).2,
   by decide⟩

/-- C12. In a model reached by any sequence of frame additions, frame creations and sensor
registrations, `getFrame(name)` throws if and only if none of the calls added or created a
frame of that name, and otherwise returns a frame of exactly that name, the one held by the
name map, which one of the calls added; `getSensor(id)` throws if and only if none of the
calls registered a sensor with that id, and otherwise returns a sensor with that id. -/
theorem lookup_throws_iff_missing (ops : List RegistryOp) :
    (∀ name : String,
      ((∃ e, (Model.runRegistry ops).getFrame name = .error e)
          ↔ ∀ op ∈ ops, op.frameName ≠ some name)
      ∧ ∀ f : Frame, (Model.runRegistry ops).getFrame name = .ok f →
          f.name = name ∧ (name, f) ∈ (Model.runRegistry ops).id2framesMap
          ∧ f ∈ (Model.runRegistry ops).frames
          ∧ ∃ op ∈ ops, op = .addFrame f ∨ op = .createFrame f.name f.id)
    ∧ (∀ id : Nat,
      ((∃ e, (Model.runRegistry ops).getSensor id = .error e)
          ↔ ∀ op ∈ ops, op.sensorId ≠ some id)
      ∧ ∀ s : Sensor, (Model.runRegistry ops).getSensor id = .ok s → s.id = id) := by
  constructor
  · intro name
    constructor
    · rw [getFrame_error_iff, Model.runRegistry, mem_frameKeys_foldl]
      simp [Model.empty]
    · intro f hf
      have hcons := framesConsistent_runRegistry ops
      have hmem := getFrame_ok _ name f hf
      have hmem2 := hmem
      rw [hcons.1] at hmem2
      obtain ⟨g, hg, hgf⟩ := List.mem_map.mp hmem2
      have hname : g.name = name := congrArg Prod.fst hgf
      have hgeq : g = f := congrArg Prod.snd hgf
      subst hgeq
      refine ⟨hname, hmem, hg, ?_⟩
      rcases mem_frames_foldl ops Model.empty g hg with h | h
      · simp [Model.empty] at h
      · exact h
  · intro id
    constructor
    · rw [getSensor_error_iff, Model.runRegistry, mem_sensorKeys_foldl]
      simp [Model.empty]
    · intro s hs
      unfold Model.getSensor at hs
      cases hf : mapFind (Model.runRegistry ops).id2sensorMap id with
      | none => rw [hf] at hs; cases hs
      | some t =>
        rw [hf] at hs
        injection hs with hs
        subst hs
        have hmem := mem_of_mapFind _ _ _ hf
        exact sensorMap_keyed_foldl ops Model.empty (by simp [Model.empty]) _ hmem

/-- An instance of C12: after adding the frame `world` and registering sensor 7, looking up
`world` and 7 succeeds, looking up `body` and 8 throws. -/
theorem lookup_throws_iff_missing_witness :
    (Model.runRegistry [.addFrame ⟨"world", 1⟩, .registerSensor ⟨7, "imu"⟩]).getFrame "world"
      = .ok ⟨"world", 1⟩
    ∧ (Model.runRegistry [.addFrame ⟨"world", 1⟩, .registerSensor ⟨7, "imu"⟩]).getSensor 7
      = .ok ⟨7, "imu"⟩
    ∧ (∃ e, (Model.runRegistry [.addFrame ⟨"world", 1⟩,
        .registerSensor ⟨7, "imu"⟩]).getFrame "body" = .error e)
    ∧ (∃ e, (Model.runRegistry [.addFrame ⟨"world", 1⟩,
        .registerSensor ⟨7, "imu"⟩]).getSensor 8 = .error e) :=
  ⟨by rfl, by rfl,
   ((lookup_throws_iff_missing
      [.addFrame ⟨"world", 1⟩, .registerSensor ⟨7, "imu"⟩]).1 "body").1.mpr (by decide),
   ((lookup_throws_iff_missing
      [.addFrame ⟨"world", 1⟩, .registerSensor ⟨7, "imu"⟩]).2 8).1.mpr (by decide)⟩

/-- C13 fails on the code. `Model::registerSensor` does not look whether the id is registered:
registering two sensors with the id 7 (or one sensor twice) is not rejected, the sensor list
then holds two entries with the id 7 while the id map holds only the first one. -/
theorem registerSensor_accepts_duplicate_id :
    (Model.runRegistry [.registerSensor ⟨7, "a"⟩, .registerSensor ⟨7, "b"⟩]).sensors
      = [⟨7, "a"⟩, ⟨7, "b"⟩]
    ∧ (Model.runRegistry [.registerSensor ⟨7, "a"⟩, .registerSensor ⟨7, "b"⟩]).id2sensorMap
      = [(7, ⟨7, "a"⟩)]
    ∧ ¬ ((Model.runRegistry [.registerSensor ⟨7, "a"⟩,
        .registerSensor ⟨7, "b"⟩]).sensors.map (fun s => s.id)).Nodup
    ∧ (Model.runRegistry [.registerSensor ⟨7, "a"⟩, .registerSensor ⟨7, "a"⟩]).sensors
      = [⟨7, "a"⟩, ⟨7, "a"⟩] := by
  refine ⟨by decide, by decide, by decide, by decide⟩

/-! ### Claims C14 and C15 : registration of a module -/

theorem successfulRegistrations_of_registered (n : Nat) (mod : Module)
    (h : mod.isUsed = false ∨ mod.isRegistered_ = true) :
    Module.successfulRegistrations n mod = 0 := by
  have htry : mod.tryRegister = (mod, false) := by
    unfold Module.tryRegister Module.registerWithModel
    rcases h with h | h
    · simp [h]
    · by_cases hu : mod.isUsed = true <;> simp [hu, h]
  induction n with
  | zero => rfl
  | succ n ih =>
    rw [Module.successfulRegistrations, htry]
    simpa using ih

theorem registerWithModel_ok_iff (mod mod1 : Module) :
    mod.registerWithModel = .ok mod1
      ↔ mod.isUsed = true ∧ mod.isRegistered_ = false
        ∧ mod1 = { mod with isRegistered_ := true } := by
  unfold Module.registerWithModel
  by_cases hu : mod.isUsed = true
  · by_cases hr : mod.isRegistered_ = true
    · simp [hu, hr]
    · simp [hu, hr, eq_comm]
  · simp [hu]

/-- C14. `Module::registerWithModel` succeeds if and only if the module is used and not yet
registered; on success the flag `isRegistered_` is set and nothing else changes, so that a
second call fails; a call on a module that is not used fails on the `CHECK`, a call on a used
module that is registered throws; hence among any number of calls in a row at most one
succeeds. -/
theorem registerWithModel_at_most_once (mod : Module) :
    ((∃ mod1, mod.registerWithModel = .ok mod1)
        ↔ (mod.isUsed = true ∧ mod.isRegistered_ = false))
    ∧ (∀ mod1, mod.registerWithModel = .ok mod1 →
        mod1.isRegistered_ = true ∧ mod1.isUsed = true ∧ mod1.name = mod.name
          ∧ ∃ what, mod1.registerWithModel = .error (.runtimeError what))
    ∧ (mod.isUsed = false → mod.registerWithModel = .error .checkFailed)
    ∧ (mod.isUsed = true → mod.isRegistered_ = true →
        ∃ what, mod.registerWithModel = .error (.runtimeError what))
    ∧ ∀ n : Nat, Module.successfulRegistrations n mod ≤ 1 := by
  refine ⟨?_, ?_, ?_, ?_, ?_⟩
  · constructor
    · rintro ⟨mod1, h⟩
      have := (registerWithModel_ok_iff mod mod1).mp h
      exact ⟨this.1, this.2.1⟩
    · rintro ⟨h1, h2⟩
      exact ⟨_, (registerWithModel_ok_iff mod _).mpr ⟨h1, h2, rfl⟩⟩
  · intro mod1 h
    obtain ⟨h1, h2, h3⟩ := (registerWithModel_ok_iff mod mod1).mp h
    subst h3
    refine ⟨rfl, h1, rfl, ⟨"Only register a module once! (name=" ++ mod.name ++ ")", ?_⟩⟩
    have hu : Module.isUsed { mod with isRegistered_ := true } = true := h1
    simp only [Module.registerWithModel, hu]
    rfl
  · intro h
    simp [Module.registerWithModel, h]
  · intro h1 h2
    exact ⟨"Only register a module once! (name=" ++ mod.name ++ ")",
      by simp only [Module.registerWithModel, h1, h2]; rfl⟩
  · intro n
    induction n generalizing mod with
    | zero => exact Nat.zero_le _
    | succ n ih =>
      rw [Module.successfulRegistrations]
      cases hreg : mod.registerWithModel with
      | error e =>
        have htry : mod.tryRegister = (mod, false) := by
          simp only [Module.tryRegister, hreg]
        rw [htry]
        simpa using ih mod
      | ok mod1 =>
        have htry : mod.tryRegister = (mod1, true) := by
          simp only [Module.tryRegister, hreg]
        obtain ⟨_, _, h3⟩ := (registerWithModel_ok_iff mod mod1).mp hreg
        rw [htry, successfulRegistrations_of_registered n mod1 (Or.inr (by rw [h3]))]
        simp

/-- An instance of C14: a used module registers once; a second call throws. -/
theorem registerWithModel_at_most_once_witness :
    (∃ mod1, (MotionCaptureSystem.asModule ⟨true, some 1, some 2, none⟩ "mcs"
        (sigmaStore "") false true).registerWithModel = .ok mod1
      ∧ mod1.isRegistered_ = true
      ∧ ∃ what, mod1.registerWithModel = .error (.runtimeError what))
    ∧ (MotionCaptureSystem.asModule ⟨false, none, none, none⟩ "mcs"
        (sigmaStore "") false true).registerWithModel = .error .checkFailed :=
  ⟨⟨_, rfl, ((registerWithModel_at_most_once (MotionCaptureSystem.asModule
        ⟨true, some 1, some 2, none⟩ "mcs" (sigmaStore "") false true)).2.1 _ rfl).1,
      ((registerWithModel_at_most_once (MotionCaptureSystem.asModule
        ⟨true, some 1, some 2, none⟩ "mcs" (sigmaStore "") false true)).2.1 _ rfl).2.2.2⟩,
   (registerWithModel_at_most_once (MotionCaptureSystem.asModule
      ⟨false, none, none, none⟩ "mcs" (sigmaStore "") false true)).2.2.1 rfl⟩

theorem addFrames_ok_or_runtimeError (fs : List (Option Frame)) (m : Model) :
    (∃ m1, m.addFrames fs = .ok m1 ∧ m1.calibrationVariables = m.calibrationVariables)
      ∨ ∃ what, m.addFrames fs = .error (.runtimeError what) := by
  induction fs generalizing m with
  | nil => exact Or.inl ⟨m, rfl, rfl⟩
  | cons f fs ih =>
    cases f with
    | none => exact ih m
    | some f =>
      rw [Model.addFrames]
      by_cases hmem : f.name ∈ m.id2framesMap.map Prod.fst
      · rw [addFrame_of_mem m f hmem]
        exact Or.inr ⟨_, rfl⟩
      · rw [addFrame_of_not_mem m f hmem]
        exact ih _

/-- C15 fails on the code. With a configuration in which the gravity module is not used, and
the frames `world` and `body` as in the test, the constructor of `Model` does not succeed:
`SimpleGravity::registerWithModel` calls `Module::registerWithModel`, whose `CHECK(isUsed())`
fails. This is so for every list of frames and every configuration: the constructor never
yields a model when the gravity module is not used. -/
theorem construct_with_unused_gravity_fails :
    (∀ magnitude : CalibrationVariable,
      Model.construct (SimpleGravity.construct (sigmaStore "") false magnitude)
        [some ⟨"world", 1⟩, some ⟨"body", 2⟩] = .error .checkFailed)
    ∧ (∀ (myConfig : ValueStore) (magnitude : CalibrationVariable)
        (frames : List (Option Frame)) (r : Model × SimpleGravity),
        Model.construct (SimpleGravity.construct myConfig false magnitude) frames ≠ .ok r)
    ∧ (∀ (myConfig : ValueStore) (magnitude : CalibrationVariable),
        (SimpleGravity.construct myConfig false magnitude).g_m = none) := by
  refine ⟨fun magnitude => rfl, ?_, fun _ _ => rfl⟩
  intro myConfig magnitude frames r h
  unfold Model.construct at h
  rcases addFrames_ok_or_runtimeError frames Model.empty with ⟨m1, hm1, _⟩ | ⟨what, hw⟩
  · rw [hm1] at h
    simp [SimpleGravity.registerWithModel, SimpleGravity.construct, Module.registerWithModel,
      Module.isUsed] at h
  · rw [hw] at h
    cases h

/-! ### Claims C16 and C17 : module links -/

theorem moduleLink_construct_of_empty_required (ownerName linkName : String) :
    ModuleLinkBase.construct ownerName linkName "" true
      = .error (.runtimeError ("Empty required Link : "
          ++ (ModuleLinkBase.mk (ownerName ++ "." ++ linkName) "" true).toString)) := by
  simp [ModuleLinkBase.construct]

theorem moduleLink_construct_of_not_empty_required (ownerName linkName targetUid : String)
    (required : Bool) (h : ¬ (required = true ∧ targetUid = "")) :
    ModuleLinkBase.construct ownerName linkName targetUid required
      = .ok ⟨ownerName ++ "." ++ linkName, targetUid, required⟩ := by
  unfold ModuleLinkBase.construct
  have : ¬ ((required && decide (targetUid = "")) = true) := by
    simpa using h
  simp only [if_neg this]

theorem string_mk_eq_empty (t : List Char) : String.mk t = "" ↔ t = [] := by
  constructor
  · intro h
    exact congrArg String.data h
  · intro h
    rw [h]

/-- C16. The constructor `ModuleLinkBase(ownerName, linkName, targetUid, required)` throws if and
only if the link is required and `targetUid` is empty; otherwise it yields the link with the
name `ownerName + "." + linkName`, the given target and the given flag. The constructor that
reads the target from the configuration of the owner never throws for an optional link, and
for a target found in the configuration it throws if and only if the link is required and the
target is empty; the link it yields is appended to the links of the owner. -/
theorem moduleLink_construct_throws_iff (ownerName linkName targetUid : String)
    (required : Bool) :
    ((∃ e, ModuleLinkBase.construct ownerName linkName targetUid required = .error e)
        ↔ (required = true ∧ targetUid = ""))
    ∧ (¬ (required = true ∧ targetUid = "") →
        ∃ l, ModuleLinkBase.construct ownerName linkName targetUid required = .ok l
          ∧ l.name = ownerName ++ "." ++ linkName ∧ l.targetUid = targetUid
          ∧ l.required = required)
    ∧ (∀ owner : Module, ∃ l owner1,
        ModuleLinkBase.constructFor owner linkName false = .ok (l, owner1)
          ∧ l.name = owner.name ++ "." ++ linkName ∧ l.required = false
          ∧ owner1.moduleLinks_ = owner.moduleLinks_ ++ [l])
    ∧ (∀ (owner : Module) (t : List Char), owner.myConfig.getString linkName = some t →
        ((∃ e, ModuleLinkBase.constructFor owner linkName required = .error e)
          ↔ (required = true ∧ t = []))
        ∧ (¬ (required = true ∧ t = []) → ∃ l owner1,
            ModuleLinkBase.constructFor owner linkName required = .ok (l, owner1)
              ∧ l.name = owner.name ++ "." ++ linkName ∧ l.targetUid = String.mk t
              ∧ owner1.moduleLinks_ = owner.moduleLinks_ ++ [l])) := by
  refine ⟨?_, ?_, ?_, ?_⟩
  · by_cases h : required = true ∧ targetUid = ""
    · obtain ⟨h1, h2⟩ := h
      subst h1 h2
      rw [moduleLink_construct_of_empty_required]
      simp
    · rw [moduleLink_construct_of_not_empty_required _ _ _ _ h]
      simp [h]
  · intro h
    exact ⟨_, moduleLink_construct_of_not_empty_required _ _ _ _ h, rfl, rfl, rfl⟩
  · intro owner
    refine ⟨⟨owner.name ++ "." ++ linkName,
      String.mk ((owner.myConfig.getString linkName).getD []), false⟩,
      { owner with moduleLinks_ := owner.moduleLinks_ ++ [⟨owner.name ++ "." ++ linkName,
        String.mk ((owner.myConfig.getString linkName).getD []), false⟩] }, ?_, rfl, rfl, rfl⟩
    simp only [ModuleLinkBase.constructFor, Bool.false_eq_true, if_false]
    rw [moduleLink_construct_of_not_empty_required _ _ _ _ (by simp)]
  · intro owner t ht
    have hred : ModuleLinkBase.constructFor owner linkName required
        = match ModuleLinkBase.construct owner.name linkName (String.mk t) required with
          | .error e => .error e
          | .ok l => .ok (l, { owner with moduleLinks_ := owner.moduleLinks_ ++ [l] }) := by
      unfold ModuleLinkBase.constructFor
      cases required <;> simp [ht]
    rw [hred]
    by_cases h : required = true ∧ t = []
    · obtain ⟨h1, h2⟩ := h
      subst h1 h2
      have h3 : String.mk [] = "" := rfl
      rw [h3, moduleLink_construct_of_empty_required]
      simp
    · have h2 : ¬ (required = true ∧ String.mk t = "") := by
        rw [string_mk_eq_empty]; exact h
      rw [moduleLink_construct_of_not_empty_required _ _ _ _ h2]
      refine ⟨by simp [h], fun _ => ⟨_, _, rfl, rfl, rfl, rfl⟩⟩

/-- An instance of C16: a required link without target throws, an optional one and a required
one with the target `imu` are built and are named `traj.McSensor`. -/
theorem moduleLink_construct_throws_iff_witness :
    (∃ e, ModuleLinkBase.construct "traj" "McSensor" "" true = .error e)
    ∧ (∃ l, ModuleLinkBase.construct "traj" "McSensor" "" false = .ok l
        ∧ l.name = "traj" ++ "." ++ "McSensor" ∧ l.targetUid = "" ∧ l.required = false)
    ∧ (∃ l, ModuleLinkBase.construct "traj" "McSensor" "imu" true = .ok l
        ∧ l.name = "traj" ++ "." ++ "McSensor" ∧ l.targetUid = "imu" ∧ l.required = true) :=
  ⟨(moduleLink_construct_throws_iff "traj" "McSensor" "" true).1.mpr ⟨rfl, rfl⟩,
   (moduleLink_construct_throws_iff "traj" "McSensor" "" false).2.1 (by decide),
   (moduleLink_construct_throws_iff "traj" "McSensor" "imu" true).2.1 (by decide)⟩

/-- C17. `ModuleLinkBase::checkAndAnnounceResolvedLink` throws if and only if the link is
required and it is not the case that a target module was found, is used and converts to the
required type; for an optional link it never throws. -/
theorem checkAndAnnounceResolvedLink_throws_iff (l : ModuleLinkBase) (to_ : Option Module)
    (convertsToRequiredType : Bool) :
    ((∃ e, l.checkAndAnnounceResolvedLink to_ convertsToRequiredType = .error e)
        ↔ (l.required = true
            ∧ ¬ ∃ t, to_ = some t ∧ t.isUsed = true ∧ convertsToRequiredType = true))
    ∧ (l.required = false →
        l.checkAndAnnounceResolvedLink to_ convertsToRequiredType = .ok ())
    ∧ ((∃ t, to_ = some t ∧ t.isUsed = true ∧ convertsToRequiredType = true) →
        l.checkAndAnnounceResolvedLink to_ convertsToRequiredType = .ok ()) := by
  unfold ModuleLinkBase.checkAndAnnounceResolvedLink
  cases to_ with
  | none =>
    cases hr : l.required <;> simp
  | some t =>
    cases hu : t.isUsed <;> cases hc : convertsToRequiredType <;> cases hr : l.required <;>
      simp [hu]

/-- An instance of C17: a required link does not throw for a used target of the right type,
and throws for a missing target, for one that is not used and for one of the wrong type; an
optional link throws for none of them. -/
theorem checkAndAnnounceResolvedLink_throws_iff_witness :
    (ModuleLinkBase.mk "traj.McSensor" "a" true).checkAndAnnounceResolvedLink
        (some (MotionCaptureSystem.asModule ⟨true, none, none, none⟩ "a" (sigmaStore "")
          false true)) true = .ok ()
    ∧ (∃ e, (ModuleLinkBase.mk "traj.McSensor" "a" true).checkAndAnnounceResolvedLink
        none true = .error e)
    ∧ (∃ e, (ModuleLinkBase.mk "traj.McSensor" "a" true).checkAndAnnounceResolvedLink
        (some (MotionCaptureSystem.asModule ⟨false, none, none, none⟩ "a" (sigmaStore "")
          false true)) true = .error e)
    ∧ (∃ e, (ModuleLinkBase.mk "traj.McSensor" "a" true).checkAndAnnounceResolvedLink
        (some (MotionCaptureSystem.asModule ⟨true, none, none, none⟩ "a" (sigmaStore "")
          false true)) false = .error e)
    ∧ (ModuleLinkBase.mk "traj.McSensor" "a" false).checkAndAnnounceResolvedLink
        none true = .ok () :=
  ⟨(checkAndAnnounceResolvedLink_throws_iff _ _ _).2.2 ⟨_, rfl, rfl, rfl⟩,
   (checkAndAnnounceResolvedLink_throws_iff _ _ _).1.mpr ⟨rfl, by simp⟩,
   (checkAndAnnounceResolvedLink_throws_iff _ _ _).1.mpr
     ⟨rfl, by simp [MotionCaptureSystem.asModule, Module.isUsed]⟩,
   (checkAndAnnounceResolvedLink_throws_iff _ _ _).1.mpr ⟨rfl, by simp⟩,
   (checkAndAnnounceResolvedLink_throws_iff _ _ _).2.1 rfl⟩

/-! ### Claims C18 and C19 : observing only, and activation -/

/-- C18. For every module and estimation configuration, `Module::shouldObserveOnly(ec)` is true
exactly when the module is an `Observer` whose observe-only setting is true, or is
`Activatable` and the error term activator of `ec` reports it inactive; a module with neither
capability is never observe-only. -/
theorem shouldObserveOnly_iff (mod : Module) (ec : EstConf) :
    (mod.shouldObserveOnly ec = true
        ↔ (mod.isObserver = true ∧ mod.isObserveOnly = true)
          ∨ (mod.isActivatable = true ∧ ec.errorTermActivator mod.name = false))
    ∧ (mod.isObserver = false → mod.isActivatable = false →
        mod.shouldObserveOnly ec = false) := by
  constructor
  · simp [Module.shouldObserveOnly]
  · intro h1 h2
    simp [Module.shouldObserveOnly, h1, h2]

/-- An instance of C18: a module without the two capabilities does not observe only, whatever
the activators say. -/
theorem shouldObserveOnly_iff_witness :
    (MotionCaptureSystem.asModule ⟨true, some 1, some 2, none⟩ "mcs" (sigmaStore "")
        false true).shouldObserveOnly ⟨fun _ => false, fun _ => false, true, true⟩ = false :=
  (shouldObserveOnly_iff (MotionCaptureSystem.asModule ⟨true, some 1, some 2, none⟩ "mcs"
      (sigmaStore "") false true) ⟨fun _ => false, fun _ => false, true, true⟩).2 rfl rfl

theorem setActive_false_keeps_inactive (m : Model) (id : Nat) (ids : List Nat)
    (h : ∀ c ∈ m.calibrationVariables, c.id ∈ ids → c.active = false) :
    ∀ c ∈ (m.setActive id false).calibrationVariables, c.id ∈ id :: ids → c.active = false := by
  intro c hc hid
  simp only [Model.setActive, List.mem_map] at hc
  obtain ⟨d, hd, hdc⟩ := hc
  by_cases hdi : d.id = id
  · rw [if_pos hdi] at hdc
    rw [← hdc]
    rfl
  · rw [if_neg hdi] at hdc
    subst hdc
    rcases List.mem_cons.mp hid with h1 | h1
    · exact absurd h1 hdi
    · exact h d hd h1

theorem applySetActive_false_inactive (calls : List (Nat × Bool)) (m : Model) (ids : List Nat)
    (hcalls : ∀ call ∈ calls, call.2 = false)
    (h : ∀ c ∈ m.calibrationVariables, c.id ∈ ids → c.active = false) :
    ∀ c ∈ (m.applySetActive calls).calibrationVariables,
      (c.id ∈ ids ∨ c.id ∈ calls.map Prod.fst) → c.active = false := by
  induction calls generalizing m ids with
  | nil =>
    intro c hc hid
    rcases hid with hid | hid
    · exact h c hc hid
    · simp at hid
  | cons call calls ih =>
    intro c hc hid
    have hcall : call.2 = false := hcalls call (by simp)
    have hstep := setActive_false_keeps_inactive m call.1 ids h
    simp only [Model.applySetActive, List.foldl_cons] at hc
    rw [hcall] at hc
    refine ih (m.setActive call.1 false) (call.1 :: ids)
      (fun x hx => hcalls x (List.mem_cons_of_mem _ hx)) hstep c hc ?_
    rcases hid with hid | hid
    · exact Or.inl (List.mem_cons_of_mem _ hid)
    · rw [List.map_cons] at hid
      rcases List.mem_cons.mp hid with h1 | h1
      · exact Or.inl (by rw [h1]; simp)
      · exact Or.inr h1

theorem mem_updateCVIndices (m : Model) (c : CalibrationVariable)
    (hc : c ∈ m.updateCVIndices.calibrationVariables) :
    (c.active = false → c.index = -1)
      ∧ ∃ d ∈ m.calibrationVariables, d.id = c.id ∧ d.active = c.active := by
  constructor
  · intro hact
    obtain ⟨k, hk⟩ := List.mem_iff_getElem?.mp hc
    have := indicesConsistent_updateCVIndicesFrom m.calibrationVariables k c hk
    rw [this, hact]
    rfl
  · have hf := updateCVIndicesFrom_fields 0 m.calibrationVariables
    have hmem : (c.id, c.active, c.dimension)
        ∈ (updateCVIndicesFrom 0 m.calibrationVariables).map
            (fun c => (c.id, c.active, c.dimension)) :=
      List.mem_map.mpr ⟨c, hc, rfl⟩
    rw [hf] at hmem
    obtain ⟨d, hd, hdc⟩ := List.mem_map.mp hmem
    refine ⟨d, hd, ?_, ?_⟩
    · exact congrArg Prod.fst hdc
    · exact congrArg (fun x => x.2.1) hdc

/-- C19. `Module::setCalibrationActive(ec)` calls the module's `setActive` with the flags
`a && ec.isSpatialActive()` and `a && ec.isTemporalActive()`, where `a` is the conjunction of
the four gates, and then re-indexes the model. For a module that observes only, or that is
not to be calibrated, the call is `setActive(false, false)` whatever the activator says; if
that call passes its flags on to the variables of the module, as
`MotionCaptureSystem::setActive` does, each of those variables in the model is inactive
afterwards and carries index -1, as does every inactive variable of the model. -/
theorem setCalibrationActive_gates (mod : Module) (ec : EstConf) (m : Model) :
    (mod.setCalibrationActive ec m
        = (m.applySetActive (mod.setActive
            (((!mod.isActivatable || ec.calibrationActivator mod.name)
                && (!mod.isObserver || !mod.isObserveOnly)
                && (!mod.isCalibratable || mod.isToBeCalibrated)
                && mod.isCalibrationIntended ec) && ec.isSpatialActive)
            (((!mod.isActivatable || ec.calibrationActivator mod.name)
                && (!mod.isObserver || !mod.isObserveOnly)
                && (!mod.isCalibratable || mod.isToBeCalibrated)
                && mod.isCalibrationIntended ec) && ec.isTemporalActive))).updateCVIndices)
    ∧ (((mod.isObserver = true ∧ mod.isObserveOnly = true)
          ∨ (mod.isCalibratable = true ∧ mod.isToBeCalibrated = false)) →
        mod.setCalibrationActive ec m
            = (m.applySetActive (mod.setActive false false)).updateCVIndices
        ∧ ((∀ call ∈ mod.setActive false false, call.2 = false) →
            ∀ c ∈ (mod.setCalibrationActive ec m).calibrationVariables,
              c.id ∈ (mod.setActive false false).map Prod.fst →
                c.active = false ∧ c.index = -1))
    ∧ (∀ c ∈ (mod.setCalibrationActive ec m).calibrationVariables,
        c.active = false → c.index = -1)
    ∧ (∀ (s : MotionCaptureSystem), ∀ call ∈ s.setActive false false, call.2 = false) := by
  refine ⟨rfl, ?_, ?_, ?_⟩
  · intro hgate
    have hactive : mod.calibrationActive ec = false := by
      unfold Module.calibrationActive
      rcases hgate with ⟨h1, h2⟩ | ⟨h1, h2⟩ <;> simp [h1, h2]
    have heq : mod.setCalibrationActive ec m
        = (m.applySetActive (mod.setActive false false)).updateCVIndices := by
      simp only [Module.setCalibrationActive, hactive, Bool.false_and]
    refine ⟨heq, ?_⟩
    intro hcalls c hc hid
    rw [heq] at hc
    obtain ⟨hidx, d, hd, hdid, hdact⟩ := mem_updateCVIndices _ c hc
    have hinactive := applySetActive_false_inactive (mod.setActive false false) m [] hcalls
      (by simp) d hd (Or.inr (by rw [hdid]; exact hid))
    have hcact : c.active = false := by rw [← hdact]; exact hinactive
    exact ⟨hcact, hidx hcact⟩
  · intro c hc hact
    exact (mem_updateCVIndices _ c hc).1 hact
  · intro s call hcall
    unfold MotionCaptureSystem.setActive PoseCv.setActive DelayCv.setActive at hcall
    by_cases hu : s.used_ = true
    · rw [if_pos hu] at hcall
      simp only [List.mem_append, List.mem_map] at hcall
      rcases hcall with ⟨_, _, h⟩ | ⟨_, _, h⟩ <;> rw [← h]
    · rw [if_neg hu] at hcall
      simp at hcall

/-- An instance of C19: a motion capture system with the rotation 1, the translation 2 and the
delay 3 that is not to be calibrated; its three variables are active and indexed in the model,
the activator says active and the configuration is spatially and temporally active. After
`setCalibrationActive` the three variables are inactive with index -1 and the remaining
variable 4 has index 0. -/
theorem setCalibrationActive_gates_witness :
    ((MotionCaptureSystem.asModule ⟨true, some 1, some 2, some 3⟩ "mcs" (sigmaStore "")
        true false).setCalibrationActive ⟨fun _ => true, fun _ => true, true, true⟩
        { calibrationVariables :=
            [⟨1, true, 3, 0⟩, ⟨4, true, 1, 3⟩, ⟨2, true, 3, 4⟩, ⟨3, true, 1, 7⟩] }
      ).calibrationVariables
      = [⟨1, false, 3, -1⟩, ⟨4, true, 1, 0⟩, ⟨2, false, 3, -1⟩, ⟨3, false, 1, -1⟩]
    ∧ ∀ c ∈ ((MotionCaptureSystem.asModule ⟨true, some 1, some 2, some 3⟩ "mcs"
        (sigmaStore "") true false).setCalibrationActive
        ⟨fun _ => true, fun _ => true, true, true⟩
        { calibrationVariables :=
            [⟨1, true, 3, 0⟩, ⟨4, true, 1, 3⟩, ⟨2, true, 3, 4⟩, ⟨3, true, 1, 7⟩] }
      ).calibrationVariables,
      c.id ∈ ((MotionCaptureSystem.asModule ⟨true, some 1, some 2, some 3⟩ "mcs"
        (sigmaStore "") true false).setActive false false).map Prod.fst →
        c.active = false ∧ c.index = -1 :=
  ⟨by decide,
   ((setCalibrationActive_gates
      (MotionCaptureSystem.asModule ⟨true, some 1, some 2, some 3⟩ "mcs" (sigmaStore "")
        true false) ⟨fun _ => true, fun _ => true, true, true⟩
      { calibrationVariables :=
          [⟨1, true, 3, 0⟩, ⟨4, true, 1, 3⟩, ⟨2, true, 3, 4⟩, ⟨3, true, 1, 7⟩] }).2.1
      (Or.inr ⟨rfl, rfl⟩)).2 (by decide)⟩

/-! ### Claim C20 : pose error terms of the motion capture sensor -/

theorem poseErrorTerm_unconditional {Pose : Type} (hasDelay : Bool) (interval : Interval)
    (lo hi : ℚ) (m : ℚ × Pose)
    (h : classifyTimestamp hasDelay interval lo hi m.1 = .unconditional) :
    MotionCaptureSensor.poseErrorTerm hasDelay interval (interval.start + hi)
      (interval.end_ + lo) m = some ⟨m.1, m.2, []⟩ := by
  unfold classifyTimestamp at h
  by_cases hw : interval.start + hi ≤ m.1 ∧ m.1 ≤ interval.end_ + lo
  · have h1 : ¬ interval.start + hi > m.1 := not_lt.mpr hw.1
    have h2 : ¬ interval.end_ + lo < m.1 := not_lt.mpr hw.2
    simp [MotionCaptureSensor.poseErrorTerm, h1, h2]
  · rw [if_neg hw] at h
    cases hasDelay <;> simp at h

theorem poseErrorTerm_conditional {Pose : Type} (hasDelay : Bool) (interval : Interval)
    (lo hi : ℚ) (m : ℚ × Pose)
    (h : classifyTimestamp hasDelay interval lo hi m.1 = .conditional) :
    ∃ conditions, conditions ≠ []
      ∧ MotionCaptureSensor.poseErrorTerm hasDelay interval (interval.start + hi)
          (interval.end_ + lo) m = some ⟨m.1, m.2, conditions⟩
      ∧ conditions
          = (if m.1 < interval.start + hi then [.notBeforeStart m.1 interval.start] else [])
            ++ (if interval.end_ + lo < m.1 then [.notAfterEnd m.1 interval.end_] else []) := by
  unfold classifyTimestamp at h
  by_cases hw : interval.start + hi ≤ m.1 ∧ m.1 ≤ interval.end_ + lo
  · rw [if_pos hw] at h
    cases h
  · rw [if_neg hw] at h
    have hd : hasDelay = true := by
      cases hasDelay
      · simp at h
      · rfl
    subst hd
    by_cases h1 : m.1 < interval.start + hi
    · by_cases h2 : interval.end_ + lo < m.1
      · refine ⟨_, ?_, ?_, rfl⟩
        · simp [h1, h2]
        · simp [MotionCaptureSensor.poseErrorTerm, h1, h2]
      · refine ⟨_, ?_, ?_, rfl⟩
        · simp [h1, h2]
        · simp [MotionCaptureSensor.poseErrorTerm, h1, h2]
    · by_cases h2 : interval.end_ + lo < m.1
      · refine ⟨_, ?_, ?_, rfl⟩
        · simp [h1, h2]
        · simp [MotionCaptureSensor.poseErrorTerm, h1, h2]
      · exact absurd ⟨not_lt.mp h1, not_lt.mp h2⟩ hw

theorem poseErrorTerm_dropped {Pose : Type} (hasDelay : Bool) (interval : Interval)
    (lo hi : ℚ) (m : ℚ × Pose)
    (h : classifyTimestamp hasDelay interval lo hi m.1 = .dropped) :
    MotionCaptureSensor.poseErrorTerm hasDelay interval (interval.start + hi)
      (interval.end_ + lo) m = none := by
  unfold classifyTimestamp at h
  by_cases hw : interval.start + hi ≤ m.1 ∧ m.1 ≤ interval.end_ + lo
  · rw [if_pos hw] at h
    cases h
  · rw [if_neg hw] at h
    have hd : hasDelay = false := by
      cases hasDelay
      · rfl
      · simp at h
    subst hd
    have hout : interval.start + hi > m.1 ∨ interval.end_ + lo < m.1 := by
      by_contra hcon
      push_neg at hcon
      exact hw ⟨hcon.1, hcon.2⟩
    rcases hout with h1 | h1 <;> simp [MotionCaptureSensor.poseErrorTerm, h1]

/-- C20. When the storage holds an entry of the sensor and the current delay lies within its
bounds `[lo, hi]`, `MotionCaptureSensor::addMeasurementErrorTerms` adds, in the order of the
measurements of the entry, the terms of the loop body, and the loop body classifies a
measurement by its timestamp `t` as the claim says: inside `[start + hi, end + lo]` it adds an
unconditional term for the measurement; outside, it adds a term with at least one condition if
the sensor has a delay and adds nothing if it has none. The unconditional case is sound: for
`t` in `[start + hi, end + lo]` and every delay `d` in `[lo, hi]`, `start <= t - d <= end`,
that is, both conditions would hold. -/
theorem addMeasurementErrorTerms_classifies {Pose : Type} (hasDelay : Bool) (lo hi : ℚ)
    (currentDelay : ℚ) (interval : Interval) (storage : ModuleStorage Pose)
    (hm : AbstractPoseSensor.hasMeasurements storage = true)
    (hlo : lo ≤ currentDelay) (hhi : currentDelay ≤ hi) :
    MotionCaptureSensor.addMeasurementErrorTerms hasDelay lo hi currentDelay interval storage
        = .ok ((AbstractPoseSensor.getAllMeasurements storage).filterMap
            (MotionCaptureSensor.poseErrorTerm hasDelay interval
              (interval.start + hi) (interval.end_ + lo)))
    ∧ (∀ m : ℚ × Pose,
        (classifyTimestamp hasDelay interval lo hi m.1 = .unconditional →
          MotionCaptureSensor.poseErrorTerm hasDelay interval (interval.start + hi)
            (interval.end_ + lo) m = some ⟨m.1, m.2, []⟩)
        ∧ (classifyTimestamp hasDelay interval lo hi m.1 = .conditional →
          ∃ conditions, conditions ≠ []
            ∧ MotionCaptureSensor.poseErrorTerm hasDelay interval (interval.start + hi)
                (interval.end_ + lo) m = some ⟨m.1, m.2, conditions⟩)
        ∧ (classifyTimestamp hasDelay interval lo hi m.1 = .dropped →
          MotionCaptureSensor.poseErrorTerm hasDelay interval (interval.start + hi)
            (interval.end_ + lo) m = none))
    ∧ (∀ t d : ℚ, interval.start + hi ≤ t → t ≤ interval.end_ + lo → lo ≤ d → d ≤ hi →
        interval.start ≤ t - d ∧ t - d ≤ interval.end_
          ∧ (Condition.notBeforeStart t interval.start).holds d = true
          ∧ (Condition.notAfterEnd t interval.end_).holds d = true) := by
  refine ⟨?_, ?_, ?_⟩
  · have hd : ¬ (currentDelay < lo ∨ currentDelay > hi) := by
      rintro (h | h)
      · exact absurd hlo (not_le.mpr h)
      · exact absurd hhi (not_le.mpr h)
    simp only [MotionCaptureSensor.addMeasurementErrorTerms, hm, Bool.not_true,
      Bool.false_eq_true, if_false, if_neg hd]
  · intro m
    refine ⟨poseErrorTerm_unconditional hasDelay interval lo hi m, ?_,
      poseErrorTerm_dropped hasDelay interval lo hi m⟩
    intro h
    obtain ⟨conditions, h1, h2, _⟩ := poseErrorTerm_conditional hasDelay interval lo hi m h
    exact ⟨conditions, h1, h2⟩
  · intro t d h1 h2 h3 h4
    have h5 : interval.start ≤ t - d := by linarith
    have h6 : t - d ≤ interval.end_ := by linarith
    refine ⟨h5, h6, ?_, ?_⟩
    · simpa [Condition.holds] using h5
    · simpa [Condition.holds] using h6

/-- An instance of C20: the batch interval is `[0, 10]`, the delay bounds are `[-1, 1]` and the
sensor has a delay. The measurements at 0, 5 and 10 give a term with the start condition, an
unconditional term and a term with the end condition. -/
theorem addMeasurementErrorTerms_classifies_witness :
    MotionCaptureSensor.addMeasurementErrorTerms true (-1) 1 0 ⟨0, 10⟩
        (some [((0 : ℚ), "p0"), ((5 : ℚ), "p1"), ((10 : ℚ), "p2")])
      = .ok [⟨0, "p0", [.notBeforeStart 0 0]⟩, ⟨5, "p1", []⟩,
          ⟨10, "p2", [.notAfterEnd 10 10]⟩]
    ∧ MotionCaptureSensor.poseErrorTerm true ⟨0, 10⟩
        ((⟨0, 10⟩ : Interval).start + 1) ((⟨0, 10⟩ : Interval).end_ + (-1)) ((5 : ℚ), "p1")
      = some ⟨5, "p1", []⟩ :=
  ⟨(addMeasurementErrorTerms_classifies true (-1) 1 0 ⟨0, 10⟩
      (some [((0 : ℚ), "p0"), ((5 : ℚ), "p1"), ((10 : ℚ), "p2")])
      rfl (by norm_num) (by norm_num)).1.trans
        (by norm_num [AbstractPoseSensor.getAllMeasurements, StorageConnector.getDataFrom,
          MotionCaptureSensor.poseErrorTerm, List.filterMap]),
   ((addMeasurementErrorTerms_classifies true (-1) 1 0 ⟨0, 10⟩
      (some [((0 : ℚ), "p0"), ((5 : ℚ), "p1"), ((10 : ℚ), "p2")])
      rfl (by norm_num) (by norm_num)).2.1 ((5 : ℚ), "p1")).1
        (by simp [classifyTimestamp]; norm_num)⟩

/-! ### Claims C21 to C23 : conditions, delay bounds and empty storage -/

/-- C21. For every conditionally active pose error term, built for a timestamp `t` with
`t < start + hi` or `t > end + lo` by a sensor with a delay, and every delay `d` with
`lo <= d <= hi`, the conditions attached to the term hold together if and only if
`start <= t - d <= end`; if `t` lies outside `[start + lo, end + hi]` the term is inactive for
every such delay. -/
theorem conditional_term_active_iff {Pose : Type} (interval : Interval) (lo hi : ℚ)
    (m : ℚ × Pose) (hout : m.1 < interval.start + hi ∨ interval.end_ + lo < m.1) :
    ∃ e, MotionCaptureSensor.poseErrorTerm true interval (interval.start + hi)
          (interval.end_ + lo) m = some e
      ∧ e.timestamp = m.1 ∧ e.conditions ≠ []
      ∧ (∀ d : ℚ, lo ≤ d → d ≤ hi →
          (e.isActive d = true ↔ interval.start ≤ m.1 - d ∧ m.1 - d ≤ interval.end_))
      ∧ ((m.1 < interval.start + lo ∨ interval.end_ + hi < m.1) →
          ∀ d : ℚ, lo ≤ d → d ≤ hi → e.isActive d = false) := by
  have hclass : classifyTimestamp true interval lo hi m.1 = .conditional := by
    unfold classifyTimestamp
    have hw : ¬ (interval.start + hi ≤ m.1 ∧ m.1 ≤ interval.end_ + lo) := by
      rintro ⟨h1, h2⟩
      rcases hout with h | h
      · exact absurd h1 (not_le.mpr h)
      · exact absurd h2 (not_le.mpr h)
    rw [if_neg hw]
    rfl
  obtain ⟨conditions, hne, hterm, hconds⟩ :=
    poseErrorTerm_conditional true interval lo hi m hclass
  have hiff : ∀ d : ℚ, lo ≤ d → d ≤ hi →
      ((conditions.all (fun c => c.holds d)) = true
        ↔ interval.start ≤ m.1 - d ∧ m.1 - d ≤ interval.end_) := by
    intro d hd1 hd2
    rw [hconds]
    by_cases h1 : m.1 < interval.start + hi
    · by_cases h2 : interval.end_ + lo < m.1
      · simp [h1, h2, Condition.holds]
      · have h3 : m.1 - d ≤ interval.end_ := by linarith [not_lt.mp h2]
        simp [h1, h2, Condition.holds, h3]
    · by_cases h2 : interval.end_ + lo < m.1
      · have h3 : interval.start ≤ m.1 - d := by linarith [not_lt.mp h1]
        simp [h1, h2, Condition.holds, h3]
      · rcases hout with h | h
        · exact absurd h h1
        · exact absurd h h2
  refine ⟨⟨m.1, m.2, conditions⟩, hterm, rfl, hne, hiff, ?_⟩
  intro hfar d hd1 hd2
  have hnot : ¬ (interval.start ≤ m.1 - d ∧ m.1 - d ≤ interval.end_) := by
    rintro ⟨h3, h4⟩
    rcases hfar with h | h
    · linarith
    · linarith
  have := hiff d hd1 hd2
  show (conditions.all (fun c => c.holds d)) = false
  cases hall : conditions.all (fun c => c.holds d) with
  | false => rfl
  | true => exact absurd (this.mp hall) hnot

/-- An instance of C21: batch interval `[0, 10]`, delay bounds `[-1, 1]`, timestamp `1/2`: the
term carries the start condition and is active exactly for the delays of at most `1/2`. -/
theorem conditional_term_active_iff_witness :
    ∃ e, MotionCaptureSensor.poseErrorTerm true ⟨0, 10⟩ ((⟨0, 10⟩ : Interval).start + 1)
          ((⟨0, 10⟩ : Interval).end_ + (-1)) ((1 / 2 : ℚ), "p") = some e
      ∧ e.timestamp = 1 / 2 ∧ e.conditions ≠ []
      ∧ (∀ d : ℚ, (-1 : ℚ) ≤ d → d ≤ 1 →
          (e.isActive d = true ↔ (⟨0, 10⟩ : Interval).start ≤ (1 / 2 : ℚ) - d
            ∧ (1 / 2 : ℚ) - d ≤ (⟨0, 10⟩ : Interval).end_))
      ∧ (((1 / 2 : ℚ) < (⟨0, 10⟩ : Interval).start + (-1)
            ∨ (⟨0, 10⟩ : Interval).end_ + 1 < (1 / 2 : ℚ)) →
          ∀ d : ℚ, (-1 : ℚ) ≤ d → d ≤ 1 → e.isActive d = false) :=
  conditional_term_active_iff ⟨0, 10⟩ (-1) 1 ((1 / 2 : ℚ), "p") (Or.inl (by norm_num))

/-- C22, as stated, fails: when the storage holds no entry of the sensor the function returns
before it looks at the delay, so a delay of 5 with the bounds `[-1, 1]` is not reported. -/
theorem delay_out_of_bounds_unnoticed_without_data :
    ((5 : ℚ) < -1 ∨ (5 : ℚ) > 1)
    ∧ AbstractPoseSensor.hasMeasurements (none : ModuleStorage String) = false
    ∧ MotionCaptureSensor.addMeasurementErrorTerms true (-1) 1 5 ⟨0, 10⟩
        (none : ModuleStorage String) = .ok [] :=
  ⟨Or.inr (by norm_num), rfl, rfl⟩

/-- C22, amended. When the storage holds an entry of the sensor (`hasMeasurements(storage)`,
also for an entry with no measurement in it) and the current delay is below its lower bound or
above its upper bound, `addMeasurementErrorTerms` throws before the loop over the
measurements and adds no error term; a delay on a bound of `[lo, hi]` is accepted. When the
storage holds no entry of the sensor, the function returns normally, with no error term, before
it looks at the delay. -/
theorem delay_out_of_bounds_is_fatal {Pose : Type} (hasDelay : Bool) (lo hi currentDelay : ℚ)
    (interval : Interval) (storage : ModuleStorage Pose) :
    (AbstractPoseSensor.hasMeasurements storage = true →
      (currentDelay < lo ∨ currentDelay > hi) →
      MotionCaptureSensor.addMeasurementErrorTerms hasDelay lo hi currentDelay interval storage
        = .error (.runtimeError "Delay already out of bounds!"))
    ∧ (AbstractPoseSensor.hasMeasurements storage = true →
      lo ≤ hi → (currentDelay = lo ∨ currentDelay = hi) →
      ∃ terms, MotionCaptureSensor.addMeasurementErrorTerms hasDelay lo hi currentDelay
        interval storage = .ok terms)
    ∧ (AbstractPoseSensor.hasMeasurements storage = false →
      MotionCaptureSensor.addMeasurementErrorTerms hasDelay lo hi currentDelay interval storage
        = .ok []) := by
  refine ⟨?_, ?_, ?_⟩
  · intro hm h
    simp only [MotionCaptureSensor.addMeasurementErrorTerms, hm, Bool.not_true,
      Bool.false_eq_true, if_false, if_pos h]
  · intro hm hle hd
    have hin : ¬ (currentDelay < lo ∨ currentDelay > hi) := by
      rintro (h | h) <;> rcases hd with hd | hd <;> subst hd
      · exact lt_irrefl _ h
      · exact absurd hle (not_le.mpr h)
      · exact absurd hle (not_le.mpr h)
      · exact lt_irrefl _ h
    refine ⟨(AbstractPoseSensor.getAllMeasurements storage).filterMap
      (MotionCaptureSensor.poseErrorTerm hasDelay interval
        (interval.start + hi) (interval.end_ + lo)), ?_⟩
    simp only [MotionCaptureSensor.addMeasurementErrorTerms, hm, Bool.not_true,
      Bool.false_eq_true, if_false, if_neg hin]
  · intro hm
    simp only [MotionCaptureSensor.addMeasurementErrorTerms, hm, Bool.not_false, if_true]

/-- An instance of amended C22, with the bounds `[-1, 1]`: a delay of 5 is fatal with one
measurement in the storage and with an entry that holds no measurement, a delay of 1 is
accepted, and without an entry a delay of 5 goes unnoticed. -/
theorem delay_out_of_bounds_is_fatal_witness :
    MotionCaptureSensor.addMeasurementErrorTerms true (-1) 1 5 ⟨0, 10⟩ (some [((5 : ℚ), "p")])
      = .error (.runtimeError "Delay already out of bounds!")
    ∧ MotionCaptureSensor.addMeasurementErrorTerms true (-1) 1 5 ⟨0, 10⟩
        (some ([] : List (ℚ × String))) = .error (.runtimeError "Delay already out of bounds!")
    ∧ (∃ terms, MotionCaptureSensor.addMeasurementErrorTerms true (-1) 1 1 ⟨0, 10⟩
        (some [((5 : ℚ), "p")]) = .ok terms)
    ∧ MotionCaptureSensor.addMeasurementErrorTerms true (-1) 1 5 ⟨0, 10⟩
        (none : ModuleStorage String) = .ok [] :=
  ⟨(delay_out_of_bounds_is_fatal true (-1) 1 5 ⟨0, 10⟩ (some [((5 : ℚ), "p")])).1 rfl
      (Or.inr (by norm_num)),
   (delay_out_of_bounds_is_fatal true (-1) 1 5 ⟨0, 10⟩ (some [])).1 rfl
      (Or.inr (by norm_num)),
   (delay_out_of_bounds_is_fatal true (-1) 1 1 ⟨0, 10⟩ (some [((5 : ℚ), "p")])).2.1 rfl
      (by norm_num) (Or.inr rfl),
   (delay_out_of_bounds_is_fatal true (-1) 1 5 ⟨0, 10⟩ none).2.2 rfl⟩

/-- C23, as stated, fails: a storage whose entry of the sensor holds no measurement, as
`fetchMeasurementsFromSourceInto` leaves it when the source has no pose in the interval, passes
the test of `hasMeasurements`, and with a delay of 5 outside the bounds `[-1, 1]` the function
throws instead of returning. -/
theorem empty_measurement_set_can_be_fatal :
    MotionCaptureSensor.fetchMeasurementsFromSourceInto (some ([] : List (ℚ × String))) none
      = some []
    ∧ AbstractPoseSensor.getAllMeasurements (some ([] : List (ℚ × String))) = []
    ∧ AbstractPoseSensor.hasMeasurements (some ([] : List (ℚ × String))) = true
    ∧ MotionCaptureSensor.addMeasurementErrorTerms true (-1) 1 5 ⟨0, 10⟩
        (some ([] : List (ℚ × String))) = .error (.runtimeError "Delay already out of bounds!") := by
  refine ⟨rfl, rfl, rfl, ?_⟩
  have h : ((5 : ℚ) < -1 ∨ (5 : ℚ) > 1) := Or.inr (by norm_num)
  simp only [MotionCaptureSensor.addMeasurementErrorTerms, AbstractPoseSensor.hasMeasurements,
    StorageConnector.hasData, Option.isSome, Bool.not_true, Bool.false_eq_true, if_false,
    if_pos h]

/-- C23, amended. If the storage holds no entry of the sensor, `addMeasurementErrorTerms`
returns normally and adds no error term, whatever the delay and its bounds are. If the storage
holds an entry with no measurement in it, the function adds no error term either; it returns
normally when the current delay lies within its bounds and throws when it does not. -/
theorem no_measurements_no_error {Pose : Type} (hasDelay : Bool) (lo hi currentDelay : ℚ)
    (interval : Interval) (storage : ModuleStorage Pose) :
    (AbstractPoseSensor.hasMeasurements storage = false →
      MotionCaptureSensor.addMeasurementErrorTerms hasDelay lo hi currentDelay interval storage
        = .ok [])
    ∧ (storage = some [] → lo ≤ currentDelay → currentDelay ≤ hi →
      MotionCaptureSensor.addMeasurementErrorTerms hasDelay lo hi currentDelay interval storage
        = .ok [])
    ∧ (storage = some [] → (currentDelay < lo ∨ currentDelay > hi) →
      MotionCaptureSensor.addMeasurementErrorTerms hasDelay lo hi currentDelay interval storage
        = .error (.runtimeError "Delay already out of bounds!")) := by
  refine ⟨?_, ?_, ?_⟩
  · intro h
    simp only [MotionCaptureSensor.addMeasurementErrorTerms, h, Bool.not_false, if_true]
  · intro hs hlo hhi
    subst hs
    have hd : ¬ (currentDelay < lo ∨ currentDelay > hi) := by
      rintro (h | h)
      · exact absurd hlo (not_le.mpr h)
      · exact absurd hhi (not_le.mpr h)
    simp only [MotionCaptureSensor.addMeasurementErrorTerms, AbstractPoseSensor.hasMeasurements,
      StorageConnector.hasData, Option.isSome, Bool.not_true, Bool.false_eq_true, if_false,
      if_neg hd, AbstractPoseSensor.getAllMeasurements, StorageConnector.getDataFrom,
      Option.getD, List.filterMap]
  · intro hs h
    subst hs
    simp only [MotionCaptureSensor.addMeasurementErrorTerms, AbstractPoseSensor.hasMeasurements,
      StorageConnector.hasData, Option.isSome, Bool.not_true, Bool.false_eq_true, if_false,
      if_pos h]

/-- An instance of amended C23, with the bounds `[-1, 1]`: without an entry a delay of 5 gives
no error and no term, and an entry with no measurement gives no term with a delay of 0. -/
theorem no_measurements_no_error_witness :
    AbstractPoseSensor.hasMeasurements (none : ModuleStorage String) = false
    ∧ MotionCaptureSensor.addMeasurementErrorTerms false (-1) 1 5 ⟨0, 10⟩
        (none : ModuleStorage String) = .ok []
    ∧ MotionCaptureSensor.addMeasurementErrorTerms false (-1) 1 0 ⟨0, 10⟩
        (some ([] : List (ℚ × String))) = .ok [] :=
  ⟨rfl, (no_measurements_no_error false (-1) 1 5 ⟨0, 10⟩ none).1 rfl,
   (no_measurements_no_error false (-1) 1 0 ⟨0, 10⟩ (some [])).2.1 rfl
      (by norm_num) (by norm_num)⟩

/-! ### Claim C24 : storing through value handles -/

theorem storePackedFrom_length (vPacked : List ℚ) (i : Nat) (vhs : List ValueHandle) :
    (internal.storePackedFrom vPacked i vhs).length = vhs.length := by
  induction vhs generalizing i with
  | nil => rfl
  | cons vh vhs ih => simp [internal.storePackedFrom, ih]

theorem storePackedFrom_getElem? (vPacked : List ℚ) (i : Nat) (vhs : List ValueHandle)
    (k : Nat) (vh : ValueHandle) (h : vhs[k]? = some vh) :
    (internal.storePackedFrom vPacked i vhs)[k]?
      = some (if vh.isUpdateable then vh.update (vPacked.getD (i + k) 0) else vh) := by
  induction vhs generalizing i k with
  | nil => simp at h
  | cons w ws ih =>
    cases k with
    | zero =>
      simp only [List.getElem?_cons_zero, Option.some.injEq] at h
      subst h
      simp [internal.storePackedFrom]
    | succ k =>
      simp only [List.getElem?_cons_succ] at h
      simp only [internal.storePackedFrom, List.getElem?_cons_succ]
      rw [ih (i + 1) k h]
      have : i + 1 + k = i + (k + 1) := by omega
      rw [this]

/-- C24. `internal::storePacked`, through which `updateStore()` writes, has no failure: for
every list of value handles and every packed value with one component per handle, the handle
at position `i` holds component `i` afterwards if it is updatable and is as before if it is
not, so a skipped handle does not shift the later components; no handle is added or removed.
`updateStore()` stores the packed current value this way and records the current value as the
last stored one. -/
theorem storePacked_skips_read_only (vhs : List ValueHandle) (vPacked : List ℚ)
    (hlen : vPacked.length = vhs.length) :
    (internal.storePacked vhs vPacked).length = vhs.length
    ∧ (∀ (i : Nat) (vh : ValueHandle), vhs[i]? = some vh →
        ∃ v, vPacked[i]? = some v
          ∧ (internal.storePacked vhs vPacked)[i]?
              = some (if vh.isUpdateable then { value := v, updateable := true } else vh))
    ∧ (∀ (kin : Kinematics) (switchConvention : Bool) (dv : CalibrationDesignVariable),
        dv.vhs = vhs → dv.kind ≠ .rotation → dv.params = vPacked →
          (dv.updateStore kin switchConvention).vhs = internal.storePacked vhs vPacked
          ∧ (dv.updateStore kin switchConvention).upstreamValue_ = dv.params
          ∧ (dv.updateStore kin switchConvention).params = dv.params) := by
  refine ⟨storePackedFrom_length vPacked 0 vhs, ?_, ?_⟩
  · intro i vh hvh
    have hi : i < vhs.length := by
      rcases List.getElem?_eq_some.mp hvh with ⟨hi, _⟩
      exact hi
    have hi2 : i < vPacked.length := by rw [hlen]; exact hi
    refine ⟨vPacked[i], List.getElem?_eq_getElem hi2, ?_⟩
    unfold internal.storePacked
    rw [storePackedFrom_getElem? vPacked 0 vhs i vh hvh]
    by_cases hu : vh.isUpdateable = true
    · have hu2 : vh.updateable = true := hu
      have hget : vPacked.getD (0 + i) 0 = vPacked[i] := by
        rw [Nat.zero_add, List.getD_eq_getElem?_getD, List.getElem?_eq_getElem hi2]
        rfl
      rw [if_pos hu, if_pos hu, hget]
      simp [ValueHandle.update, hu2]
    · rw [if_neg hu, if_neg hu]
  · intro kin switchConvention dv hvhs hkind hparams
    refine ⟨?_, rfl, rfl⟩
    subst hvhs hparams
    unfold CalibrationDesignVariable.updateStore DVLoadTraits.store
    cases hk : dv.kind with
    | point => rfl
    | scalar => rfl
    | rotation => exact absurd hk hkind

/-- An instance of C24: of three handles the middle one cannot be updated; storing the
components 7, 8, 9 gives the handles the values 7, 2 (as before) and 9. -/
theorem storePacked_skips_read_only_witness :
    internal.storePacked [⟨1, true⟩, ⟨2, false⟩, ⟨3, true⟩] [7, 8, 9]
      = [⟨7, true⟩, ⟨2, false⟩, ⟨9, true⟩]
    ∧ (internal.storePacked [⟨1, true⟩, ⟨2, false⟩, ⟨3, true⟩] [7, 8, 9]).length
      = [(⟨1, true⟩ : ValueHandle), ⟨2, false⟩, ⟨3, true⟩].length :=
  ⟨by simp [internal.storePacked, internal.storePackedFrom, ValueHandle.isUpdateable,
      ValueHandle.update],
   (storePacked_skips_read_only [⟨1, true⟩, ⟨2, false⟩, ⟨3, true⟩] [7, 8, 9] rfl).1⟩

/-! ### Claim C25 : the prior error term -/

theorem zipWith_sub_zero_iff (a b : List ℚ) (h : a.length = b.length) :
    (∀ x ∈ List.zipWith (fun p q => p - q) a b, x = 0) ↔ a = b := by
  induction a generalizing b with
  | nil =>
    cases b with
    | nil => simp
    | cons y ys => simp at h
  | cons x xs ih =>
    cases b with
    | nil => simp at h
    | cons y ys =>
      simp only [List.length_cons, Nat.add_right_cancel_iff] at h
      simp only [List.zipWith_cons_cons, List.mem_cons, forall_eq_or_imp, List.cons.injEq]
      rw [ih ys h, sub_eq_zero]

/-- C25, as stated, fails. A scalar variable is loaded with the value 1, the optimizer moves it
to 3, and `createPriorErrorTerm()` is called: the measurement of the term is 3, its residual at
the last stored value 1 is -2 and its residual at 3 is zero. -/
theorem prior_does_not_pull_to_last_stored_value :
    ((CalibrationDesignVariable.construct ⟨fun v => v, fun v => v⟩ true .scalar false
        [⟨1, true⟩]).setParameters [3]).upstreamValue_ = [1]
    ∧ ((CalibrationDesignVariable.construct ⟨fun v => v, fun v => v⟩ true .scalar false
        [⟨1, true⟩]).setParameters [3]).createPriorErrorTerm ⟨fun v => v, fun v => v⟩
      = .measurement [3]
    ∧ PriorErrorTerm.residual (fun a b => List.zipWith (fun p q => p - q) a b)
        (((CalibrationDesignVariable.construct ⟨fun v => v, fun v => v⟩ true .scalar false
          [⟨1, true⟩]).setParameters [3]).createPriorErrorTerm ⟨fun v => v, fun v => v⟩)
        [1] = [-2]
    ∧ PriorErrorTerm.residual (fun a b => List.zipWith (fun p q => p - q) a b)
        (((CalibrationDesignVariable.construct ⟨fun v => v, fun v => v⟩ true .scalar false
          [⟨1, true⟩]).setParameters [3]).createPriorErrorTerm ⟨fun v => v, fun v => v⟩)
        [3] = [0] := by
  refine ⟨?_, ?_, ?_, ?_⟩
  · simp [CalibrationDesignVariable.construct, CalibrationDesignVariable.setParameters,
      DVLoadTraits.load, ParamsPackTraits.unpack, internal.loadPacked, ValueHandle.get]
  · simp [CalibrationDesignVariable.construct, CalibrationDesignVariable.setParameters,
      CalibrationDesignVariable.createPriorErrorTerm, CalibrationDesignVariable.getParams]
  · simp [CalibrationDesignVariable.construct, CalibrationDesignVariable.setParameters,
      CalibrationDesignVariable.createPriorErrorTerm, CalibrationDesignVariable.getParams,
      PriorErrorTerm.residual]
    norm_num
  · simp [CalibrationDesignVariable.construct, CalibrationDesignVariable.setParameters,
      CalibrationDesignVariable.createPriorErrorTerm, CalibrationDesignVariable.getParams,
      PriorErrorTerm.residual]

/-- C25, amended. For every variable kind `createPriorErrorTerm()` builds its error term from
the current value of the variable, whatever the last stored value is: two variables of the
same kind with the same current value get the same term. For a point, and for a scalar with
its one parameter, the term is a measurement term on the current value, whose residual is
zero exactly at that value; for a rotation it is the marginalisation prior taken at the
current value with zero offset. Right after construction, `updateStore` and `resetToStore`
the current value is the last stored value. -/
theorem prior_is_anchored_at_current_value (kin : Kinematics) (dv : CalibrationDesignVariable) :
    (∀ dv2 : CalibrationDesignVariable, dv2.kind = dv.kind → dv2.params = dv.params →
      dv2.createPriorErrorTerm kin = dv.createPriorErrorTerm kin)
    ∧ (dv.kind = .point ∨ (dv.kind = .scalar ∧ dv.params.length = 1) →
        dv.createPriorErrorTerm kin = .measurement dv.params
        ∧ ∀ (minimalDifference : List ℚ → List ℚ → List ℚ) (value : List ℚ),
            value.length = dv.params.length →
            ((∀ x ∈ (dv.createPriorErrorTerm kin).residual minimalDifference value, x = 0)
              ↔ value = dv.params))
    ∧ (dv.kind = .rotation →
        dv.createPriorErrorTerm kin = .marginalization dv.params [0, 0, 0])
    ∧ (∀ switchConvention : Bool,
        (dv.updateStore kin switchConvention).upstreamValue_
            = (dv.updateStore kin switchConvention).params
        ∧ (dv.resetToStore kin switchConvention).upstreamValue_
            = (dv.resetToStore kin switchConvention).params
        ∧ ∀ vhs : List ValueHandle,
            (CalibrationDesignVariable.construct kin switchConvention dv.kind
              dv.quaternionComponents vhs).upstreamValue_
            = (CalibrationDesignVariable.construct kin switchConvention dv.kind
              dv.quaternionComponents vhs).params) := by
  refine ⟨?_, ?_, ?_, ?_⟩
  · intro dv2 hk hp
    simp only [CalibrationDesignVariable.createPriorErrorTerm,
      CalibrationDesignVariable.getMinimalComponents, CalibrationDesignVariable.getParams,
      hk, hp]
  · intro hkind
    have hterm : dv.createPriorErrorTerm kin = .measurement dv.params := by
      rcases hkind with h | ⟨h, hl⟩
      · simp only [CalibrationDesignVariable.createPriorErrorTerm,
          CalibrationDesignVariable.getMinimalComponents, CalibrationDesignVariable.getParams,
          h, ParamsPackTraits.pack]
      · simp only [CalibrationDesignVariable.createPriorErrorTerm,
          CalibrationDesignVariable.getParams, h]
        cases hp : dv.params with
        | nil => rw [hp] at hl; simp at hl
        | cons x xs =>
          rw [hp] at hl
          have : xs = [] := by
            cases xs with
            | nil => rfl
            | cons y ys => simp at hl
          subst this
          rfl
    refine ⟨hterm, ?_⟩
    intro minimalDifference value hlen
    rw [hterm]
    exact zipWith_sub_zero_iff value dv.params hlen
  · intro h
    simp only [CalibrationDesignVariable.createPriorErrorTerm,
      CalibrationDesignVariable.getParams, h]
  · intro switchConvention
    exact ⟨rfl, rfl, fun _ => rfl⟩

/-- An instance of amended C25: the scalar variable of the counterexample, loaded with 1 and
moved to 3, gets a measurement term on 3 whose residual is zero exactly at 3. -/
theorem prior_is_anchored_at_current_value_witness :
    (⟨.scalar, [3], [1], [⟨1, true⟩], false⟩ : CalibrationDesignVariable).createPriorErrorTerm
        ⟨fun v => v, fun v => v⟩ = .measurement [3]
    ∧ ((∀ x ∈ ((⟨.scalar, [3], [1], [⟨1, true⟩], false⟩ :
          CalibrationDesignVariable).createPriorErrorTerm ⟨fun v => v, fun v => v⟩).residual
            (fun a b => List.zipWith (fun p q => p - q) a b) [3], x = 0)
        ↔ ([3] : List ℚ)
          = (⟨.scalar, [3], [1], [⟨1, true⟩], false⟩ : CalibrationDesignVariable).params) :=
  ⟨((prior_is_anchored_at_current_value ⟨fun v => v, fun v => v⟩
      ⟨.scalar, [3], [1], [⟨1, true⟩], false⟩).2.1 (Or.inr ⟨rfl, rfl⟩)).1,
   ((prior_is_anchored_at_current_value ⟨fun v => v, fun v => v⟩
      ⟨.scalar, [3], [1], [⟨1, true⟩], false⟩).2.1 (Or.inr ⟨rfl, rfl⟩)).2
      (fun a b => List.zipWith (fun p q => p - q) a b) [3] rfl⟩

/-! ### Packing, and claim C27 : the quaternion convention -/

theorem list_of_length_one (v : List ℚ) (h : v.length = 1) : [v.headD 0] = v := by
  cases v with
  | nil => simp at h
  | cons x xs =>
    cases xs with
    | nil => rfl
    | cons y ys => simp at h

/-- The packing of the point and scalar kinds is the identity: unpacking a packed vector gives
the vector back exactly (for the scalar kind on its one component), and
`setMinimalComponents(getMinimalComponents())` leaves such a variable as it is. The rotation
kind packs and unpacks with the axis-angle functions of `sm::kinematics`; nothing is stated
about it here. -/
theorem identity_packing_roundtrip (kin : Kinematics) :
    (∀ v : List ℚ,
      ParamsPackTraits.unpack kin .point (ParamsPackTraits.pack kin .point v) = v)
    ∧ (∀ v : List ℚ, v.length = 1 →
      ParamsPackTraits.unpack kin .scalar (ParamsPackTraits.pack kin .scalar v) = v)
    ∧ (∀ dv : CalibrationDesignVariable,
        dv.kind = .point ∨ (dv.kind = .scalar ∧ dv.params.length = 1) →
          dv.setMinimalComponents kin (dv.getMinimalComponents kin) = dv) := by
  refine ⟨fun v => rfl, fun v h => list_of_length_one v h, ?_⟩
  intro dv hkind
  rcases hkind with h | ⟨h, hl⟩
  · simp only [CalibrationDesignVariable.setMinimalComponents,
      CalibrationDesignVariable.getMinimalComponents, CalibrationDesignVariable.getParams,
      CalibrationDesignVariable.setParameters, h, ParamsPackTraits.pack,
      ParamsPackTraits.unpack]
    cases dv
    simp only at h
    subst h
    rfl
  · simp only [CalibrationDesignVariable.setMinimalComponents,
      CalibrationDesignVariable.getMinimalComponents, CalibrationDesignVariable.getParams,
      CalibrationDesignVariable.setParameters, h, ParamsPackTraits.pack,
      ParamsPackTraits.unpack, list_of_length_one dv.params hl]
    cases dv
    simp only at h
    subst h
    rfl

theorem quatInv_quatInv (q : List ℚ) : quatInv (quatInv q) = q := by
  rcases q with _ | ⟨a, _ | ⟨b, _ | ⟨c, _ | ⟨d, _ | ⟨e, r⟩⟩⟩⟩⟩ <;> simp [quatInv]

theorem storePacked_loadPacked (vhs : List ValueHandle) :
    internal.storePacked vhs (internal.loadPacked vhs) = vhs := by
  apply List.ext_getElem?
  intro k
  cases hk : vhs[k]? with
  | none =>
    rw [List.getElem?_eq_none_iff] at hk ⊢
    unfold internal.storePacked
    rw [storePackedFrom_length]
    exact hk
  | some vh =>
    unfold internal.storePacked
    rw [storePackedFrom_getElem? _ 0 vhs k vh hk]
    have hget : (internal.loadPacked vhs).getD (0 + k) 0 = vh.value := by
      rw [Nat.zero_add, List.getD_eq_getElem?_getD]
      simp [internal.loadPacked, hk, ValueHandle.get]
    rw [hget]
    by_cases hu : vh.isUpdateable = true
    · rw [if_pos hu]; rfl
    · rw [if_neg hu]

/-- C27. The switch is on by default, since the default external convention (Hamilton) is not
the internal one (JPL); `setExternalQuaternionConvention` turns it on exactly for a convention
other than the internal one, and `useJPLQuaternionConventionForInputOutput` turns it off. With
the switch on, loading conjugates the four components read through the handles and storing
conjugates the quaternion before it is written; with the switch off both pass the components
through. Under either setting, storing the quaternion that was just loaded leaves the four
handles with their original components. -/
theorem quaternion_convention_roundtrip (switchConvention : Bool) (vhs : List ValueHandle)
    (h : vhs.length = 4) :
    RotationQuaternionLoadImplQ.switchConvention = true
    ∧ useJPLQuaternionConventionForInputOutput = false
    ∧ (∀ c : QuaternionConvention,
        setExternalQuaternionConvention c = true ↔ c ≠ InternalConvention)
    ∧ RotationQuaternionLoadImplQ.load true vhs = quatInv (internal.loadPacked vhs)
    ∧ RotationQuaternionLoadImplQ.load false vhs = internal.loadPacked vhs
    ∧ (∀ v : List ℚ,
        RotationQuaternionLoadImplQ.store true vhs v = internal.storePacked vhs (quatInv v)
        ∧ RotationQuaternionLoadImplQ.store false vhs v = internal.storePacked vhs v)
    ∧ (∃ i j k w : ℚ, internal.loadPacked vhs = [i, j, k, w]
        ∧ quatInv (internal.loadPacked vhs) = [-i, -j, -k, w])
    ∧ RotationQuaternionLoadImplQ.store switchConvention vhs
        (RotationQuaternionLoadImplQ.load switchConvention vhs) = vhs := by
  refine ⟨by decide, by decide, ?_, rfl, rfl, fun v => ⟨rfl, rfl⟩, ?_, ?_⟩
  · intro c
    simp [setExternalQuaternionConvention]
  · rcases vhs with _ | ⟨a, _ | ⟨b, _ | ⟨c, _ | ⟨d, _ | ⟨e, r⟩⟩⟩⟩⟩ <;> simp at h
    exact ⟨a.value, b.value, c.value, d.value, rfl, rfl⟩
  · unfold RotationQuaternionLoadImplQ.store RotationQuaternionLoadImplQ.load
      RotationQuaternionLoadImplQ.switchQuaternionConvention
    cases switchConvention
    · simp only [Bool.false_eq_true, if_false]
      exact storePacked_loadPacked vhs
    · simp only [if_true]
      rw [quatInv_quatInv]
      exact storePacked_loadPacked vhs

/-- An instance of C27: the handles hold 1, 2, 3, 4; with the switch on they are loaded as
-1, -2, -3, 4, and storing that quaternion leaves 1, 2, 3, 4 in the handles. -/
theorem quaternion_convention_roundtrip_witness :
    RotationQuaternionLoadImplQ.load true [⟨1, true⟩, ⟨2, true⟩, ⟨3, true⟩, ⟨4, true⟩]
      = [-1, -2, -3, 4]
    ∧ RotationQuaternionLoadImplQ.store true [⟨1, true⟩, ⟨2, true⟩, ⟨3, true⟩, ⟨4, true⟩]
        (RotationQuaternionLoadImplQ.load true
          [⟨1, true⟩, ⟨2, true⟩, ⟨3, true⟩, ⟨4, true⟩])
      = [⟨1, true⟩, ⟨2, true⟩, ⟨3, true⟩, ⟨4, true⟩] :=
  ⟨by simp [RotationQuaternionLoadImplQ.load,
      RotationQuaternionLoadImplQ.switchQuaternionConvention, internal.loadPacked,
      ValueHandle.get, quatInv],
   (quaternion_convention_roundtrip true [⟨1, true⟩, ⟨2, true⟩, ⟨3, true⟩, ⟨4, true⟩]
      rfl).2.2.2.2.2.2.2⟩

/-! ### Claim C28 : the message of a failed resolution -/

theorem checkAndAnnounceResolvedLink_message (l : ModuleLinkBase) (target : Module)
    (convertsToRequiredType : Bool) :
    (l.required = true → target.isUsed = true →
      l.checkAndAnnounceResolvedLink (some target) false
        = .error (.runtimeError (l.toString ++ " resolves to unused module!")))
    ∧ (l.required = true → target.isUsed = false →
      l.checkAndAnnounceResolvedLink (some target) convertsToRequiredType
        = .error (.runtimeError (l.toString ++ " resolves to used module but of wrong type!")))
    ∧ (l.required = true →
      l.checkAndAnnounceResolvedLink none convertsToRequiredType
        = .error (.runtimeError (l.toString ++ " could not be resolved!"))) := by
  refine ⟨?_, ?_, ?_⟩
  · intro hr hu
    simp [ModuleLinkBase.checkAndAnnounceResolvedLink, hr, hu]
  · intro hr hu
    simp [ModuleLinkBase.checkAndAnnounceResolvedLink, hr, hu]
  · intro hr
    simp [ModuleLinkBase.checkAndAnnounceResolvedLink, hr]

/-- C28 fails on the code. For the required link `traj.McSensor` to `a`, if `a` is a used
module that does not convert to the required type the message of
`checkAndAnnounceResolvedLink` says that the link resolves to an unused module, and if `a` is
not used it says that the link resolves to a used module of the wrong type: the two texts are
exchanged. Only the message for a missing target names its cause. -/
theorem resolution_messages_are_exchanged :
    (ModuleLinkBase.mk "traj.McSensor" "a" true).checkAndAnnounceResolvedLink
        (some (MotionCaptureSystem.asModule ⟨true, none, none, none⟩ "a" (sigmaStore "")
          false true)) false
      = .error (.runtimeError ((ModuleLinkBase.mk "traj.McSensor" "a" true).toString
          ++ " resolves to unused module!"))
    ∧ (ModuleLinkBase.mk "traj.McSensor" "a" true).checkAndAnnounceResolvedLink
        (some (MotionCaptureSystem.asModule ⟨false, none, none, none⟩ "a" (sigmaStore "")
          false true)) true
      = .error (.runtimeError ((ModuleLinkBase.mk "traj.McSensor" "a" true).toString
          ++ " resolves to used module but of wrong type!"))
    ∧ (ModuleLinkBase.mk "traj.McSensor" "a" true).checkAndAnnounceResolvedLink none true
      = .error (.runtimeError ((ModuleLinkBase.mk "traj.McSensor" "a" true).toString
          ++ " could not be resolved!")) :=
  ⟨(checkAndAnnounceResolvedLink_message (ModuleLinkBase.mk "traj.McSensor" "a" true)
      (MotionCaptureSystem.asModule ⟨true, none, none, none⟩ "a" (sigmaStore "") false true)
      false).1 rfl rfl,
   (checkAndAnnounceResolvedLink_message (ModuleLinkBase.mk "traj.McSensor" "a" true)
      (MotionCaptureSystem.asModule ⟨false, none, none, none⟩ "a" (sigmaStore "") false true)
      true).2.1 rfl rfl,
   (checkAndAnnounceResolvedLink_message (ModuleLinkBase.mk "traj.McSensor" "a" true)
      (MotionCaptureSystem.asModule ⟨true, none, none, none⟩ "a" (sigmaStore "") false true)
      true).2.2 rfl⟩

/-! ### Claim C29 : what `addCalibrationVariables` appends -/

theorem mem_firstOccurrences (l : List Nat) (x : Nat) : x ∈ firstOccurrences l ↔ x ∈ l := by
  induction l with
  | nil => simp [firstOccurrences]
  | cons y ys ih =>
    simp only [firstOccurrences, List.mem_cons, List.mem_filter, ih, bne_iff_ne, ne_eq]
    by_cases h : x = y
    · simp [h]
    · simp [h]

theorem nodup_firstOccurrences (l : List Nat) : (firstOccurrences l).Nodup := by
  induction l with
  | nil => simp [firstOccurrences]
  | cons y ys ih =>
    simp only [firstOccurrences, List.nodup_cons, List.mem_filter, bne_iff_ne, ne_eq,
      not_true_eq_false, and_false, not_false_eq_true, true_and]
    exact ih.filter _

theorem firstOccurrences_filter (p : Nat → Bool) (l : List Nat) :
    firstOccurrences (l.filter p) = (firstOccurrences l).filter p := by
  induction l with
  | nil => simp [firstOccurrences]
  | cons y ys ih =>
    by_cases hp : p y = true
    · rw [List.filter_cons_of_pos hp, firstOccurrences, firstOccurrences,
        List.filter_cons_of_pos hp, ih, List.filter_filter, List.filter_filter]
      congr 1
      apply List.filter_congr
      intro x _
      exact Bool.and_comm _ _
    · rw [List.filter_cons_of_neg hp, firstOccurrences, List.filter_cons_of_neg hp, ih,
        List.filter_filter]
      apply List.filter_congr
      intro x _
      by_cases hx : x = y
      · subst hx
        simp [hp]
      · simp [hx]

theorem firstOccurrences_append (l k : List Nat) :
    firstOccurrences (l ++ k)
      = firstOccurrences l ++ firstOccurrences (k.filter (fun x => decide (x ∉ l))) := by
  induction l with
  | nil => simp [firstOccurrences]
  | cons y ys ih =>
    have hk : (firstOccurrences (k.filter (fun x => decide (x ∉ ys)))).filter
          (fun z => z != y)
        = firstOccurrences (k.filter (fun x => decide (x ∉ y :: ys))) := by
      rw [← firstOccurrences_filter, List.filter_filter]
      congr 1
      apply List.filter_congr
      intro x _
      by_cases hx : x = y <;> by_cases hm : x ∈ ys <;> simp [hx, hm]
    rw [List.cons_append, firstOccurrences, ih, List.filter_append, hk]
    rfl

theorem foldl_pushIfNew_appends (cvs : List (Option CalibrationVariable)) (m : Model) :
    ∃ added : List CalibrationVariable,
      (cvs.foldl Model.pushIfNew m).calibrationVariables = m.calibrationVariables ++ added
      ∧ added.Sublist (cvs.filterMap (fun cv => cv))
      ∧ instances added
        = firstOccurrences ((contributedInstances cvs).filter
            (fun x => decide (x ∉ instances m.calibrationVariables))) := by
  induction cvs generalizing m with
  | nil => exact ⟨[], by simp, by simp, by simp [instances, contributedInstances, firstOccurrences]⟩
  | cons cv cvs ih =>
    cases cv with
    | none =>
      obtain ⟨added, h1, h2, h3⟩ := ih m
      exact ⟨added, h1, h2, h3⟩
    | some c =>
      have hids : contributedInstances (some c :: cvs)
          = c.id :: contributedInstances cvs := rfl
      by_cases hc : c.id ∈ instances m.calibrationVariables
      · obtain ⟨added, h1, h2, h3⟩ := ih m
        refine ⟨added, ?_, ?_, ?_⟩
        · rw [List.foldl_cons, instances_pushIfNew_of_mem m c hc]; exact h1
        · exact h2.trans (List.sublist_cons_self _ _)
        · rw [h3, hids, List.filter_cons_of_neg (by simpa using hc)]
      · have hpush : (m.pushIfNew (some c)).calibrationVariables
            = m.calibrationVariables ++ [c] := by
          have : m.count c = 0 := (count_eq_zero_iff m c).mpr hc
          simp [Model.pushIfNew, this]
        have hinst : instances (m.calibrationVariables ++ [c])
            = instances m.calibrationVariables ++ [c.id] := by
          simp [instances]
        obtain ⟨added, h1, h2, h3⟩ := ih (m.pushIfNew (some c))
        refine ⟨c :: added, ?_, ?_, ?_⟩
        · rw [List.foldl_cons, h1, hpush]; simp
        · exact h2.cons₂ c
        · have hfilter : (contributedInstances cvs).filter
                (fun x => decide (x ∉ instances (m.pushIfNew (some c)).calibrationVariables))
              = ((contributedInstances cvs).filter
                  (fun x => decide (x ∉ instances m.calibrationVariables))).filter
                    (fun z => z != c.id) := by
            rw [List.filter_filter, hpush, hinst]
            apply List.filter_congr
            intro x _
            by_cases hx : x = c.id <;>
              by_cases hm : x ∈ instances m.calibrationVariables <;> simp [hx, hm]
          rw [hids, List.filter_cons_of_pos (by simpa using hc), firstOccurrences,
            ← firstOccurrences_filter, ← hfilter, ← h3]
          rfl

theorem instances_foldl_step (ops : List ModelOp) (m : Model) (l : List Nat)
    (h : instances m.calibrationVariables = firstOccurrences l) :
    instances (ops.foldl Model.step m).calibrationVariables
      = firstOccurrences (l ++ (ops.map ModelOp.contributed).flatten) := by
  induction ops generalizing m l with
  | nil => simpa using h
  | cons op ops ih =>
    rw [List.foldl_cons, List.map_cons, List.flatten_cons, ← List.append_assoc]
    apply ih
    cases op with
    | addCalibrationVariables cvs =>
      obtain ⟨added, h1, _, h3⟩ := foldl_pushIfNew_appends cvs m
      simp only [Model.step, Model.addCalibrationVariables, ModelOp.contributed]
      rw [instances_updateCVIndices, h1, firstOccurrences_append]
      show instances (m.calibrationVariables ++ added) = _
      have happ : instances (m.calibrationVariables ++ added)
          = instances m.calibrationVariables ++ instances added := by
        simp [instances]
      rw [happ, h3, h]
      congr 2
      apply List.filter_congr
      intro x _
      simp [mem_firstOccurrences]
    | setCalibrationActive mod ec =>
      simp only [Model.step, Module.setCalibrationActive, ModelOp.contributed,
        List.append_nil]
      rw [instances_updateCVIndices, instances_applySetActive]
      exact h
    | setActive id b =>
      simp only [Model.step, ModelOp.contributed, List.append_nil]
      rw [instances_setActive]
      exact h
    | updateCVIndices =>
      simp only [Model.step, ModelOp.contributed, List.append_nil]
      rw [instances_updateCVIndices]
      exact h

/-- C29. `Model::addCalibrationVariables` keeps every entry of the aggregate list at its place
and appends behind them, in the order of the arguments, the non-null arguments that are not
yet listed, each once: the appended instances are the first occurrences of the non-null
argument instances that the list did not hold. The indices are consistent after the call.
So after any sequence of operations the aggregate list holds the first occurrences of all
instances ever contributed, and its size is the number of distinct instances contributed. -/
theorem addCalibrationVariables_appends_new :
    (∀ (m : Model) (cvs : List (Option CalibrationVariable)),
      ∃ added : List CalibrationVariable,
        added.Sublist (cvs.filterMap (fun cv => cv))
        ∧ (m.addCalibrationVariables cvs).calibrationVariables.map
              (fun c => (c.id, c.active, c.dimension))
            = (m.calibrationVariables ++ added).map (fun c => (c.id, c.active, c.dimension))
        ∧ instances added
            = firstOccurrences ((contributedInstances cvs).filter
                (fun x => decide (x ∉ instances m.calibrationVariables)))
        ∧ IndicesConsistent (m.addCalibrationVariables cvs).calibrationVariables)
    ∧ (∀ ops : List ModelOp,
        instances (Model.run ops).calibrationVariables
            = firstOccurrences (ops.map ModelOp.contributed).flatten
        ∧ (Model.run ops).calibrationVariables.length
            = (ops.map ModelOp.contributed).flatten.toFinset.card) := by
  constructor
  · intro m cvs
    obtain ⟨added, h1, h2, h3⟩ := foldl_pushIfNew_appends cvs m
    refine ⟨added, h2, ?_, h3, indicesConsistent_updateCVIndicesFrom _⟩
    simp only [Model.addCalibrationVariables, Model.updateCVIndices]
    rw [updateCVIndicesFrom_fields, h1]
  · intro ops
    have h := instances_foldl_step ops Model.empty [] (by simp [Model.empty, instances, firstOccurrences])
    simp only [List.nil_append] at h
    refine ⟨h, ?_⟩
    have hlen : (Model.run ops).calibrationVariables.length
        = (instances (Model.run ops).calibrationVariables).length := by
      simp [instances]
    rw [hlen]
    have h2 : instances (Model.run ops).calibrationVariables
        = firstOccurrences (ops.map ModelOp.contributed).flatten := h
    rw [h2, ← List.toFinset_card_of_nodup (nodup_firstOccurrences _)]
    congr 1
    ext x
    simp [mem_firstOccurrences]

/-- An instance of C29: a module contributes a null rotation, the translation 2 and a null
delay to a model without variables, and contributes them again: the list holds exactly one
variable. -/
theorem addCalibrationVariables_appends_new_witness :
    (Model.run [.addCalibrationVariables [none, some ⟨2, false, 3, -1⟩, none],
        .addCalibrationVariables [none, some ⟨2, false, 3, -1⟩, none]]).calibrationVariables
      = [⟨2, false, 3, -1⟩]
    ∧ (Model.run [.addCalibrationVariables [none, some ⟨2, false, 3, -1⟩, none],
        .addCalibrationVariables [none, some ⟨2, false, 3, -1⟩,
          none]]).calibrationVariables.length
      = ([ModelOp.addCalibrationVariables [none, some ⟨2, false, 3, -1⟩, none],
          ModelOp.addCalibrationVariables [none, some ⟨2, false, 3, -1⟩, none]].map
            ModelOp.contributed).flatten.toFinset.card :=
  ⟨by decide,
   (addCalibrationVariables_appends_new.2
      [.addCalibrationVariables [none, some ⟨2, false, 3, -1⟩, none],
        .addCalibrationVariables [none, some ⟨2, false, 3, -1⟩, none]]).2⟩

/-! ### Claim C30 : the parameters of the model -/

theorem getParametersLoop_params (parameters : Nat → List ℚ) (cs : List CalibrationVariable)
    (index : Nat) (params : List ℚ) :
    (Model.getParametersLoop parameters cs index params).2 = params
    ∧ (Model.getParametersLoop parameters cs index params).1
      = index + (cs.map (fun c => (parameters c.id).length)).sum := by
  induction cs generalizing index with
  | nil => simp [Model.getParametersLoop]
  | cons c cs ih =>
    simp only [Model.getParametersLoop, List.map_cons, List.sum_cons]
    rw [(ih _).1, (ih _).2]
    exact ⟨rfl, by omega⟩

/-- C30 fails on the code. `Model::getParameters()` returns a vector of the right length, the
sum of the numbers of parameters, but never writes it: what it returns is the uninitialised
vector, whatever the parameter blocks of the variables hold. For a model with one variable
whose parameter block is 5 and a vector that starts out as 0, it returns 0 and not 5. -/
theorem getParameters_does_not_copy :
    (∀ (uninitialized : Nat → ℚ) (parameters : Nat → List ℚ) (m : Model),
      Model.getParameters uninitialized parameters m
          = (List.range (m.calibrationVariables.map
              (fun c => (parameters c.id).length)).sum).map uninitialized
      ∧ (Model.getParameters uninitialized parameters m).length
          = (m.calibrationVariables.map (fun c => (parameters c.id).length)).sum)
    ∧ Model.getParameters (fun _ => 0) (fun _ => [5])
        { calibrationVariables := [⟨1, true, 1, 0⟩] } = [0]
    ∧ Model.getParameters (fun _ => 0) (fun _ => [5])
        { calibrationVariables := [⟨1, true, 1, 0⟩] }
      ≠ (([⟨1, true, 1, 0⟩] : List CalibrationVariable).map
          (fun c => (fun _ => ([5] : List ℚ)) c.id)).flatten := by
  have hgen : ∀ (uninitialized : Nat → ℚ) (parameters : Nat → List ℚ) (m : Model),
      Model.getParameters uninitialized parameters m
          = (List.range (m.calibrationVariables.map
              (fun c => (parameters c.id).length)).sum).map uninitialized := by
    intro uninitialized parameters m
    unfold Model.getParameters
    exact (getParametersLoop_params parameters _ 0 _).1
  refine ⟨fun u p m => ⟨hgen u p m, by rw [hgen]; simp⟩, ?_, ?_⟩
  · rw [hgen]
    simp [List.range_succ]
  · rw [hgen]
    simp [List.range_succ]

end aslam.calibration
